import Mathlib

/-!
Shallow embedding of the Pyrite contest-presentation core (event ingest,
scoreboard computation, reveal state machine) and proofs about it.

Modelling conventions:

* RFC3339 instants and chrono durations are modelled as `Int` seconds.
  `chrono::TimeDelta::num_minutes` on whole-second values is integer division
  truncating toward zero, i.e. `Int.tdiv _ 60`.
* Rust `HashMap` values are modelled as association lists in insertion order:
  `get` finds the first matching key, an upsert replaces in place or appends,
  `values()` iterates in list order.  (Rust's iteration order is unspecified;
  insertion order is the canonical deterministic choice.)
* Rust `i32`/`i64` counters are modelled as `Int`; the quantities involved
  (points, minutes, penalties) stay far from the overflow boundary, which no
  claim depends on.
* A Rust panic (`unreachable!`) is modelled by an `Except` error where a claim
  is about the failure itself, and by a documented junk value where the
  surrounding pipeline never reaches the branch.
-/

namespace Pyrite

/-! ## Association-list maps (Rust `HashMap<String, α>` in insertion order) -/

def alGet {α : Type} (m : List (String × α)) (k : String) : Option α :=
  match m with
  | [] => none
  | (k', v) :: rest => if k' = k then some v else alGet rest k

def alContains {α : Type} (m : List (String × α)) (k : String) : Bool :=
  (alGet m k).isSome

/-- Upsert: replace the value in place if the key exists, else append.
Mirrors `HashMap::insert` / the `entry` API. -/
def alInsert {α : Type} (m : List (String × α)) (k : String) (v : α) :
    List (String × α) :=
  match m with
  | [] => [(k, v)]
  | (k', v') :: rest =>
    if k' = k then (k, v) :: rest else (k', v') :: alInsert rest k v

/-- Remove the entry for `k` (used to model `HashMap::remove`). -/
def alRemove {α : Type} (m : List (String × α)) (k : String) :
    List (String × α) :=
  match m with
  | [] => []
  | (k', v') :: rest =>
    if k' = k then rest else (k', v') :: alRemove rest k

def alValues {α : Type} (m : List (String × α)) : List α :=
  m.map Prod.snd

def alKeys {α : Type} (m : List (String × α)) : List String :=
  m.map Prod.fst

/-! ## Data model (`src/models.rs`) -/

/-- `models::JudgementType` (fields the core reads). -/
structure JudgementType where
  id : String
  name : String
  penalty : Bool
  solved : Bool
  deriving Repr, DecidableEq

/-- `models::Group` (fields the core reads). -/
structure Group where
  id : String
  name : String
  sortorder : Int
  deriving Repr, DecidableEq

/-- `models::Team` (fields the core reads). -/
structure Team where
  id : String
  name : String
  organization_id : Option String
  group_ids : List String
  deriving Repr, DecidableEq

/-- `models::Problem` (fields the core reads). -/
structure Problem where
  id : String
  ordinal : Int
  label : String
  deriving Repr, DecidableEq

/-- `models::Submission` (fields the core reads); `time` in seconds. -/
structure Submission where
  id : String
  team_id : String
  problem_id : String
  time : Option Int
  deriving Repr, DecidableEq

/-- `models::Judgement` (fields the core reads). -/
structure Judgement where
  id : String
  submission_id : String
  judgement_type_id : Option String
  start_time : Option Int
  deriving Repr, DecidableEq

/-- `models::Award`. -/
structure Award where
  id : String
  citation : String
  team_ids : List String
  deriving Repr, DecidableEq

/-- `models::Contest` (fields the core reads); times in seconds,
`penalty_time` in minutes as in the feed. -/
structure Contest where
  start_time : Option Int
  duration : Int
  scoreboard_freeze_duration : Int
  penalty_time : Int
  scoreboard_freeze_time : Option Int
  deriving Repr, DecidableEq

/-- `models::ProblemStat`. -/
structure ProblemStat where
  solved : Bool
  attempted_during_freeze : Bool
  penalty : Int
  submissions_before_solved : Int
  first_ac_time : Option Int
  deriving Repr, DecidableEq

/-- The initial stat inserted by `TeamStatus::add_submission`'s `or_insert`. -/
def ProblemStat.initial : ProblemStat :=
  { solved := false
    attempted_during_freeze := false
    penalty := 0
    submissions_before_solved := 0
    first_ac_time := none }

/-- `models::TeamStatus`. -/
structure TeamStatus where
  team_id : String
  team_name : String
  team_affiliation : String
  sortorder : Int
  total_points : Int
  total_penalty : Int
  last_ac_time : Option Int
  problem_stats : List (String × ProblemStat)
  deriving Repr, DecidableEq

attribute [ext] ProblemStat TeamStatus

instance : Inhabited TeamStatus :=
  ⟨{ team_id := "", team_name := "", team_affiliation := "", sortorder := 0,
     total_points := 0, total_penalty := 0, last_ac_time := none,
     problem_stats := [] }⟩

/-- `TeamStatus::new`. -/
def TeamStatus.new (team_id team_name team_affiliation : String)
    (sortorder : Int) : TeamStatus :=
  { team_id, team_name, team_affiliation, sortorder
    total_points := 0
    total_penalty := 0
    last_ac_time := none
    problem_stats := [] }

/-- `chrono::TimeDelta::num_minutes` on a whole-second duration:
seconds divided by 60 truncating toward zero. -/
def numMinutes (secs : Int) : Int := Int.tdiv secs 60

/-- `TeamStatus::add_submission` (src/models.rs:440-506).

The source receives `contest_start_time`/`contest_freeze_time` as `Option`s;
the freeze-time `None` arm is `unreachable!()` and the start-time `None` arm
returns early after logging, and the only pipeline caller
(`apply_judgement_to_status`) always passes `Some`, so both parameters are
modelled as plain values. -/
def TeamStatus.add_submission (self : TeamStatus) (problem_id : String)
    (submission_time : Int) (judgement_type_id : Option String)
    (judgement_types : List (String × JudgementType))
    (contest_start_time : Int) (contest_freeze_time : Int) : TeamStatus :=
  let stat0 := (alGet self.problem_stats problem_id).getD ProblemStat.initial
  let self := { self with
    problem_stats := alInsert self.problem_stats problem_id stat0 }
  if stat0.solved then self
  else
    match judgement_type_id.bind (alGet judgement_types) with
    | none => self
    | some judgement_type =>
      let stat1 := if judgement_type.penalty || judgement_type.solved then
          { stat0 with
            submissions_before_solved := stat0.submissions_before_solved + 1 }
        else stat0
      let stat2 := { stat1 with
        attempted_during_freeze := submission_time > contest_freeze_time }
      if judgement_type.solved then
        let contest_time := submission_time - contest_start_time
        let penalty_minutes := (stat2.submissions_before_solved - 1) * 20
        let problem_penalty := numMinutes contest_time + penalty_minutes
        let stat3 := { stat2 with
          solved := true
          first_ac_time := some submission_time
          penalty := problem_penalty }
        let self := { self with
          problem_stats := alInsert self.problem_stats problem_id stat3 }
        if stat3.attempted_during_freeze then
          self
        else
          { self with
            total_points := self.total_points + 1
            total_penalty := self.total_penalty + problem_penalty
            last_ac_time :=
              if self.last_ac_time.all (fun last => submission_time > last) then
                some submission_time
              else self.last_ac_time }
      else
        { self with problem_stats := alInsert self.problem_stats problem_id stat2 }

/-- The error raised (as a panic in the source) by the `(_, _)` arm of
`impl Ord for TeamStatus` — exactly one `last_ac_time` absent with all
earlier keys equal. -/
inductive CmpError where
  | inconsistentRanking
  deriving Repr, DecidableEq

/-- `impl Ord for TeamStatus` (src/models.rs:523-550), with the
`unreachable!()` arm modelled as the `InconsistentRanking` error. -/
def teamStatusCmpChecked (self other : TeamStatus) :
    Except CmpError Ordering :=
  if self.sortorder ≠ other.sortorder then
    .ok (compare self.sortorder other.sortorder)
  else if self.total_points ≠ other.total_points then
    .ok (compare other.total_points self.total_points)
  else if self.total_penalty ≠ other.total_penalty then
    .ok (compare self.total_penalty other.total_penalty)
  else
    match self.last_ac_time, other.last_ac_time with
    | some self_time, some other_time => .ok (compare self_time other_time)
    | none, none => .ok (compare self.team_id other.team_id)
    | _, _ => .error .inconsistentRanking

/-- Total comparator used where the source relies on `Ord` inside sorts and
heaps.  The panic arm yields a junk `.lt`; every status the pipeline builds
has `total_points = 0 ↔ last_ac_time = none`, so two statuses with equal
points never take that arm. -/
def teamStatusCmp (self other : TeamStatus) : Ordering :=
  match teamStatusCmpChecked self other with
  | .ok o => o
  | .error _ => .lt

/-! ## Stable sorting (Rust `slice::sort` / `sort_by`)

Rust's `slice::sort`/`sort_by` is stable.  A stable comparison sort is a
function of the input sequence and the comparator only (its output is the
unique sorted permutation in which elements comparing equal keep their input
order), so any stable sort is a faithful model; we use insertion sort. -/

/-- Insert `a` in front of the first element not strictly below it.  Elements
already in the list that compare equal to `a` stay in front of it only when
they are strictly below; since `a` comes from earlier in the input this
realizes stability. -/
def orderedInsertLt {α : Type} (lt : α → α → Bool) (a : α) :
    List α → List α
  | [] => [a]
  | b :: l => if lt b a then b :: orderedInsertLt lt a l else a :: b :: l

/-- Stable insertion sort by a strict comparator. -/
def stableSortBy {α : Type} (lt : α → α → Bool) : List α → List α
  | [] => []
  | a :: l => orderedInsertLt lt a (stableSortBy lt l)

/-- `Ord` for `Option<DateTime>`: `None` sorts below `Some`. -/
def cmpOptTime : Option Int → Option Int → Ordering
  | none, none => .eq
  | none, some _ => .lt
  | some _, none => .gt
  | some a, some b => compare a b

/-! ## Rust `std::collections::BinaryHeap`

`map_to_sorted_leaderboard` sorts by collecting into a `BinaryHeap` and
popping.  `BinaryHeap` is a max-heap and is *not* stable, so its exact
sift routines matter for ties; the functions below mirror the standard
library: `rebuild` (heapify via `sift_down_range`) for `From<Vec>`, and
`pop` (swap in the last element, then `sift_down_to_bottom`, which walks
the hole to the bottom along the larger-child path — ties pick the right
child — and then sifts up). -/

section BinaryHeap

variable {α : Type} [Inhabited α] (cmp : α → α → Ordering)

/-- `x <= y` under the comparator. -/
def cmpLe (x y : α) : Bool := cmp x y ≠ .gt

/-- `x >= y` under the comparator. -/
def cmpGe (x y : α) : Bool := cmp x y ≠ .lt

/-- `x < y` under the comparator. -/
def cmpLt (x y : α) : Bool := cmp x y = .lt

/-! The loop bodies below recurse on an explicit `fuel` so that they are
structural (and hence evaluate inside the kernel); every caller passes fuel
that exceeds the loop's step count — `sift_up` moves the hole strictly up,
the `sift_down`s move it strictly down — so the fuel-exhausted branch, which
mirrors the loop-exit action, is never the reason a loop stops. -/

/-- `BinaryHeap::sift_up` with the hole at `pos` holding `element`:
move ancestors down while `element` is greater than the parent, then place
`element`. -/
def siftUpGo : Nat → α → List α → Nat → Nat → List α
  | 0, element, arr, pos, _ => arr.set pos element
  | fuel + 1, element, arr, pos, start =>
    if start < pos then
      let parent := (pos - 1) / 2
      if cmpLe cmp element (arr.getD parent default) then arr.set pos element
      else siftUpGo fuel element (arr.set pos (arr.getD parent default))
        parent start
    else arr.set pos element

/-- The child index `sift_down` descends to: `child` is the left child
`2*pos+1`, bumped to the right child when `data[child] <= data[child+1]`
(ties pick the right child). -/
def largerChild (arr : List α) (pos : Nat) : Nat :=
  if cmpLe cmp (arr.getD (2 * pos + 1) default)
      (arr.getD (2 * pos + 2) default) then 2 * pos + 2
  else 2 * pos + 1

theorem lt_largerChild (arr : List α) (pos : Nat) :
    pos < largerChild cmp arr pos := by
  unfold largerChild
  split <;> omega

theorem largerChild_le (arr : List α) (pos : Nat) :
    largerChild cmp arr pos ≤ 2 * pos + 2 := by
  unfold largerChild
  split <;> omega

/-- Hole-walking loop of `BinaryHeap::sift_down_to_bottom`: move the hole to
the bottom along the larger-child path, returning the array and the final
hole position. -/
def siftDownToBottomGo : Nat → List α → Nat → Nat → List α × Nat
  | 0, arr, pos, _ => (arr, pos)
  | fuel + 1, arr, pos, endIdx =>
    if 2 * pos + 1 ≤ endIdx - 2 then
      siftDownToBottomGo fuel
        (arr.set pos (arr.getD (largerChild cmp arr pos) default))
        (largerChild cmp arr pos) endIdx
    else if 2 * pos + 1 = endIdx - 1 then
      (arr.set pos (arr.getD (2 * pos + 1) default), 2 * pos + 1)
    else (arr, pos)

/-- `BinaryHeap::sift_down_to_bottom`. -/
def siftDownToBottom (arr : List α) (pos : Nat) : List α :=
  let element := arr.getD pos default
  let walked := siftDownToBottomGo cmp arr.length arr pos arr.length
  siftUpGo cmp walked.2 element walked.1 walked.2 pos

/-- `BinaryHeap::sift_down_range` with the hole at `pos` holding
`element`. -/
def siftDownRangeGo : Nat → α → List α → Nat → Nat → List α
  | 0, element, arr, pos, _ => arr.set pos element
  | fuel + 1, element, arr, pos, endIdx =>
    if 2 * pos + 1 ≤ endIdx - 2 then
      if cmpGe cmp element (arr.getD (largerChild cmp arr pos) default) then
        arr.set pos element
      else
        siftDownRangeGo fuel element
          (arr.set pos (arr.getD (largerChild cmp arr pos) default))
          (largerChild cmp arr pos) endIdx
    else if 2 * pos + 1 = endIdx - 1 ∧
        cmpLt cmp element (arr.getD (2 * pos + 1) default) then
      (arr.set pos (arr.getD (2 * pos + 1) default)).set (2 * pos + 1)
        element
    else arr.set pos element

/-- `BinaryHeap::sift_down` = `sift_down_range` over the whole array. -/
def siftDown (arr : List α) (pos : Nat) : List α :=
  siftDownRangeGo cmp arr.length (arr.getD pos default) arr pos arr.length

/-- `BinaryHeap::rebuild`: heapify by sifting down positions
`len/2 - 1, …, 0`. -/
def rebuildGo (arr : List α) : Nat → List α
  | 0 => arr
  | n + 1 => rebuildGo (siftDown cmp arr n) n

/-- `BinaryHeap::from(Vec)`. -/
def rebuild (arr : List α) : List α :=
  rebuildGo cmp arr (arr.length / 2)

theorem siftUpGo_length (fuel : Nat) (element : α) (arr : List α)
    (pos start : Nat) :
    (siftUpGo cmp fuel element arr pos start).length = arr.length := by
  induction fuel generalizing element arr pos with
  | zero => simp [siftUpGo, List.length_set]
  | succ fuel ih =>
    rw [siftUpGo]
    by_cases h : start < pos
    · rw [if_pos h]
      by_cases hle : cmpLe cmp element (arr.getD ((pos - 1) / 2) default)
      · rw [if_pos hle]
        simp [List.length_set]
      · rw [if_neg hle, ih]
        simp [List.length_set]
    · rw [if_neg h]
      simp [List.length_set]

theorem siftDownToBottomGo_length (fuel : Nat) (arr : List α)
    (pos endIdx : Nat) :
    (siftDownToBottomGo cmp fuel arr pos endIdx).1.length = arr.length := by
  induction fuel generalizing arr pos with
  | zero => simp [siftDownToBottomGo]
  | succ fuel ih =>
    rw [siftDownToBottomGo]
    by_cases h : 2 * pos + 1 ≤ endIdx - 2
    · rw [if_pos h, ih]
      simp [List.length_set]
    · rw [if_neg h]
      by_cases h2 : 2 * pos + 1 = endIdx - 1
      · rw [if_pos h2]
        simp [List.length_set]
      · rw [if_neg h2]

theorem siftDownToBottom_length (arr : List α) (pos : Nat) :
    (siftDownToBottom cmp arr pos).length = arr.length := by
  unfold siftDownToBottom
  rw [siftUpGo_length, siftDownToBottomGo_length]

theorem siftDownRangeGo_length (fuel : Nat) (element : α) (arr : List α)
    (pos endIdx : Nat) :
    (siftDownRangeGo cmp fuel element arr pos endIdx).length = arr.length
    := by
  induction fuel generalizing element arr pos with
  | zero => simp [siftDownRangeGo, List.length_set]
  | succ fuel ih =>
    rw [siftDownRangeGo]
    by_cases h : 2 * pos + 1 ≤ endIdx - 2
    · rw [if_pos h]
      by_cases hge : cmpGe cmp element
          (arr.getD (largerChild cmp arr pos) default)
      · rw [if_pos hge]
        simp [List.length_set]
      · rw [if_neg hge, ih]
        simp [List.length_set]
    · rw [if_neg h]
      by_cases h2 : 2 * pos + 1 = endIdx - 1 ∧
          cmpLt cmp element (arr.getD (2 * pos + 1) default)
      · rw [if_pos h2]
        simp [List.length_set]
      · rw [if_neg h2]
        simp [List.length_set]

theorem siftDown_length (arr : List α) (pos : Nat) :
    (siftDown cmp arr pos).length = arr.length := by
  unfold siftDown
  rw [siftDownRangeGo_length]

theorem rebuildGo_length (arr : List α) (n : Nat) :
    (rebuildGo cmp arr n).length = arr.length := by
  induction n generalizing arr with
  | zero => simp [rebuildGo]
  | succ n ih =>
    rw [rebuildGo, ih, siftDown_length]

theorem rebuild_length (arr : List α) :
    (rebuild cmp arr).length = arr.length := by
  unfold rebuild
  rw [rebuildGo_length]

/-- `BinaryHeap::pop`: remove the last element; if the heap is still
non-empty swap it with the root and sift the root down. -/
def heapPop (arr : List α) : Option (α × List α) :=
  match arr with
  | [] => none
  | _ :: _ =>
    let item := arr.getLast!
    let data := arr.dropLast
    if data.isEmpty then some (item, data)
    else
      let root := data.getD 0 default
      some (root, siftDownToBottom cmp (data.set 0 item) 0)

theorem heapPop_length (arr rest : List α) (x : α)
    (h : heapPop cmp arr = some (x, rest)) : rest.length + 1 = arr.length := by
  match arr with
  | [] => simp [heapPop] at h
  | a :: l =>
    simp only [heapPop] at h
    by_cases he : (a :: l).dropLast.isEmpty
    · rw [if_pos he] at h
      simp only [Option.some.injEq, Prod.mk.injEq] at h
      obtain ⟨-, h2⟩ := h
      rw [List.isEmpty_iff] at he
      have hlen : (a :: l).dropLast.length = l.length := by simp
      rw [he] at hlen
      simp only [List.length_nil] at hlen
      rw [← h2, he]
      simp [← hlen]
    · rw [if_neg he] at h
      simp only [Option.some.injEq, Prod.mk.injEq] at h
      obtain ⟨-, h2⟩ := h
      rw [← h2, siftDownToBottom_length]
      simp [List.length_set]

/-- The pop loop of `map_to_sorted_leaderboard` (before the final
`reverse`): pop repeatedly, collecting in pop order. -/
def heapDrainGo : Nat → List α → List α
  | 0, _ => []
  | fuel + 1, arr =>
    match heapPop cmp arr with
    | none => []
    | some (x, rest) => x :: heapDrainGo fuel rest

def heapDrain (arr : List α) : List α :=
  heapDrainGo cmp arr.length arr

end BinaryHeap

/-! ## Contest processing (`src/services/contest_processor.rs`) -/

/-- `config_loader::PyriteConfig` (core fields). -/
structure PyriteConfig where
  filter_team_submissions : List String
  team_group_map : List (String × String)
  deriving Repr, DecidableEq

/-- In-memory contest state (`models::ContestState`); maps are association
lists in insertion order. -/
structure ContestState where
  contest : Option Contest
  judgement_types : List (String × JudgementType)
  groups : List (String × Group)
  teams : List (String × Team)
  problems : List (String × Problem)
  submissions : List (String × Submission)
  judgements : List (String × Judgement)
  awards : List (String × Award)
  leaderboard_pre_freeze : List TeamStatus
  leaderboard_finalized : List TeamStatus
  deriving Repr, DecidableEq

/-- `ContestState::new`. -/
def ContestState.new : ContestState :=
  { contest := none, judgement_types := [], groups := [], teams := []
    problems := [], submissions := [], judgements := [], awards := []
    leaderboard_pre_freeze := [], leaderboard_finalized := [] }

/-- `apply_submission_filters`. -/
def applySubmissionFilters (state : ContestState) (config : PyriteConfig) :
    ContestState :=
  if config.filter_team_submissions.isEmpty then state
  else
    let removed_submission_ids :=
      (state.submissions.filter
        (fun p => config.filter_team_submissions.contains p.2.team_id)).map
        Prod.fst
    if removed_submission_ids.isEmpty then state
    else
      { state with
        submissions := state.submissions.filter
          (fun p => !removed_submission_ids.contains p.1)
        judgements := state.judgements.filter
          (fun p => !removed_submission_ids.contains p.2.submission_id) }

/-- `apply_team_group_remap`. -/
def applyTeamGroupRemap (state : ContestState) (config : PyriteConfig) :
    Except String ContestState :=
  if config.team_group_map.isEmpty then .ok state
  else
    let step := fun (acc : ContestState × List String)
        (entry : String × String) =>
      let (st, errors) := acc
      if !(alContains st.groups entry.2) then
        (st, errors ++ ["team_group_map target group " ++ entry.2 ++
          " for team " ++ entry.1 ++ " does not exist"])
      else
        match alGet st.teams entry.1 with
        | none =>
          (st, errors ++ ["team_group_map team " ++ entry.1 ++
            " does not exist in event feed"])
        | some team =>
          ({ st with teams :=
              alInsert st.teams entry.1 { team with group_ids := [entry.2] } },
            errors)
    let result := config.team_group_map.foldl step (state, [])
    if result.2.isEmpty then .ok result.1
    else .error ("Invalid team_group_map entries (" ++
      toString result.2.length ++ "): " ++ String.intercalate " | " result.2)

/-- `validate_all_submissions_judged`: every submission id occurs among the
judgements' `submission_id`s; the first violation aborts. -/
def validateAllSubmissionsJudged (state : ContestState) :
    Except String Unit :=
  let judged_submission_ids :=
    (alValues state.judgements).map (fun j => j.submission_id)
  match (alKeys state.submissions).find?
      (fun sid => !judged_submission_ids.contains sid) with
  | some sid => .error ("Submission " ++ sid ++ " not judged")
  | none => .ok ()

/-- `validate_team_groups`: every team has a non-empty `group_ids` and every
referenced group exists; issues are collected and reported together. -/
def validateTeamGroups (state : ContestState) : Except String Unit :=
  let issues := (alValues state.teams).foldl
    (fun issues team =>
      if team.group_ids.isEmpty then
        issues ++ [team.id ++ " (" ++ team.name ++ ") has no group_ids"]
      else
        let unknown := team.group_ids.filter
          (fun gid => !(alContains state.groups gid))
        if !unknown.isEmpty then
          issues ++ [team.id ++ " (" ++ team.name ++
            ") has unknown group_ids: " ++ String.intercalate ", " unknown]
        else issues) []
  if issues.isEmpty then .ok ()
  else .error ("Invalid team group data for " ++ toString issues.length ++
    " team(s): " ++ String.intercalate " | " issues)

/-- `build_initial_team_status_map`. -/
def buildInitialTeamStatusMap (state : ContestState) :
    Except String (List (String × TeamStatus)) :=
  (alValues state.teams).foldlM
    (fun m team => do
      let sortorder :=
        ((team.group_ids.filterMap (alGet state.groups)).map
          (fun g => g.sortorder)).min?.getD 0
      match team.organization_id with
      | none => .error ("Missing organization_id for team " ++ team.id)
      | some team_affiliation =>
        .ok (alInsert m team.id
          (TeamStatus.new team.id team.name team_affiliation sortorder)))
    []

/-- The scoring key of `build_judgement_order`'s comparator:
`submissions.get(j.submission_id).and_then(|s| s.time).or(j.start_time)`. -/
def judgementSortKey (state : ContestState) (j : Judgement) : Option Int :=
  ((alGet state.submissions j.submission_id).bind (fun s => s.time)).or
    j.start_time

/-- `build_judgement_order`: stable sort of the judgements by scoring key. -/
def buildJudgementOrder (state : ContestState) : List Judgement :=
  stableSortBy
    (fun j1 j2 =>
      cmpOptTime (judgementSortKey state j1) (judgementSortKey state j2) = .lt)
    (alValues state.judgements)

/-- `map_to_sorted_leaderboard`: drain a `BinaryHeap` built from the map's
values and reverse the popped (descending) sequence. -/
def mapToSortedLeaderboard (m : List (String × TeamStatus)) :
    List TeamStatus :=
  (heapDrain teamStatusCmp (rebuild teamStatusCmp (alValues m))).reverse

/-- `apply_judgement_to_status`. -/
def applyJudgementToStatus (state : ContestState)
    (team_status_map : List (String × TeamStatus)) (judgement : Judgement)
    (contest_start_time contest_freeze_time : Int) :
    Except String (List (String × TeamStatus)) :=
  match alGet state.submissions judgement.submission_id with
  | none => .ok team_status_map
  | some submission =>
    match alGet team_status_map submission.team_id with
    | none => .error ("Unknown team id " ++ submission.team_id)
    | some team_status =>
      match submission.time with
      | none =>
        .error ("Unknown submission time for submission " ++ submission.id)
      | some submission_time =>
        .ok (alInsert team_status_map submission.team_id
          (team_status.add_submission submission.problem_id submission_time
            judgement.judgement_type_id state.judgement_types
            contest_start_time contest_freeze_time))

/-- The body of `recompute_team_totals` for one team: reset the totals and
re-accumulate them over the stored problem stats. -/
def recomputeStatusTotals (team : TeamStatus) : TeamStatus :=
  team.problem_stats.foldl
    (fun t p =>
      let stat := p.2
      if stat.solved then
        { t with
          total_points := t.total_points + 1
          total_penalty := t.total_penalty + stat.penalty
          last_ac_time :=
            match stat.first_ac_time with
            | some ac_time =>
              if t.last_ac_time.all (fun last => ac_time > last) then
                some ac_time
              else t.last_ac_time
            | none => t.last_ac_time }
      else t)
    { team with total_points := 0, total_penalty := 0, last_ac_time := none }

/-- `recompute_team_totals`. -/
def recomputeTeamTotals (m : List (String × TeamStatus)) :
    List (String × TeamStatus) :=
  m.map (fun p => (p.1, recomputeStatusTotals p.2))

/-- `compute_finalized_leaderboard`. -/
def computeFinalizedLeaderboard (state : ContestState) :
    Except String (List TeamStatus) := do
  match state.contest with
  | none => .error "Contest not defined"
  | some contest =>
    match contest.start_time with
    | none => .error "Contest start time not defined"
    | some contest_start_time =>
      match contest.scoreboard_freeze_time with
      | none => .error "Contest freeze time not defined"
      | some contest_freeze_time =>
        let judgements := buildJudgementOrder state
        let finalized_map0 ← buildInitialTeamStatusMap state
        let finalized_map ← judgements.foldlM
          (fun m j => applyJudgementToStatus state m j contest_start_time
            contest_freeze_time)
          finalized_map0
        .ok (mapToSortedLeaderboard (recomputeTeamTotals finalized_map))

/-- The pre-freeze judgement loop body in `validate_and_transform`
(warn-and-skip on a missing submission, fail when neither the submission
time nor the judgement `start_time` exists, then apply). -/
def preFreezeStep (state : ContestState) (contest_start_time
    contest_freeze_time : Int)
    (acc : List (String × TeamStatus) × List String) (j : Judgement) :
    Except String (List (String × TeamStatus) × List String) :=
  match alGet state.submissions j.submission_id with
  | none =>
    .ok (acc.1, acc.2 ++ ["Skipping judgement " ++ j.id ++
      " because submission " ++ j.submission_id ++ " is missing"])
  | some submission =>
    match submission.time.or j.start_time with
    | none =>
      .error ("Unknown submission time for submission " ++ submission.id)
    | some _ => do
      let m ← applyJudgementToStatus state acc.1 j contest_start_time
        contest_freeze_time
      .ok (m, acc.2)

/-- `validate_and_transform`: transforms, validations, pre-freeze board,
then finalized board; returns the warnings and the updated state. -/
def validateAndTransform (state : ContestState) (config : PyriteConfig) :
    Except String (List String × ContestState) := do
  let state := applySubmissionFilters state config
  let state ← applyTeamGroupRemap state config
  validateTeamGroups state
  validateAllSubmissionsJudged state
  match state.contest with
  | none => .error "Contest not defined"
  | some contest =>
    match contest.start_time with
    | none => .error "Contest start time not defined"
    | some contest_start_time =>
      match contest.scoreboard_freeze_time with
      | none => .error "Contest freeze time not defined"
      | some contest_freeze_time =>
        let judgements := buildJudgementOrder state
        let pre_freeze_map0 ← buildInitialTeamStatusMap state
        let result ← judgements.foldlM
          (preFreezeStep state contest_start_time contest_freeze_time)
          (pre_freeze_map0, [])
        let state := { state with
          leaderboard_pre_freeze := mapToSortedLeaderboard result.1 }
        let finalized ← computeFinalizedLeaderboard state
        .ok (result.2, { state with leaderboard_finalized := finalized })

/-! ## Reveal state machine (`src/services/present_flow.rs`) -/

/-- `present_flow::SpacePhase`. -/
inductive SpacePhase where
  | RevealStep
  | ApplyPostReveal (solved_resort : Option (String × String))
      (next_index scroll_index : Option Nat)
  | ShowAward (team_id : String) (citations : List String)
      (next_index scroll_index : Option Nat)
  | PendingAward (team_id : String) (citations : List String)
      (next_index scroll_index : Option Nat)
  | PostAwardScroll (next_index scroll_index : Option Nat)
  | Finished
  deriving Repr, DecidableEq

/-- `present_flow::PresentFlowState` (`Default`: no index, uninitialized,
`RevealStep`). -/
structure PresentFlowState where
  current_reveal_index : Option Nat
  reveal_initialized : Bool
  space_phase : SpacePhase
  deriving Repr, DecidableEq

def PresentFlowState.initial : PresentFlowState :=
  { current_reveal_index := none
    reveal_initialized := false
    space_phase := .RevealStep }

/-- `present_flow::AdvanceOutcome`. -/
structure AdvanceOutcome where
  scroll_index : Option Nat
  row_reorder : Option (List String × List String)
  deriving Repr, DecidableEq

def AdvanceOutcome.default : AdvanceOutcome :=
  { scroll_index := none, row_reorder := none }

/-- `team_has_pending_freeze`. -/
def team_has_pending_freeze (team : TeamStatus) : Bool :=
  team.problem_stats.any (fun p => p.2.attempted_during_freeze)

/-- `maybe_take_award_for_team`: `HashMap::remove` modelled by returning the
taken citations together with the updated map. -/
def maybe_take_award_for_team (awards_by_team : List (String × List String))
    (team : TeamStatus) :
    Option (List String) × List (String × List String) :=
  if team_has_pending_freeze team then (none, awards_by_team)
  else
    match alGet awards_by_team team.team_id with
    | none => (none, awards_by_team)
    | some citations => (some citations, alRemove awards_by_team team.team_id)

/-- `find_last_pending_index` (`Iterator::rposition`). -/
def find_last_pending_index (board : List TeamStatus) : Option Nat :=
  (List.range board.length).reverse.find?
    (fun i => team_has_pending_freeze (board.getD i default))

/-- `find_next_pending_problem_id`. -/
def find_next_pending_problem_id (team : TeamStatus)
    (ordered_problem_ids : List String) : Option String :=
  match ordered_problem_ids.find?
      (fun pid => (alGet team.problem_stats pid).any
        (fun stat => stat.attempted_during_freeze)) with
  | some pid => some pid
  | none =>
    (team.problem_stats.find? (fun p => p.2.attempted_during_freeze)).map
      Prod.fst

/-- `reveal_problem_result`: clear the freeze flag of a frozen stat and
report whether it was solved; `None` (no stat / not frozen) leaves the team
unchanged. -/
def reveal_problem_result (team : TeamStatus) (problem_id : String) :
    Option Bool × TeamStatus :=
  match alGet team.problem_stats problem_id with
  | none => (none, team)
  | some stat =>
    if !stat.attempted_during_freeze then (none, team)
    else
      (some stat.solved,
        { team with problem_stats :=
            (alInsert team.problem_stats problem_id
              { stat with attempted_during_freeze := false }) })

/-- `apply_solved_problem_score`. -/
def apply_solved_problem_score (team : TeamStatus) (problem_id : String) :
    Bool × TeamStatus :=
  match alGet team.problem_stats problem_id with
  | none => (false, team)
  | some stat =>
    if !stat.solved then (false, team)
    else
      (true,
        { team with
          total_points := team.total_points + 1
          total_penalty := team.total_penalty + stat.penalty
          last_ac_time :=
            match stat.first_ac_time with
            | some ac_time =>
              if team.last_ac_time.all (fun last => ac_time > last) then
                some ac_time
              else team.last_ac_time
            | none => team.last_ac_time })

/-- `resort_leaderboard` = `slice::sort` (stable) by the `Ord` instance. -/
def resort_leaderboard (board : List TeamStatus) : List TeamStatus :=
  stableSortBy (fun a b => teamStatusCmp a b = .lt) board

/-- `board.iter_mut().find(|t| t.team_id == team_id)` followed by a
mutation: update the first matching element. -/
def updateFirstTeam (board : List TeamStatus) (team_id : String)
    (f : TeamStatus → TeamStatus) : List TeamStatus :=
  match board with
  | [] => []
  | t :: rest =>
    if t.team_id = team_id then f t :: rest
    else t :: updateFirstTeam rest team_id f

/-- `plan_award_or_advance`; returns
`(award, next_index, scroll_index, updated awards map)`. -/
def plan_award_or_advance (awards_by_team : List (String × List String))
    (board : List TeamStatus) (acted_team_id : Option String)
    (next_index : Nat) :
    Option (String × List String) × Option Nat × Option Nat ×
      List (String × List String) :=
  let has_pending := board.any team_has_pending_freeze
  let fallthrough :=
    if has_pending then
      ((none : Option (String × List String)), some next_index,
        some next_index, awards_by_team)
    else (none, none, none, awards_by_team)
  match acted_team_id with
  | none => fallthrough
  | some team_id =>
    match board.find? (fun team => team.team_id = team_id) with
    | none => fallthrough
    | some team =>
      match maybe_take_award_for_team awards_by_team team with
      | (none, _) => fallthrough
      | (some citations, awards') =>
        if has_pending then
          (some (team.team_id, citations), some next_index, some next_index,
            awards')
        else (some (team.team_id, citations), none, none, awards')

/-- `clamp_current_index`. -/
def clamp_current_index (current : Option Nat) (len : Nat) : Nat :=
  min (current.getD 0) (len - 1)

/-- `clamp_scroll_index`. -/
def clamp_scroll_index (index : Option Nat) (len : Nat) : Option Nat :=
  index.map (fun i => min i (len - 1))

/-- One `advance_space_phase` step, threading the mutable flow state, board
and awards map; `none` models the `unreachable!()` panic on an empty board. -/
def advance_space_phase (flow : PresentFlowState) (board : List TeamStatus)
    (ordered_problem_ids : List String)
    (awards_by_team : List (String × List String)) :
    Option (PresentFlowState × List TeamStatus ×
      List (String × List String) × AdvanceOutcome) :=
  if board.isEmpty then none
  else some (
    match flow.space_phase with
    | .Finished =>
      ({ flow with space_phase := .Finished }, board, awards_by_team,
        AdvanceOutcome.default)
    | .ShowAward _ _ next_index scroll_index =>
      ({ flow with space_phase := .PostAwardScroll next_index scroll_index },
        board, awards_by_team, AdvanceOutcome.default)
    | .PendingAward team_id citations next_index scroll_index =>
      ({ flow with
          space_phase := .ShowAward team_id citations next_index scroll_index },
        board, awards_by_team, AdvanceOutcome.default)
    | .PostAwardScroll next_index scroll_index =>
      let outcome := { AdvanceOutcome.default with
        scroll_index := clamp_scroll_index scroll_index board.length }
      if board.any team_has_pending_freeze then
        ({ flow with
            current_reveal_index := next_index,
            space_phase := .RevealStep }, board, awards_by_team, outcome)
      else
        ({ flow with
            current_reveal_index := none,
            space_phase := .Finished }, board, awards_by_team, outcome)
    | .ApplyPostReveal solved_resort next_index scroll_index =>
      let resorted : List TeamStatus × Option (List String × List String) :=
        match solved_resort with
        | some (team_id, problem_id) =>
          let before_order := board.map (fun team => team.team_id)
          let board1 := updateFirstTeam board team_id
            (fun team => (apply_solved_problem_score team problem_id).2)
          let board2 := resort_leaderboard board1
          let after_order := board2.map (fun team => team.team_id)
          (board2, some (before_order, after_order))
        | none => (board, none)
      let board' := resorted.1
      let outcome := {
        scroll_index := (clamp_scroll_index scroll_index board'.length),
        row_reorder := resorted.2 }
      if board'.any team_has_pending_freeze then
        ({ flow with
            current_reveal_index := next_index,
            space_phase := .RevealStep }, board', awards_by_team, outcome)
      else
        ({ flow with
            current_reveal_index := none,
            space_phase := .Finished }, board', awards_by_team, outcome)
    | .RevealStep =>
      if !board.any team_has_pending_freeze then
        ({ flow with
            current_reveal_index := none,
            space_phase := .Finished }, board, awards_by_team,
          AdvanceOutcome.default)
      else if flow.current_reveal_index.isNone then
        let idx := find_last_pending_index board
        ({ flow with
            current_reveal_index := idx,
            space_phase := .RevealStep }, board, awards_by_team,
          { AdvanceOutcome.default with scroll_index := idx })
      else
        let current_index :=
          clamp_current_index flow.current_reveal_index board.length
        let acted_team_id := (board.getD current_index default).team_id
        match find_next_pending_problem_id (board.getD current_index default)
            ordered_problem_ids with
        | some problem_id =>
          let revealed :=
            reveal_problem_result (board.getD current_index default)
              problem_id
          let board1 := board.set current_index revealed.2
          if revealed.1 = some true then
            ({ flow with space_phase :=
                (SpacePhase.ApplyPostReveal
                  (some (revealed.2.team_id, problem_id)) (some current_index)
                  (some current_index)) }, board1, awards_by_team,
              AdvanceOutcome.default)
          else if team_has_pending_freeze (board1.getD current_index default)
              then
            ({ flow with
                current_reveal_index := some current_index,
                space_phase := .RevealStep }, board1, awards_by_team,
              { AdvanceOutcome.default with scroll_index :=
                  (clamp_scroll_index (some current_index) board1.length) })
          else
            let planned := plan_award_or_advance awards_by_team board1
              (some acted_team_id) (current_index - 1)
            match planned.1 with
            | some (team_id, citations) =>
              ({ flow with space_phase :=
                  (SpacePhase.PendingAward team_id citations
                    planned.2.1 planned.2.2.1) }, board1, planned.2.2.2,
                AdvanceOutcome.default)
            | none =>
              ({ flow with space_phase :=
                  (SpacePhase.ApplyPostReveal none
                    planned.2.1 planned.2.2.1) }, board1, planned.2.2.2,
                AdvanceOutcome.default)
        | none =>
          let planned := plan_award_or_advance awards_by_team board
            (some acted_team_id) (current_index - 1)
          match planned.1 with
          | some (team_id, citations) =>
            ({ flow with space_phase :=
                (SpacePhase.ShowAward team_id citations
                  planned.2.1 planned.2.2.1) }, board, planned.2.2.2,
              AdvanceOutcome.default)
          | none =>
            let outcome := { AdvanceOutcome.default with
              scroll_index := (clamp_scroll_index planned.2.2.1 board.length) }
            if board.any team_has_pending_freeze then
              ({ flow with
                  current_reveal_index := planned.2.1,
                  space_phase := .RevealStep }, board, planned.2.2.2, outcome)
            else
              ({ flow with
                  current_reveal_index := none,
                  space_phase := .Finished }, board, planned.2.2.2, outcome))

/-! ## Presentation-screen helpers (`src/screens/present.rs`) -/

/-- Rust `str::trim`: strip leading and trailing whitespace (modelled on the
character list so that it evaluates in the kernel; the ids and citations in
play are ASCII, where `Char.isWhitespace` agrees with Rust's
`char::is_whitespace`). -/
def strTrim (s : String) : String :=
  ⟨(((s.data.dropWhile Char.isWhitespace).reverse.dropWhile
    Char.isWhitespace).reverse)⟩

/-- The id-ascending award order used by `ensure_awards_initialized`
(`awards.sort_by(|a, b| a.id.cmp(&b.id))`). -/
def awardsSortedById (awards : List (String × Award)) : List Award :=
  stableSortBy (fun a b => compare a.id b.id = .lt) (alValues awards)

/-- `ensure_awards_initialized`: awards sorted ascending by id, empty trimmed
citations skipped, each trimmed citation appended for every listed team. -/
def ensureAwardsInitialized (awards : List (String × Award)) :
    List (String × List String) :=
  (awardsSortedById awards).foldl
    (fun m award =>
      let citation := strTrim award.citation
      if citation = "" then m
      else
        award.team_ids.foldl
          (fun m team_id =>
            alInsert m team_id ((alGet m team_id).getD [] ++ [citation]))
          m)
    []

/-- The problem-column order computed in `present::ui`:
problems sorted by `(ordinal, label)`. -/
def orderedProblemIds (state : ContestState) : List String :=
  (stableSortBy
      (fun a b =>
        ((compare a.ordinal b.ordinal).then (compare a.label b.label)) = .lt)
      (alValues state.problems)).map (fun p => p.id)

/-! ## Ingest worker (`src/services/event_parser.rs`)

One NDJSON line, pre-decoded: JSON-level failures are represented by
`badJson` (they produce a `LineError`), a missing `data` field by
`emptyData` (warn and skip), and well-typed payloads by their entity.
Event types the worker ignores are kept as explicit constructors.
Accounts, organizations and persons play no role downstream and are
omitted. -/
inductive FeedLine where
  | badJson
  | emptyData
  | contestLine (c : Contest)
  | judgementTypeLine (jt : JudgementType)
  | groupLine (g : Group)
  | teamLine (t : Team)
  | problemLine (p : Problem)
  | submissionLine (s : Submission)
  | judgementLine (j : Judgement)
  | awardLine (a : Award)
  | languagesLine
  | runsLine
  | stateLine
  | clarificationsLine
  deriving Repr, DecidableEq

/-- `handle_event`: upserts require the contest to be defined first;
otherwise the line errors ("contest not defined yet"). -/
def handleEvent {β : Type} (state : ContestState)
    (get : ContestState → List (String × β)) (id : String) (v : β)
    (put : ContestState → List (String × β) → ContestState) :
    Nat × ContestState :=
  if state.contest.isNone then (1, state)
  else (0, put state (alInsert (get state) id v))

/-- `parse_event_line`: returns the number of line errors (0 or 1) and the
updated state. -/
def parseEventLine (line : FeedLine) (state : ContestState) :
    Nat × ContestState :=
  match line with
  | .badJson => (1, state)
  | .emptyData => (0, state)
  | .contestLine c =>
    let c := { c with scoreboard_freeze_time :=
        (c.start_time.map
          (fun start => start + (c.duration - c.scoreboard_freeze_duration))) }
    (0, { state with contest := some c })
  | .judgementTypeLine jt =>
    handleEvent state ContestState.judgement_types jt.id jt
      (fun st m => { st with judgement_types := m })
  | .groupLine g =>
    handleEvent state ContestState.groups g.id g
      (fun st m => { st with groups := m })
  | .teamLine t =>
    handleEvent state ContestState.teams t.id t
      (fun st m => { st with teams := m })
  | .problemLine p =>
    handleEvent state ContestState.problems p.id p
      (fun st m => { st with problems := m })
  | .submissionLine s =>
    handleEvent state ContestState.submissions s.id s
      (fun st m => { st with submissions := m })
  | .judgementLine j =>
    handleEvent state ContestState.judgements j.id j
      (fun st m => { st with judgements := m })
  | .awardLine a =>
    handleEvent state ContestState.awards a.id a
      (fun st m => { st with awards := m })
  | .languagesLine | .runsLine | .stateLine | .clarificationsLine =>
    (0, state)

/-- Terminal events of the worker spawned by `spawn_event_feed_parser`
(`Started`/`Progress` omitted: they carry no final data). -/
inductive ParserResult where
  | finished (lines_read error_count : Nat) (contest_state : ContestState)
      (warnings : List String)
  | failed (message : String)
  deriving Repr, DecidableEq

/-- The ingest loop of the worker: fold all lines from the fresh state,
counting per-line errors. -/
def ingestFeed (lines : List FeedLine) : Nat × ContestState :=
  lines.foldl
    (fun (acc : Nat × ContestState) line =>
      let step := parseEventLine line acc.2
      (acc.1 + step.1, step.2))
    (0, ContestState.new)

/-- The worker body of `spawn_event_feed_parser`: fold all lines counting
per-line errors, then run `validate_and_transform` unconditionally; a
validation failure emits `Failed`, success emits `Finished` with the
processed state and the accumulated `error_count`. -/
def runEventFeedWorker (lines : List FeedLine) (config : PyriteConfig) :
    ParserResult :=
  match validateAndTransform (ingestFeed lines).2 config with
  | .ok result =>
    .finished lines.length (ingestFeed lines).1 result.2 result.1
  | .error message => .failed message

/-- The `error_count` a `Finished` event carries (`none` for `Failed`). -/
def ParserResult.errorCountOf : ParserResult → Option Nat
  | .finished _ ec _ _ => some ec
  | .failed _ => none

/-- The contest state a `Finished` event carries (`none` for `Failed`). -/
def ParserResult.stateOf : ParserResult → Option ContestState
  | .finished _ _ st _ => some st
  | .failed _ => none

/-- The warnings a `Finished` event carries (`none` for `Failed`). -/
def ParserResult.warningsOf : ParserResult → Option (List String)
  | .finished _ _ _ w => some w
  | .failed _ => none

/-- The slice of `load_data`'s UI state that reacts to the `Finished`
event. -/
structure ParseUiSlice where
  is_parsing : Bool
  parsed_successfully : Bool
  lines_read : Nat
  error_count : Nat
  parse_failed_message : Option String
  parsed_contest_state : Option ContestState
  warnings : List String
  deriving Repr, DecidableEq

/-- The `Ok(ParserEvent::Finished {..})` arm of `load_data::ui`
(src/screens/load_data.rs:197-236): with `error_count > 0` the parse is
marked failed and the delivered contest state is dropped. -/
def uiApplyFinished (ui : ParseUiSlice) (lines_read error_count : Nat)
    (contest_state : ContestState) (warnings : List String) : ParseUiSlice :=
  let ui := { ui with
    is_parsing := false
    lines_read := lines_read
    error_count := error_count
    parsed_successfully := error_count = 0 }
  if error_count > 0 then
    { ui with
      parse_failed_message := some ("Parsing finished with " ++
        toString error_count ++ " JSON error(s)")
      parsed_contest_state := none
      warnings := [] }
  else
    { ui with
      parse_failed_message := none
      parsed_contest_state := some contest_state
      warnings := warnings }

/-! ## Association-list lemmas -/

theorem alGet_alInsert_self {α : Type} (m : List (String × α)) (k : String)
    (v : α) : alGet (alInsert m k v) k = some v := by
  induction m with
  | nil => simp [alInsert, alGet]
  | cons p rest ih =>
    by_cases h : p.1 = k
    · simp [alInsert, alGet, h]
    · simp [alInsert, alGet, h, ih]

theorem alGet_alInsert_ne {α : Type} (m : List (String × α)) (k k' : String)
    (v : α) (h : k ≠ k') : alGet (alInsert m k v) k' = alGet m k' := by
  induction m with
  | nil => simp [alInsert, alGet, h]
  | cons p rest ih =>
    by_cases hp : p.1 = k
    · simp [alInsert, alGet, hp, h]
    · simp only [alInsert, if_neg hp, alGet]
      by_cases hp' : p.1 = k'
      · simp [hp']
      · simp [hp', ih]

theorem alInsert_self_of_get {α : Type} (m : List (String × α)) (k : String)
    (v : α) (h : alGet m k = some v) : alInsert m k v = m := by
  induction m with
  | nil => simp [alGet] at h
  | cons p rest ih =>
    by_cases hp : p.1 = k
    · simp only [alGet, if_pos hp] at h
      cases h
      simp only [alInsert, if_pos hp]
      rw [← hp]
    · simp only [alGet, if_neg hp] at h
      simp [alInsert, hp, ih h]

/-! ## C2: the recorded penalty of a newly solved problem

The claim states `penalty = floor(contest minutes) + (submissions_before_solved
− 1) × penalty_time` with `penalty_time` taken from the contest configuration.
The source hardcodes the constant `20` (src/models.rs:490) — the parsed
`Contest::penalty_time` is never read — and `num_minutes` truncates toward
zero rather than flooring. -/

/-- C2 (amended): when a judgement with a solved verdict lands on a
previously unsolved problem, the recorded stat has
`penalty = tdiv (t − start) 60 + (submissions_before_solved − 1) * 20`,
with the constant `20` independent of the contest's `penalty_time`. -/
theorem add_submission_newly_solved_penalty (ts : TeamStatus)
    (pid : String) (t : Int) (jtid : Option String)
    (jts : List (String × JudgementType)) (start freeze : Int)
    (jt : JudgementType)
    (h0 : ((alGet ts.problem_stats pid).getD ProblemStat.initial).solved =
      false)
    (hjt : jtid.bind (alGet jts) = some jt) (hsolved : jt.solved = true) :
    ∃ stat', alGet (ts.add_submission pid t jtid jts start freeze).problem_stats
        pid = some stat' ∧
      stat'.solved = true ∧
      stat'.submissions_before_solved =
        ((alGet ts.problem_stats pid).getD
          ProblemStat.initial).submissions_before_solved + 1 ∧
      stat'.penalty = Int.tdiv (t - start) 60 +
        (stat'.submissions_before_solved - 1) * 20 := by
  unfold TeamStatus.add_submission
  simp only [h0, Bool.false_eq_true, if_false, hjt, hsolved, Bool.or_true,
    if_true]
  by_cases hfrozen : t > freeze
  · simp only [decide_eq_true_eq, if_pos hfrozen]
    exact ⟨_, alGet_alInsert_self _ _ _, rfl, rfl, rfl⟩
  · simp only [decide_eq_true_eq, if_neg hfrozen]
    exact ⟨_, alGet_alInsert_self _ _ _, rfl, rfl, rfl⟩

/-- C2 witness input: a team with one prior penalized attempt solves at
`t = 10` with `start = 100`. -/
def c2Types : List (String × JudgementType) :=
  [("AC", { id := "AC", name := "Accepted", penalty := true, solved := true }),
   ("WA", { id := "WA", name := "Wrong Answer", penalty := true,
            solved := false })]

def c2Contest : Contest :=
  { start_time := some 100, duration := 18000,
    scoreboard_freeze_duration := 3600, penalty_time := 30,
    scoreboard_freeze_time := some 14500 }

def c2Team : TeamStatus :=
  ((TeamStatus.new "T" "Team" "O" 0).add_submission "P" 40 (some "WA")
      c2Types 100 14500).add_submission "P" 10 (some "AC") c2Types 100 14500

/-- C2 (counterexample): with `penalty_time = 30` configured and the solving
submission 90 seconds *before* the start, the recorded penalty is
`tdiv (−90) 60 + (2−1)·20 = 19`, while the claim's formula gives
`floor (−90 / 60) + (2−1)·30 = 28`. -/
theorem c2_claim_false_at_input :
    ∃ stat, alGet c2Team.problem_stats "P" = some stat ∧ stat.solved = true ∧
      stat.submissions_before_solved = 2 ∧ stat.penalty = 19 ∧
      stat.penalty ≠ Int.fdiv (10 - 100) 60 +
        (stat.submissions_before_solved - 1) * c2Contest.penalty_time := by
  refine ⟨{ solved := true, attempted_during_freeze := false, penalty := 19,
            submissions_before_solved := 2, first_ac_time := some 10 },
    by decide, by decide, by decide, by decide, by decide⟩

/-- C2 witness: instantiating the amended statement at the same input. -/
theorem add_submission_newly_solved_penalty_witness :
    ∃ stat', alGet c2Team.problem_stats "P" = some stat' ∧
      stat'.solved = true ∧
      stat'.submissions_before_solved =
        ((alGet (((TeamStatus.new "T" "Team" "O" 0).add_submission "P" 40
          (some "WA") c2Types 100 14500)).problem_stats "P").getD
          ProblemStat.initial).submissions_before_solved + 1 ∧
      stat'.penalty = Int.tdiv (10 - 100) 60 +
        (stat'.submissions_before_solved - 1) * 20 :=
  add_submission_newly_solved_penalty _ "P" 10 (some "AC") c2Types 100 14500
    { id := "AC", name := "Accepted", penalty := true, solved := true }
    (by decide) (by decide) (by decide)

/-! ## C3: `attempted_during_freeze` is an assignment -/

/-- C3: (a) every non-ignored judgement with a known verdict *assigns*
`attempted_during_freeze := (t > freeze_time)` — in particular a later
non-freeze judgement on a still-unsolved problem clears the flag — and
(b) once the problem is solved, a further judgement changes nothing. -/
theorem add_submission_freeze_flag_semantics :
    (∀ (ts : TeamStatus) (pid : String) (t : Int) (jtid : Option String)
        (jts : List (String × JudgementType)) (start freeze : Int)
        (jt : JudgementType),
      ((alGet ts.problem_stats pid).getD ProblemStat.initial).solved = false →
      jtid.bind (alGet jts) = some jt →
      ∃ stat',
        alGet (ts.add_submission pid t jtid jts start freeze).problem_stats
          pid = some stat' ∧
        stat'.attempted_during_freeze = decide (t > freeze)) ∧
    (∀ (ts : TeamStatus) (pid : String) (t : Int) (jtid : Option String)
        (jts : List (String × JudgementType)) (start freeze : Int)
        (stat0 : ProblemStat),
      alGet ts.problem_stats pid = some stat0 → stat0.solved = true →
      ts.add_submission pid t jtid jts start freeze = ts) := by
  constructor
  · intro ts pid t jtid jts start freeze jt h0 hjt
    unfold TeamStatus.add_submission
    simp only [h0, Bool.false_eq_true, if_false, hjt]
    by_cases hsolved : jt.solved
    · simp only [hsolved, if_true]
      by_cases hfrozen : t > freeze
      · simp only [decide_eq_true_eq, if_pos hfrozen]
        exact ⟨_, alGet_alInsert_self _ _ _, rfl⟩
      · simp only [decide_eq_true_eq, if_neg hfrozen]
        exact ⟨_, alGet_alInsert_self _ _ _, rfl⟩
    · simp only [hsolved, Bool.false_eq_true, if_false]
      exact ⟨_, alGet_alInsert_self _ _ _, rfl⟩
  · intro ts pid t jtid jts start freeze stat0 h hs
    unfold TeamStatus.add_submission
    simp only [h, Option.getD_some, hs, if_true]
    rw [alInsert_self_of_get _ _ _ h]

def c3Team : TeamStatus :=
  (TeamStatus.new "T" "Team" "O" 0).add_submission "P" 250 (some "AC")
    c2Types 100 200

/-- C3 witness: a freeze-window verdict sets the flag at a concrete input,
and a judgement arriving after the AC leaves the status unchanged. -/
theorem add_submission_freeze_flag_semantics_witness :
    (∃ stat',
      alGet ((TeamStatus.new "T" "Team" "O" 0).add_submission "P" 250
        (some "WA") c2Types 100 200).problem_stats "P" = some stat' ∧
      stat'.attempted_during_freeze = decide ((250 : Int) > 200)) ∧
    c3Team.add_submission "P" 300 (some "WA") c2Types 100 200 = c3Team :=
  ⟨add_submission_freeze_flag_semantics.1 _ "P" 250 (some "WA") c2Types 100
      200 { id := "WA", name := "Wrong Answer", penalty := true,
            solved := false } (by decide) (by decide),
    add_submission_freeze_flag_semantics.2 c3Team "P" 300 (some "WA") c2Types
      100 200
      { solved := true, attempted_during_freeze := true, penalty := 2,
        submissions_before_solved := 1, first_ac_time := some 250 }
      (by decide) (by decide)⟩

/-! ## C9: unknown-verdict frame property -/

/-- C9: when the `judgement_type_id` is absent or not in the table, the
totals and `last_ac_time` are unchanged, the stats map at most gains a fresh
initial `ProblemStat` for the problem, and an existing stat (hence all of the
map) is untouched. -/
theorem add_submission_unknown_verdict_frame :
    ∀ (ts : TeamStatus) (pid : String) (t : Int) (jtid : Option String)
      (jts : List (String × JudgementType)) (start freeze : Int),
      jtid.bind (alGet jts) = none →
      (ts.add_submission pid t jtid jts start freeze).total_points =
        ts.total_points ∧
      (ts.add_submission pid t jtid jts start freeze).total_penalty =
        ts.total_penalty ∧
      (ts.add_submission pid t jtid jts start freeze).last_ac_time =
        ts.last_ac_time ∧
      (ts.add_submission pid t jtid jts start freeze).problem_stats =
        alInsert ts.problem_stats pid
          ((alGet ts.problem_stats pid).getD ProblemStat.initial) ∧
      (∀ stat0, alGet ts.problem_stats pid = some stat0 →
        (ts.add_submission pid t jtid jts start freeze).problem_stats =
          ts.problem_stats) := by
  intro ts pid t jtid jts start freeze hjt
  unfold TeamStatus.add_submission
  simp only [hjt]
  by_cases hs : ((alGet ts.problem_stats pid).getD ProblemStat.initial).solved
  · simp only [hs, if_true]
    refine ⟨by trivial, by trivial, by trivial, by trivial,
      fun stat0 h => ?_⟩
    simp only [h, Option.getD_some]
    exact alInsert_self_of_get _ _ _ h
  · simp only [hs, Bool.false_eq_true, if_false]
    refine ⟨by trivial, by trivial, by trivial, by trivial,
      fun stat0 h => ?_⟩
    simp only [h, Option.getD_some]
    exact alInsert_self_of_get _ _ _ h

/-- C9 witness: an unknown verdict id on a fresh team only inserts the
initial stat. -/
theorem add_submission_unknown_verdict_frame_witness :
    ((TeamStatus.new "T" "Team" "O" 0).add_submission "P" 50 (some "XX")
        c2Types 100 200).total_points =
      (TeamStatus.new "T" "Team" "O" 0).total_points ∧
    ((TeamStatus.new "T" "Team" "O" 0).add_submission "P" 50 (some "XX")
        c2Types 100 200).total_penalty =
      (TeamStatus.new "T" "Team" "O" 0).total_penalty ∧
    ((TeamStatus.new "T" "Team" "O" 0).add_submission "P" 50 (some "XX")
        c2Types 100 200).last_ac_time =
      (TeamStatus.new "T" "Team" "O" 0).last_ac_time ∧
    ((TeamStatus.new "T" "Team" "O" 0).add_submission "P" 50 (some "XX")
        c2Types 100 200).problem_stats =
      alInsert (TeamStatus.new "T" "Team" "O" 0).problem_stats "P"
        ((alGet (TeamStatus.new "T" "Team" "O" 0).problem_stats "P").getD
          ProblemStat.initial) ∧
    (∀ stat0,
      alGet (TeamStatus.new "T" "Team" "O" 0).problem_stats "P" = some stat0 →
      ((TeamStatus.new "T" "Team" "O" 0).add_submission "P" 50 (some "XX")
          c2Types 100 200).problem_stats =
        (TeamStatus.new "T" "Team" "O" 0).problem_stats) :=
  add_submission_unknown_verdict_frame (TeamStatus.new "T" "Team" "O" 0) "P"
    50 (some "XX") c2Types 100 200 (by decide)

/-! ## C5: mixed `last_ac_time` comparison fails -/

/-- C5: comparing two statuses with equal `sortorder`, `total_points` and
`total_penalty` where exactly one `last_ac_time` is absent fails with
`InconsistentRanking` (the source's `unreachable!` panic) instead of
silently ordering them. -/
theorem teamStatusCmp_inconsistent_ranking :
    ∀ a b : TeamStatus, a.sortorder = b.sortorder →
      a.total_points = b.total_points →
      a.total_penalty = b.total_penalty →
      ((a.last_ac_time = none ∧ b.last_ac_time ≠ none) ∨
        (a.last_ac_time ≠ none ∧ b.last_ac_time = none)) →
      teamStatusCmpChecked a b = .error .inconsistentRanking := by
  intro a b h1 h2 h3 h4
  unfold teamStatusCmpChecked
  simp only [h1, h2, h3, ne_eq, not_true_eq_false, if_false]
  rcases h4 with ⟨ha, hb⟩ | ⟨ha, hb⟩
  · match hbv : b.last_ac_time with
    | none => exact absurd hbv hb
    | some tb => rw [ha]
  · match hav : a.last_ac_time with
    | none => exact absurd hav ha
    | some ta => rw [hb]

/-- C5 witness: two concrete zero-score statuses, one with a
`last_ac_time`. -/
theorem teamStatusCmp_inconsistent_ranking_witness :
    teamStatusCmpChecked
      { team_id := "A", team_name := "A", team_affiliation := "O",
        sortorder := 0, total_points := 1, total_penalty := 5,
        last_ac_time := none, problem_stats := [] }
      { team_id := "B", team_name := "B", team_affiliation := "O",
        sortorder := 0, total_points := 1, total_penalty := 5,
        last_ac_time := some 3, problem_stats := [] } =
      .error .inconsistentRanking :=
  teamStatusCmp_inconsistent_ranking _ _ (by decide) (by decide) (by decide)
    (Or.inl ⟨by decide, by decide⟩)

/-! ## Stable-sort lemmas (with hypotheses local to the list elements) -/

section SortLemmas

variable {α : Type} (lt : α → α → Bool)

theorem orderedInsertLt_perm (a : α) (l : List α) :
    (orderedInsertLt lt a l).Perm (a :: l) := by
  induction l with
  | nil => simp [orderedInsertLt]
  | cons b rest ih =>
    unfold orderedInsertLt
    by_cases h : lt b a
    · simp only [h, if_true]
      exact ((ih.cons b).trans (List.Perm.swap a b rest)).symm.symm
    · simp [h]

theorem stableSortBy_perm (l : List α) : (stableSortBy lt l).Perm l := by
  induction l with
  | nil => simp [stableSortBy]
  | cons a rest ih =>
    unfold stableSortBy
    exact (orderedInsertLt_perm lt a _).trans (ih.cons a)

theorem mem_orderedInsertLt {a x : α} {l : List α}
    (h : x ∈ orderedInsertLt lt a l) : x = a ∨ x ∈ l := by
  have := (orderedInsertLt_perm lt a l).mem_iff.mp h
  simpa using this

theorem pairwise_orderedInsertLt (S : List α)
    (hasymm : ∀ x ∈ S, ∀ y ∈ S, lt x y = true → lt y x = false)
    (hnegtrans : ∀ x ∈ S, ∀ y ∈ S, ∀ z ∈ S,
      lt x y = false → lt y z = false → lt x z = false)
    (a : α) (ha : a ∈ S) :
    ∀ (l : List α), (∀ x ∈ l, x ∈ S) →
      l.Pairwise (fun x y => lt y x = false) →
      (orderedInsertLt lt a l).Pairwise (fun x y => lt y x = false) := by
  intro l
  induction l with
  | nil => intro _ _; simp [orderedInsertLt]
  | cons b rest ih =>
    intro hmem hs
    rw [List.pairwise_cons] at hs
    obtain ⟨hb, hrest⟩ := hs
    unfold orderedInsertLt
    by_cases h : lt b a
    · rw [if_pos h, List.pairwise_cons]
      refine ⟨?_, ih (fun x hx => hmem x (List.mem_cons_of_mem b hx)) hrest⟩
      intro c hc
      rcases mem_orderedInsertLt lt hc with rfl | hc'
      · exact hasymm b (hmem b (List.mem_cons_self b rest)) c ha h
      · exact hb c hc'
    · rw [if_neg h, List.pairwise_cons]
      constructor
      · intro c hc
        rcases List.mem_cons.mp hc with rfl | hc'
        · simpa using h
        · exact hnegtrans c
            (hmem c (List.mem_cons_of_mem b hc'))
            b (hmem b (List.mem_cons_self b rest)) a ha (hb c hc')
            (by simpa using h)
      · exact List.Pairwise.cons hb hrest

theorem pairwise_stableSortBy (l : List α)
    (hasymm : ∀ x ∈ l, ∀ y ∈ l, lt x y = true → lt y x = false)
    (hnegtrans : ∀ x ∈ l, ∀ y ∈ l, ∀ z ∈ l,
      lt x y = false → lt y z = false → lt x z = false) :
    (stableSortBy lt l).Pairwise (fun x y => lt y x = false) := by
  induction l with
  | nil => simp [stableSortBy]
  | cons a rest ih =>
    unfold stableSortBy
    have hsub : ∀ x ∈ stableSortBy lt rest, x ∈ a :: rest := fun x hx =>
      List.mem_cons_of_mem a ((stableSortBy_perm lt rest).mem_iff.mp hx)
    refine pairwise_orderedInsertLt lt (a :: rest) hasymm hnegtrans a
      (List.mem_cons_self a rest) (stableSortBy lt rest) hsub ?_
    exact ih
      (fun x hx y hy => hasymm x (List.mem_cons_of_mem a hx) y
        (List.mem_cons_of_mem a hy))
      (fun x hx y hy z hz => hnegtrans x (List.mem_cons_of_mem a hx) y
        (List.mem_cons_of_mem a hy) z (List.mem_cons_of_mem a hz))

/-- Two lists that are permutations of each other, both sorted by `r`, with
`r` antisymmetric on the elements involved, are equal. -/
theorem eq_of_perm_of_pairwise_local {r : α → α → Prop} :
    ∀ {l₁ l₂ : List α}, l₁.Perm l₂ → l₁.Pairwise r → l₂.Pairwise r →
      (∀ x ∈ l₁, ∀ y ∈ l₁, r x y → r y x → x = y) → l₁ = l₂ := by
  intro l₁
  induction l₁ with
  | nil => intro l₂ hp _ _ _; exact (hp.nil_eq).symm ▸ rfl
  | cons a t₁ ih =>
    intro l₂ hp hs₁ hs₂ hanti
    match l₂ with
    | [] => exact absurd hp.symm (by simp)
    | b :: t₂ =>
      have hab : a = b := by
        by_contra hne
        have ha2 : a ∈ b :: t₂ := hp.mem_iff.mp (List.mem_cons_self a t₁)
        have hb1 : b ∈ a :: t₁ := hp.symm.mem_iff.mp
          (List.mem_cons_self b t₂)
        have hat2 : a ∈ t₂ := by
          rcases List.mem_cons.mp ha2 with h | h
          · exact absurd h hne
          · exact h
        have hbt1 : b ∈ t₁ := by
          rcases List.mem_cons.mp hb1 with h | h
          · exact absurd h.symm hne
          · exact h
        have hrab : r a b := (List.pairwise_cons.mp hs₁).1 b hbt1
        have hrba : r b a := (List.pairwise_cons.mp hs₂).1 a hat2
        exact hne (hanti a (List.mem_cons_self a t₁) b hb1 hrab hrba)
      subst hab
      have hp' : t₁.Perm t₂ := hp.cons_inv
      have := ih hp' (List.pairwise_cons.mp hs₁).2
        (List.pairwise_cons.mp hs₂).2
        (fun x hx y hy => hanti x (List.mem_cons_of_mem a hx) y
          (List.mem_cons_of_mem a hy))
      rw [this]

end SortLemmas

/-! ## C10: `awards_by_team` construction -/

/-- The citations a fixed team collects from a list of awards processed in
order: one copy of the trimmed citation per occurrence of the team id in
`team_ids`, skipping empty trimmed citations. -/
def awardCitationsFor (l : List Award) (t : String) : List String :=
  l.flatMap (fun a =>
    if strTrim a.citation = "" then []
    else (a.team_ids.filter (fun x => x = t)).map
      (fun _ => strTrim a.citation))

theorem teamIdsFold_get (c : String) (t : String) :
    ∀ (tids : List String) (m : List (String × List String)),
      alGet (tids.foldl
        (fun m team_id =>
          alInsert m team_id ((alGet m team_id).getD [] ++ [c])) m) t =
      (if alGet m t = none ∧ (tids.filter (fun x => x = t)) = [] then none
       else some ((alGet m t).getD [] ++
         ((tids.filter (fun x => x = t)).map (fun _ => c)))) := by
  intro tids
  induction tids with
  | nil =>
    intro m
    simp only [List.foldl_nil, List.filter_nil, List.map_nil,
      List.append_nil]
    match h : alGet m t with
    | none => simp
    | some v => simp [h]
  | cons tid rest ih =>
    intro m
    simp only [List.foldl_cons]
    rw [ih]
    by_cases ht : tid = t
    · subst ht
      rw [alGet_alInsert_self]
      simp only [ne_eq, reduceCtorEq, false_and, if_false,
        Option.getD_some]
      have : (List.filter (fun x => decide (x = tid)) (tid :: rest)) =
          tid :: List.filter (fun x => decide (x = tid)) rest := by
        simp [List.filter_cons]
      rw [this]
      simp only [List.map_cons]
      match h : alGet m tid with
      | none => simp
      | some v => simp [h, List.append_assoc]
    · rw [alGet_alInsert_ne _ _ _ _ ht]
      have : (List.filter (fun x => decide (x = t)) (tid :: rest)) =
          List.filter (fun x => decide (x = t)) rest := by
        simp [List.filter_cons, ht]
      rw [this]

theorem awardsFold_get (t : String) :
    ∀ (l : List Award) (m : List (String × List String)),
      alGet (l.foldl
        (fun m award =>
          let citation := strTrim award.citation
          if citation = "" then m
          else
            award.team_ids.foldl
              (fun m team_id =>
                alInsert m team_id ((alGet m team_id).getD [] ++ [citation]))
              m) m) t =
      (if alGet m t = none ∧ awardCitationsFor l t = [] then none
       else some ((alGet m t).getD [] ++ awardCitationsFor l t)) := by
  intro l
  induction l with
  | nil =>
    intro m
    simp only [List.foldl_nil, awardCitationsFor, List.flatMap_nil,
      List.append_nil]
    match h : alGet m t with
    | none => simp
    | some v => simp [h]
  | cons a rest ih =>
    intro m
    simp only [List.foldl_cons]
    by_cases he : strTrim a.citation = ""
    · simp only [he, if_true]
      rw [ih]
      have : awardCitationsFor (a :: rest) t = awardCitationsFor rest t := by
        simp [awardCitationsFor, he]
      rw [this]
    · simp only [he, if_false]
      rw [ih, teamIdsFold_get]
      have hcs : awardCitationsFor (a :: rest) t =
          ((a.team_ids.filter (fun x => x = t)).map
            (fun _ => strTrim a.citation)) ++ awardCitationsFor rest t := by
        simp [awardCitationsFor, he]
      rw [hcs]
      by_cases hm : alGet m t = none
      · by_cases hf : (a.team_ids.filter (fun x => x = t)) = []
        · simp [hm, hf]
        · have hC1 : ¬(alGet m t = none ∧
              (a.team_ids.filter (fun x => x = t)) = []) :=
            fun hc => hf hc.2
          rw [if_neg hC1]
          have hnefull : ¬(((a.team_ids.filter (fun x => x = t)).map
              (fun _ => strTrim a.citation)) ++ awardCitationsFor rest t)
              = [] := by
            intro hc
            rw [List.append_eq_nil] at hc
            exact hf (by simpa using hc.1)
          have hC3 : ¬(alGet m t = none ∧
              (((a.team_ids.filter (fun x => x = t)).map
                (fun _ => strTrim a.citation)) ++ awardCitationsFor rest t)
              = []) := fun hc => hnefull hc.2
          rw [if_neg hC3]
          rw [if_neg (by simp)]
          simp [hm, List.append_assoc]
      · have hC1 : ¬(alGet m t = none ∧
            (a.team_ids.filter (fun x => x = t)) = []) :=
          fun hc => hm hc.1
        rw [if_neg hC1]
        have hC3 : ¬(alGet m t = none ∧
            (((a.team_ids.filter (fun x => x = t)).map
              (fun _ => strTrim a.citation)) ++ awardCitationsFor rest t)
            = []) := fun hc => hm hc.1
        rw [if_neg hC3]
        rw [if_neg (by simp)]
        simp [List.append_assoc]

/-- C10: `awards_by_team` maps each team to exactly the non-empty trimmed
citations of the id-sorted award list that mention it, in that ascending-id
order (one copy per mention); the sorted list is ascending by award id, and
every team mentioned by an award with a non-empty trimmed citation receives
that citation. -/
theorem ensureAwardsInitialized_spec :
    ∀ (awards : List (String × Award)) (team_id : String),
      alGet (ensureAwardsInitialized awards) team_id =
        (if awardCitationsFor (awardsSortedById awards) team_id = [] then none
         else some (awardCitationsFor (awardsSortedById awards) team_id)) ∧
      (awardsSortedById awards).Pairwise
        (fun a b => compare b.id a.id ≠ .lt) ∧
      (∀ a ∈ alValues awards, strTrim a.citation ≠ "" →
        ∀ t ∈ a.team_ids,
          strTrim a.citation ∈
            (alGet (ensureAwardsInitialized awards) t).getD []) := by
  intro awards team_id
  have hmain : ∀ t, alGet (ensureAwardsInitialized awards) t =
      (if awardCitationsFor (awardsSortedById awards) t = [] then none
       else some (awardCitationsFor (awardsSortedById awards) t)) := by
    intro t
    unfold ensureAwardsInitialized
    rw [awardsFold_get]
    simp [alGet]
  refine ⟨hmain team_id, ?_, ?_⟩
  · have hpw := pairwise_stableSortBy
      (fun a b : Award => compare a.id b.id = .lt) (alValues awards)
      (fun x _ y _ hxy => by
        have hx : compare x.id y.id = .lt := by simpa using hxy
        have hyx : ¬compare y.id x.id = .lt := by
          rw [compare_lt_iff_lt] at hx ⊢
          exact not_lt.mpr (le_of_lt hx)
        simpa using hyx)
      (fun x _ y _ z _ hxy hyz => by
        have hx : ¬compare x.id y.id = .lt := by simpa using hxy
        have hy : ¬compare y.id z.id = .lt := by simpa using hyz
        have hxz : ¬compare x.id z.id = .lt := by
          rw [compare_lt_iff_lt] at hx hy ⊢
          exact not_lt.mpr (le_trans (not_lt.mp hy) (not_lt.mp hx))
        simpa using hxz)
    refine hpw.imp ?_
    intro a b hab
    have : ¬compare b.id a.id = .lt := by simpa using hab
    exact this
  · intro a ha hne t ht
    have hmem : a ∈ awardsSortedById awards :=
      ((stableSortBy_perm _ (alValues awards)).mem_iff).mpr ha
    have hin : strTrim a.citation ∈
        awardCitationsFor (awardsSortedById awards) t := by
      unfold awardCitationsFor
      rw [List.mem_flatMap]
      refine ⟨a, hmem, ?_⟩
      rw [if_neg (by simp [hne])]
      rw [List.mem_map]
      exact ⟨t, by simp [ht], rfl⟩
    have hne_cs : ¬awardCitationsFor (awardsSortedById awards) t = [] := by
      intro habs
      rw [habs] at hin
      exact absurd hin (List.not_mem_nil _)
    rw [hmain t, if_neg hne_cs]
    simpa using hin

/-- C10 witness: two awards sharing a team, one empty citation skipped. -/
def c10Awards : List (String × Award) :=
  [("a2", { id := "a2", citation := " Silver ", team_ids := ["T"] }),
   ("a1", { id := "a1", citation := "Gold", team_ids := ["T", "U"] }),
   ("a0", { id := "a0", citation := "  ", team_ids := ["T"] })]

theorem ensureAwardsInitialized_spec_witness :
    (alGet (ensureAwardsInitialized c10Awards) "T" =
      (if awardCitationsFor (awardsSortedById c10Awards) "T" = [] then none
       else some (awardCitationsFor (awardsSortedById c10Awards) "T"))) ∧
    strTrim (" Silver ") ∈
      (alGet (ensureAwardsInitialized c10Awards) "T").getD [] :=
  ⟨(ensureAwardsInitialized_spec c10Awards "T").1,
    (ensureAwardsInitialized_spec c10Awards "T").2.2
      { id := "a2", citation := " Silver ", team_ids := ["T"] }
      (by decide) (by decide) "T" (by decide)⟩

/-! ## Concrete fixtures shared by the counterexamples -/

def fxAC : JudgementType :=
  { id := "AC", name := "Accepted", penalty := true, solved := true }

def fxGroup : Group := { id := "G", name := "Main", sortorder := 0 }

def fxTeam (i : String) : Team :=
  { id := i, name := "team " ++ i, organization_id := some "O",
    group_ids := ["G"] }

def fxProblem (i : String) (o : Int) : Problem :=
  { id := i, ordinal := o, label := i }

def fxSubmission (i tid pid : String) (t : Option Int) : Submission :=
  { id := i, team_id := tid, problem_id := pid, time := t }

def fxJudgement (i sid : String) (st : Option Int) : Judgement :=
  { id := i, submission_id := sid, judgement_type_id := some "AC",
    start_time := st }

/-- A contest: start 0, duration 5 h, freeze duration 1 h, freeze at
14400 s. -/
def fxContest : Contest :=
  { start_time := some 0, duration := 18000,
    scoreboard_freeze_duration := 3600, penalty_time := 20,
    scoreboard_freeze_time := some 14400 }

def fxConfig : PyriteConfig :=
  { filter_team_submissions := [], team_group_map := [] }

/-! ## C6: scoring time of a judgement -/

/-- C6 (amended): the scoreboard's `apply_judgement_to_status` requires the
referenced submission's own `time` and never falls back to the judgement's
`start_time`: with the submission present and its team known, a missing
`time` is exactly the unknown-submission-time failure, and a present `time`
applies the submission at that time. -/
theorem applyJudgementToStatus_time_requirement :
    ∀ (state : ContestState) (m : List (String × TeamStatus)) (j : Judgement)
      (contest_start_time contest_freeze_time : Int) (sub : Submission)
      (ts : TeamStatus),
      alGet state.submissions j.submission_id = some sub →
      alGet m sub.team_id = some ts →
      (sub.time = none →
        applyJudgementToStatus state m j contest_start_time
          contest_freeze_time =
          .error ("Unknown submission time for submission " ++ sub.id)) ∧
      (∀ t, sub.time = some t →
        applyJudgementToStatus state m j contest_start_time
          contest_freeze_time =
          .ok (alInsert m sub.team_id
            (ts.add_submission sub.problem_id t j.judgement_type_id
              state.judgement_types contest_start_time
              contest_freeze_time))) := by
  intro state m j cs cf sub ts hsub hteam
  constructor
  · intro hnone
    unfold applyJudgementToStatus
    rw [hsub]
    simp only [hteam, hnone]
  · intro t ht
    unfold applyJudgementToStatus
    rw [hsub]
    simp only [hteam, ht]

/-- C6 counterexample state: one judged submission whose `time` is absent
while the judgement's `start_time` is present. -/
def c6State : ContestState :=
  { ContestState.new with
    contest := some fxContest
    judgement_types := [("AC", fxAC)]
    groups := [("G", fxGroup)]
    teams := [("T", fxTeam "T")]
    problems := [("P", fxProblem "P" 1)]
    submissions := [("s1", fxSubmission "s1" "T" "P" none)]
    judgements := [("j1", fxJudgement "j1" "s1" (some 50))] }

/-- C6 (counterexample): the claim says the stage fails with the
unknown-submission-time error only when both the submission time and the
judgement `start_time` are absent; here `start_time` is present and the
stage still fails with that error. -/
theorem c6_claim_false_at_input :
    (alGet c6State.judgements "j1").isSome = true ∧
    ((alGet c6State.judgements "j1").map
      (fun j => j.start_time)).getD none = some 50 ∧
    validateAndTransform c6State fxConfig =
      .error ("Unknown submission time for submission s1") := by
  refine ⟨by decide, by decide, by rfl⟩

/-- C6 witness: instantiating the amended statement at the same input. -/
theorem applyJudgementToStatus_time_requirement_witness :
    applyJudgementToStatus c6State [("T", TeamStatus.new "T" "team T" "O" 0)]
      (fxJudgement "j1" "s1" (some 50)) 0 14400 =
      .error ("Unknown submission time for submission s1") :=
  (applyJudgementToStatus_time_requirement c6State
    [("T", TeamStatus.new "T" "team T" "O" 0)]
    (fxJudgement "j1" "s1" (some 50)) 0 14400
    (fxSubmission "s1" "T" "P" none) (TeamStatus.new "T" "team T" "O" 0)
    (by decide) (by decide)).1 (by decide)

/-! ## C7: dangling judgements survive validation -/

theorem preFreeze_fold_warnings (state : ContestState)
    (contest_start_time contest_freeze_time : Int) :
    ∀ (L : List Judgement)
      (acc res : List (String × TeamStatus) × List String),
      L.foldlM (preFreezeStep state contest_start_time contest_freeze_time)
        acc = .ok res →
      (∀ x ∈ acc.2, x ∈ res.2) ∧
      (∀ j ∈ L, alGet state.submissions j.submission_id = none →
        ("Skipping judgement " ++ j.id ++ " because submission " ++
          j.submission_id ++ " is missing") ∈ res.2) := by
  intro L
  induction L with
  | nil =>
    intro acc res h
    simp only [List.foldlM_nil] at h
    cases h
    exact ⟨fun x hx => hx, fun j hj => absurd hj (List.not_mem_nil j)⟩
  | cons j rest ih =>
    intro acc res h
    simp only [List.foldlM_cons] at h
    match hstep : preFreezeStep state contest_start_time contest_freeze_time
        acc j with
    | .error e =>
      rw [hstep] at h
      simp [bind, Except.bind] at h
    | .ok acc' =>
      rw [hstep] at h
      simp only [bind, Except.bind] at h
      obtain ⟨hmono', hall'⟩ := ih acc' res h
      have hsub2 : ∀ x ∈ acc.2, x ∈ acc'.2 := by
        intro x hx
        unfold preFreezeStep at hstep
        split at hstep
        · simp only [Except.ok.injEq] at hstep
          rw [← hstep]
          simp [hx]
        · split at hstep
          · simp at hstep
          · simp only [bind, Except.bind] at hstep
            split at hstep
            · simp at hstep
            · simp only [Except.ok.injEq] at hstep
              rw [← hstep]
              exact hx
      refine ⟨fun x hx => hmono' x (hsub2 x hx), ?_⟩
      intro j' hj' hmiss
      rcases List.mem_cons.mp hj' with rfl | hj'rest
      · unfold preFreezeStep at hstep
        split at hstep
        · simp only [Except.ok.injEq] at hstep
          refine hmono' _ ?_
          rw [← hstep]
          simp
        · next sub heqsub =>
            rw [hmiss] at heqsub
            exact absurd heqsub (by simp)
      · exact hall' j' hj'rest hmiss

/-- C7 (amended): validation does not guarantee that judgements reference
existing submissions; instead, every judgement of a validated state whose
submission is missing is skipped by the scoreboard stage with a
"Skipping judgement …" warning in the returned warning list. -/
theorem validated_state_warns_dangling_judgements :
    ∀ (state : ContestState) (config : PyriteConfig) (w : List String)
      (st' : ContestState),
      validateAndTransform state config = .ok (w, st') →
      ∀ j ∈ alValues st'.judgements,
        alGet st'.submissions j.submission_id = none →
        ("Skipping judgement " ++ j.id ++ " because submission " ++
          j.submission_id ++ " is missing") ∈ w := by
  intro state config w st' h j hj hmiss
  unfold validateAndTransform at h
  simp only [bind, Except.bind] at h
  split at h
  · exact absurd h (by simp)
  next s2 heq1 =>
    split at h
    · exact absurd h (by simp)
    next heq2 =>
      split at h
      · exact absurd h (by simp)
      next heq3 =>
        split at h
        · exact absurd h (by simp)
        next contest heq4 =>
          split at h
          · exact absurd h (by simp)
          next cs heq5 =>
            split at h
            · exact absurd h (by simp)
            next cf heq6 =>
              split at h
              · exact absurd h (by simp)
              next m0 heq7 =>
                split at h
                · exact absurd h (by simp)
                next res heq8 =>
                  split at h
                  · exact absurd h (by simp)
                  next fin heq9 =>
                    simp only [Except.ok.injEq, Prod.mk.injEq] at h
                    obtain ⟨hw, hst⟩ := h
                    have hjud : st'.judgements = s2.judgements := by
                      rw [← hst]
                    have hsubs : st'.submissions = s2.submissions := by
                      rw [← hst]
                    have hjmem : j ∈ buildJudgementOrder s2 := by
                      unfold buildJudgementOrder
                      rw [(stableSortBy_perm _ _).mem_iff]
                      rw [hjud] at hj
                      exact hj
                    have := (preFreeze_fold_warnings s2 cs cf
                      (buildJudgementOrder s2) (m0, []) res heq8).2 j hjmem
                      (by rw [hsubs] at hmiss; exact hmiss)
                    rw [← hw]
                    exact this

/-- C7 counterexample state: a validated state containing a judgement whose
`submission_id` resolves to no submission. -/
def c7State : ContestState :=
  { ContestState.new with
    contest := some fxContest
    judgement_types := [("AC", fxAC)]
    groups := [("G", fxGroup)]
    teams := [("T", fxTeam "T")]
    problems := [("P", fxProblem "P" 1)]
    submissions := []
    judgements := [("j1", fxJudgement "j1" "ghost" (some 50))] }

/-- C7 (counterexample): `c7State` passes the validator and the whole
pipeline — `validate_and_transform` succeeds — although its judgement `j1`
references the non-existent submission `ghost`. -/
theorem c7_claim_false_at_input :
    (validateAndTransform c7State fxConfig).toOption.isSome = true ∧
    alGet c7State.judgements "j1" = some (fxJudgement "j1" "ghost" (some 50))
      ∧
    alGet c7State.submissions
      (fxJudgement "j1" "ghost" (some 50)).submission_id = none := by
  refine ⟨by decide, by decide, by decide⟩

/-- The concrete pipeline outputs on `c7State`, named so the witness can
re-apply the amended theorem to them. -/
def c7Warnings : List String :=
  ((validateAndTransform c7State fxConfig).toOption.map Prod.fst).getD []

def c7Final : ContestState :=
  ((validateAndTransform c7State fxConfig).toOption.map Prod.snd).getD
    ContestState.new

/-- C7 witness: the amended statement at the concrete dangling state. -/
theorem validated_state_warns_dangling_witness :
    ("Skipping judgement j1 because submission ghost is missing") ∈
      c7Warnings :=
  validated_state_warns_dangling_judgements c7State fxConfig c7Warnings
    c7Final (by rfl) (fxJudgement "j1" "ghost" (some 50)) (by decide)
    (by decide)

/-! ## C8: `error_count > 0` does not suppress the scoreboard stage -/

/-- C8 (amended): whenever the worker emits `Finished`, the delivered state
is the output of `validate_and_transform` — the scoreboard stage ran —
regardless of `error_count`; `error_count` is the ingest fold's count and
`lines_read` the number of lines.  (Separately, `load_data::ui` drops the
delivered state when `error_count > 0`: see the counterexample.) -/
theorem runEventFeedWorker_finished_ran_scoreboard :
    ∀ (lines : List FeedLine) (config : PyriteConfig)
      (lines_read error_count : Nat) (st : ContestState)
      (warnings : List String),
      runEventFeedWorker lines config =
        .finished lines_read error_count st warnings →
      validateAndTransform (ingestFeed lines).2 config =
        .ok (warnings, st) ∧
      error_count = (ingestFeed lines).1 ∧ lines_read = lines.length := by
  intro lines config lr ec st w h
  unfold runEventFeedWorker at h
  split at h
  · next result heq =>
    simp only [ParserResult.finished.injEq] at h
    obtain ⟨h1, h2, h3, h4⟩ := h
    rw [heq, ← h3, ← h4, ← h1, ← h2]
    exact ⟨rfl, rfl, rfl⟩
  · simp at h

/-- The C8 feed: an entity line before any `contest` line (one line error),
then a complete, valid contest. -/
def fxContestLine : Contest :=
  { start_time := some 0, duration := 18000,
    scoreboard_freeze_duration := 3600, penalty_time := 20,
    scoreboard_freeze_time := none }

def c8Feed : List FeedLine :=
  [.judgementTypeLine fxAC,
   .contestLine fxContestLine,
   .judgementTypeLine fxAC,
   .groupLine fxGroup,
   .teamLine (fxTeam "T"),
   .problemLine (fxProblem "P" 1),
   .submissionLine (fxSubmission "s1" "T" "P" (some 600)),
   .judgementLine (fxJudgement "j1" "s1" none)]

/-- The initial `ParseUiState` slice (`Default`). -/
def c8Ui : ParseUiSlice :=
  { is_parsing := true, parsed_successfully := false, lines_read := 0,
    error_count := 0, parse_failed_message := none,
    parsed_contest_state := none, warnings := [] }

/-- C8 (counterexample): this run reaches `Finished` with
`error_count = 1 > 0`, yet the delivered state has computed leaderboards
(the scoreboard stage was invoked); and the UI's `Finished` handler then
discards the delivered state rather than exposing it. -/
theorem c8_claim_false_at_input :
    (runEventFeedWorker c8Feed fxConfig).errorCountOf = some 1 ∧
    ((runEventFeedWorker c8Feed fxConfig).stateOf.map
      (fun st => st.leaderboard_pre_freeze.map (fun t => t.team_id))).getD []
      = ["T"] ∧
    ((runEventFeedWorker c8Feed fxConfig).stateOf.map
      (fun st => st.leaderboard_finalized.map (fun t => t.team_id))).getD []
      = ["T"] ∧
    (uiApplyFinished c8Ui 8 1
      (((runEventFeedWorker c8Feed fxConfig).stateOf).getD ContestState.new)
      []).parsed_contest_state = none ∧
    (uiApplyFinished c8Ui 8 1
      (((runEventFeedWorker c8Feed fxConfig).stateOf).getD ContestState.new)
      []).parsed_successfully = false := by
  refine ⟨by rfl, by rfl, by rfl, by rfl, by rfl⟩

/-- C8 witness: the amended statement at the same concrete feed. -/
theorem runEventFeedWorker_finished_witness :
    validateAndTransform (ingestFeed c8Feed).2 fxConfig =
      .ok (((runEventFeedWorker c8Feed fxConfig).warningsOf).getD [],
        ((runEventFeedWorker c8Feed fxConfig).stateOf).getD
          ContestState.new) ∧
    (1 : Nat) = (ingestFeed c8Feed).1 ∧ (8 : Nat) = c8Feed.length :=
  runEventFeedWorker_finished_ran_scoreboard c8Feed fxConfig 8 1
    (((runEventFeedWorker c8Feed fxConfig).stateOf).getD ContestState.new)
    (((runEventFeedWorker c8Feed fxConfig).warningsOf).getD []) (by rfl)

/-! ## The heap drains a permutation of its input -/

section HeapPerm

variable {α : Type} [Inhabited α] [DecidableEq α] (cmp : α → α → Ordering)

theorem list_set_self (l : List α) (i : Nat) (h : i < l.length) :
    l.set i (l[i]) = l := by
  induction l generalizing i with
  | nil => simp at h
  | cons a rest ih =>
    match i with
    | 0 => simp
    | n + 1 =>
      simp only [List.set_cons_succ, List.cons.injEq, true_and]
      exact ih n (by simpa using h)

theorem count_set_eq (a : α) (l : List α) (i : Nat) (x : α)
    (h : i < l.length) :
    List.count a (l.set i x) + (if l[i] = a then 1 else 0) =
      List.count a l + (if x = a then 1 else 0) := by
  rw [List.count_set x a l i h]
  have hmem : l[i] ∈ l := List.getElem_mem h
  by_cases hx : l[i] = a
  · have hpos : 0 < List.count a l := List.count_pos_iff.mpr (hx ▸ hmem)
    by_cases hy : x = a <;> simp [hx, hy] <;> omega
  · by_cases hy : x = a <;> simp [hx, hy]

theorem count_set_getD (a : α) (l : List α) (i : Nat) (x : α)
    (h : i < l.length) :
    List.count a (l.set i x) + (if l.getD i default = a then 1 else 0) =
      List.count a l + (if x = a then 1 else 0) := by
  rw [List.getD_eq_getElem _ _ h]
  exact count_set_eq a l i x h

theorem siftUpGo_count (fuel : Nat) (element : α) (arr : List α)
    (pos start : Nat) (h : pos < arr.length) (a : α) :
    List.count a (siftUpGo cmp fuel element arr pos start) =
      List.count a (arr.set pos element) := by
  induction fuel generalizing arr pos with
  | zero => rfl
  | succ fuel ih =>
    rw [siftUpGo]
    by_cases hlt : start < pos
    · rw [if_pos hlt]
      by_cases hle : cmpLe cmp element
          (arr.getD ((pos - 1) / 2) default)
      · rw [if_pos hle]
      · rw [if_neg hle]
        have hparent : (pos - 1) / 2 < arr.length :=
          lt_of_le_of_lt (le_trans (Nat.div_le_self _ _)
            (Nat.sub_le _ _)) h
        have hparent' : (pos - 1) / 2 <
            (arr.set pos (arr.getD ((pos - 1) / 2) default)).length := by
          simpa using hparent
        rw [ih _ _ hparent']
        have hps : (pos - 1) / 2 ≠ pos := by omega
        have hgd : arr.getD ((pos - 1) / 2) default = arr[(pos - 1) / 2] :=
          List.getD_eq_getElem arr default hparent
        have h1 := count_set_eq a arr pos (arr.getD ((pos - 1) / 2) default)
          h
        have hsetlen : pos < (arr.set pos
            (arr.getD ((pos - 1) / 2) default)).length := by simpa using h
        have h2 := count_set_eq a
          (arr.set pos (arr.getD ((pos - 1) / 2) default)) ((pos - 1) / 2)
          element hparent'
        have h3 := count_set_eq a arr pos element h
        have hget2 : (arr.set pos
            (arr.getD ((pos - 1) / 2) default))[(pos - 1) / 2] =
            arr[(pos - 1) / 2] := by
          rw [List.getElem_set_ne (by omega)]
        rw [hget2] at h2
        rw [hgd] at h1
        by_cases c1 : arr[pos] = a <;>
          by_cases c2 : arr[(pos - 1) / 2] = a <;>
          by_cases c3 : element = a <;>
          simp_all <;> omega
    · rw [if_neg hlt]

theorem siftUpGo_perm (fuel : Nat) (element : α) (arr : List α)
    (pos start : Nat) (h : pos < arr.length) :
    (siftUpGo cmp fuel element arr pos start).Perm (arr.set pos element) :=
  List.perm_iff_count.mpr (fun a => siftUpGo_count cmp fuel element arr pos
    start h a)

theorem siftDownToBottomGo_spec (fuel : Nat) (arr : List α)
    (pos endIdx : Nat) (hlen : endIdx ≤ arr.length) (h : pos < arr.length) :
    (siftDownToBottomGo cmp fuel arr pos endIdx).2 <
      (siftDownToBottomGo cmp fuel arr pos endIdx).1.length ∧
    ∀ a, List.count a (siftDownToBottomGo cmp fuel arr pos endIdx).1 +
        (if arr.getD pos default = a then 1 else 0) =
      List.count a arr +
        (if (siftDownToBottomGo cmp fuel arr pos endIdx).1.getD
          (siftDownToBottomGo cmp fuel arr pos endIdx).2 default = a
          then 1 else 0) := by
  induction fuel generalizing arr pos with
  | zero =>
    rw [siftDownToBottomGo]
    exact ⟨h, fun a => rfl⟩
  | succ fuel ih =>
    rw [siftDownToBottomGo]
    by_cases h1 : 2 * pos + 1 ≤ endIdx - 2
    · rw [if_pos h1]
      have hc2 : largerChild cmp arr pos ≤ 2 * pos + 2 :=
        largerChild_le cmp arr pos
      have hcne : largerChild cmp arr pos ≠ pos := by
        have := lt_largerChild cmp arr pos
        omega
      have hclen : largerChild cmp arr pos < arr.length := by omega
      have hclen' : largerChild cmp arr pos <
          (arr.set pos (arr.getD (largerChild cmp arr pos)
            default)).length := by
        simpa using hclen
      obtain ⟨ihpos, ihcount⟩ := ih
        (arr.set pos (arr.getD (largerChild cmp arr pos) default))
        (largerChild cmp arr pos) (by simpa using hlen) (by simpa using hclen)
      refine ⟨ihpos, fun a => ?_⟩
      have hkey := ihcount a
      have hset := count_set_eq a arr pos
        (arr.getD (largerChild cmp arr pos) default) h
      have hgetc : (arr.set pos (arr.getD (largerChild cmp arr pos)
          default)).getD (largerChild cmp arr pos) default =
          arr.getD (largerChild cmp arr pos) default := by
        rw [List.getD_eq_getElem _ _ hclen', List.getElem_set_ne (by omega)]
        exact (List.getD_eq_getElem _ _ hclen).symm
      rw [hgetc] at hkey
      rw [List.getD_eq_getElem _ _ h]
      by_cases c1 : arr[pos] = a <;>
        by_cases c2 : arr.getD (largerChild cmp arr pos) default = a <;>
        by_cases c3 : ((siftDownToBottomGo cmp fuel
          (arr.set pos (arr.getD (largerChild cmp arr pos) default))
          (largerChild cmp arr pos) endIdx).1.getD
          (siftDownToBottomGo cmp fuel
            (arr.set pos (arr.getD (largerChild cmp arr pos) default))
            (largerChild cmp arr pos) endIdx).2 default = a) <;>
        simp_all <;> omega
    · rw [if_neg h1]
      by_cases h2 : 2 * pos + 1 = endIdx - 1
      · rw [if_pos h2]
        have hchild : 2 * pos + 1 < arr.length := by omega
        have hchild' : 2 * pos + 1 <
            (arr.set pos (arr.getD (2 * pos + 1) default)).length := by
          simpa using hchild
        refine ⟨by simpa using hchild, fun a => ?_⟩
        have hset := count_set_eq a arr pos
          (arr.getD (2 * pos + 1) default) h
        have hgetc : (arr.set pos (arr.getD (2 * pos + 1) default)).getD
            (2 * pos + 1) default = arr.getD (2 * pos + 1) default := by
          rw [List.getD_eq_getElem _ _ hchild',
            List.getElem_set_ne (by omega)]
          exact (List.getD_eq_getElem _ _ hchild).symm
        rw [hgetc]
        rw [List.getD_eq_getElem _ _ h]
        by_cases c1 : arr[pos] = a <;>
          by_cases c2 : arr.getD (2 * pos + 1) default = a <;>
          simp_all <;> omega
      · rw [if_neg h2]
        exact ⟨h, fun a => rfl⟩

theorem siftDownToBottom_perm (arr : List α) (pos : Nat)
    (h : pos < arr.length) : (siftDownToBottom cmp arr pos).Perm arr := by
  unfold siftDownToBottom
  obtain ⟨hpos, hcount⟩ := siftDownToBottomGo_spec cmp arr.length arr pos
    arr.length (le_refl _) h
  rw [List.perm_iff_count]
  intro a
  rw [siftUpGo_count cmp _ _ _ _ _ hpos a]
  have hset := count_set_eq a
    (siftDownToBottomGo cmp arr.length arr pos arr.length).1
    (siftDownToBottomGo cmp arr.length arr pos arr.length).2
    (arr.getD pos default) hpos
  have hkey := hcount a
  rw [List.getD_eq_getElem _ default hpos] at hkey
  by_cases c1 : arr.getD pos default = a <;>
    by_cases c2 : ((siftDownToBottomGo cmp arr.length arr pos
      arr.length).1[(siftDownToBottomGo cmp arr.length arr pos
      arr.length).2] = a) <;>
    simp_all <;> omega

theorem siftDownRangeGo_count (fuel : Nat) (element : α) (arr : List α)
    (pos endIdx : Nat) (hlen : endIdx ≤ arr.length) (h : pos < arr.length)
    (a : α) :
    List.count a (siftDownRangeGo cmp fuel element arr pos endIdx) =
      List.count a (arr.set pos element) := by
  induction fuel generalizing arr pos with
  | zero => rfl
  | succ fuel ih =>
    rw [siftDownRangeGo]
    by_cases h1 : 2 * pos + 1 ≤ endIdx - 2
    · rw [if_pos h1]
      by_cases hge : cmpGe cmp element
          (arr.getD (largerChild cmp arr pos) default)
      · rw [if_pos hge]
      · rw [if_neg hge]
        have hcne : largerChild cmp arr pos ≠ pos := by
          have := lt_largerChild cmp arr pos
          omega
        have hc2 : largerChild cmp arr pos ≤ 2 * pos + 2 :=
          largerChild_le cmp arr pos
        have hclen : largerChild cmp arr pos < arr.length := by omega
        have hclen' : largerChild cmp arr pos <
            (arr.set pos (arr.getD (largerChild cmp arr pos)
              default)).length := by simpa using hclen
        rw [ih _ _ (by simpa using hlen) (by simpa using hclen)]
        have hset1 := count_set_getD a arr pos
          (arr.getD (largerChild cmp arr pos) default) h
        have hset2 := count_set_getD a
          (arr.set pos (arr.getD (largerChild cmp arr pos) default))
          (largerChild cmp arr pos) element hclen'
        have hset3 := count_set_getD a arr pos element h
        have hgetc : (arr.set pos (arr.getD (largerChild cmp arr pos)
            default)).getD (largerChild cmp arr pos) default =
            arr.getD (largerChild cmp arr pos) default := by
          have hmid : (arr.set pos (arr.getD (largerChild cmp arr pos)
              default))[largerChild cmp arr pos] =
              arr[largerChild cmp arr pos] := by
            rw [List.getElem_set_ne (by omega)]
          rw [List.getD_eq_getElem _ _ hclen', hmid]
          exact (List.getD_eq_getElem _ _ hclen).symm
        rw [hgetc] at hset2
        omega
    · rw [if_neg h1]
      by_cases h2 : 2 * pos + 1 = endIdx - 1 ∧
          cmpLt cmp element (arr.getD (2 * pos + 1) default)
      · rw [if_pos h2]
        have hchild : 2 * pos + 1 < arr.length := by omega
        have hchild' : 2 * pos + 1 <
            (arr.set pos (arr.getD (2 * pos + 1) default)).length := by
          simpa using hchild
        have hset1 := count_set_getD a arr pos
          (arr.getD (2 * pos + 1) default) h
        have hset2 := count_set_getD a
          (arr.set pos (arr.getD (2 * pos + 1) default)) (2 * pos + 1)
          element hchild'
        have hset3 := count_set_getD a arr pos element h
        have hgetc : (arr.set pos (arr.getD (2 * pos + 1)
            default)).getD (2 * pos + 1) default =
            arr.getD (2 * pos + 1) default := by
          have hmid : (arr.set pos (arr.getD (2 * pos + 1)
              default))[2 * pos + 1] =
              arr[2 * pos + 1] := by
            rw [List.getElem_set_ne (by omega)]
          rw [List.getD_eq_getElem _ _ hchild', hmid]
          exact (List.getD_eq_getElem _ _ hchild).symm
        rw [hgetc] at hset2
        omega
      · rw [if_neg h2]

theorem siftDown_perm (arr : List α) (pos : Nat) (h : pos < arr.length) :
    (siftDown cmp arr pos).Perm arr := by
  unfold siftDown
  rw [List.perm_iff_count]
  intro a
  rw [siftDownRangeGo_count cmp _ _ _ _ _ (le_refl _) h a]
  rw [List.getD_eq_getElem _ _ h, list_set_self]

theorem rebuildGo_perm (arr : List α) (n : Nat) (h : n ≤ arr.length) :
    (rebuildGo cmp arr n).Perm arr := by
  induction n generalizing arr with
  | zero => rfl
  | succ n ih =>
    rw [rebuildGo]
    have hn : n < arr.length := by omega
    have := ih (siftDown cmp arr n)
      (by rw [siftDown_length]; omega)
    exact this.trans (siftDown_perm cmp arr n hn)

theorem rebuild_perm (arr : List α) : (rebuild cmp arr).Perm arr :=
  rebuildGo_perm cmp arr _ (Nat.div_le_self _ _)

theorem heapPop_perm (arr rest : List α) (x : α)
    (h : heapPop cmp arr = some (x, rest)) : arr.Perm (x :: rest) := by
  match arr with
  | [] => simp [heapPop] at h
  | b :: l =>
    simp only [heapPop] at h
    have hsplit : (b :: l).dropLast ++ [(b :: l).getLast (by simp)] =
        b :: l := List.dropLast_append_getLast (by simp)
    have hlast : (b :: l).getLast! = (b :: l).getLast (by simp) := rfl
    by_cases he : (b :: l).dropLast.isEmpty
    · rw [if_pos he] at h
      simp only [Option.some.injEq, Prod.mk.injEq] at h
      obtain ⟨h1, h2⟩ := h
      rw [List.isEmpty_iff] at he
      rw [he] at hsplit
      rw [← hsplit, ← h1, ← h2, he, hlast]
      rfl
    · rw [if_neg he] at h
      simp only [Option.some.injEq, Prod.mk.injEq] at h
      obtain ⟨h1, h2⟩ := h
      have hlen : 0 < (b :: l).dropLast.length := by
        cases hd : (b :: l).dropLast with
        | nil => rw [hd] at he; simp at he
        | cons c r => simp
      have hperm2 : rest.Perm ((b :: l).dropLast.set 0
          ((b :: l).getLast!)) := by
        rw [← h2]
        exact siftDownToBottom_perm cmp _ 0 (by simpa using hlen)
      rw [List.perm_iff_count]
      intro a
      have hc1 := hperm2.count_eq a
      have hset := count_set_eq a (b :: l).dropLast 0 ((b :: l).getLast!)
        hlen
      have hx : x = (b :: l).dropLast[0] := by
        rw [← h1, List.getD_eq_getElem _ _ hlen]
      have harr : List.count a (b :: l) =
          List.count a (b :: l).dropLast +
            (if (b :: l).getLast! = a then 1 else 0) := by
        conv_lhs => rw [← hsplit]
        rw [List.count_append, ← hlast]
        simp [List.count_cons, List.count_nil]
      have hrhs : List.count a (x :: rest) =
          List.count a rest + (if x = a then 1 else 0) := by
        rw [List.count_cons]
        by_cases hxa : x = a <;> simp [hxa]
      rw [harr, hrhs, hc1, hx]
      omega

theorem heapDrainGo_perm (fuel : Nat) (arr : List α)
    (h : arr.length ≤ fuel) : (heapDrainGo cmp fuel arr).Perm arr := by
  induction fuel generalizing arr with
  | zero =>
    have : arr = [] := List.length_eq_zero.mp (by omega)
    rw [this]
    rfl
  | succ fuel ih =>
    rw [heapDrainGo]
    match hp : heapPop cmp arr with
    | none =>
      match arr with
      | [] => rfl
      | b :: l =>
        simp only [heapPop] at hp
        split at hp <;> simp at hp
    | some (x, rest) =>
      have hlen := heapPop_length cmp arr rest x hp
      have := ih rest (by omega)
      exact ((this.cons x).trans (heapPop_perm cmp arr rest x hp).symm).symm.symm

theorem heapDrain_perm (arr : List α) : (heapDrain cmp arr).Perm arr :=
  heapDrainGo_perm cmp arr.length arr (le_refl _)

end HeapPerm

/-- `map_to_sorted_leaderboard` returns a permutation of the map's
values. -/
theorem mapToSortedLeaderboard_perm (m : List (String × TeamStatus)) :
    (mapToSortedLeaderboard m).Perm (alValues m) := by
  unfold mapToSortedLeaderboard
  exact (List.reverse_perm _).trans
    ((heapDrain_perm teamStatusCmp _).trans (rebuild_perm teamStatusCmp _))


/-! ## C4: finalized versus pre-freeze penalties

The two boards are built from the same judgement fold; the pre-freeze
totals are accumulated by `add_submission` only for problems solved
outside the freeze, while `recompute_team_totals` re-sums every solved
stat. The development below characterises both totals as sums over the
stored `ProblemStat`s. -/

/-- A stat's contribution to the incrementally kept pre-freeze penalty:
counted at solve time only when the solve was not during the freeze. -/
def penUnfrozen (s : ProblemStat) : Int :=
  if s.solved && !s.attempted_during_freeze then s.penalty else 0

/-- A stat's contribution that only the finalized recomputation adds:
solved during the freeze. -/
def penFrozen (s : ProblemStat) : Int :=
  if s.solved && s.attempted_during_freeze then s.penalty else 0

/-- A stat's contribution to the recomputed finalized penalty. -/
def penSolved (s : ProblemStat) : Int :=
  if s.solved then s.penalty else 0

/-- Sum of `f` over the values of an association list. -/
def sumBy {α : Type} (f : α → Int) (m : List (String × α)) : Int :=
  (m.map (fun p => f p.2)).sum

/-- Invariant of every stored `ProblemStat`: the submission counter is
non-negative and a problem solved during the freeze has a non-negative
penalty (its solve time lies after the freeze, hence after the start). -/
def statInv (s : ProblemStat) : Prop :=
  0 ≤ s.submissions_before_solved ∧
    (s.solved = true → s.attempted_during_freeze = true → 0 ≤ s.penalty)

/-- Totals invariant of a `TeamStatus` along the judgement fold. -/
def totalsInv (ts : TeamStatus) : Prop :=
  ts.total_penalty = sumBy penUnfrozen ts.problem_stats ∧
    ∀ p ∈ ts.problem_stats, statInv p.2

/-- Invariant of the whole team-status map: unique keys, each value keyed
by its own `team_id`, and the totals invariant for every value. -/
def mapInv (m : List (String × TeamStatus)) : Prop :=
  (alKeys m).Nodup ∧ ∀ p ∈ m, p.2.team_id = p.1 ∧ totalsInv p.2

theorem sumBy_alInsert {α : Type} (f : α → Int) (m : List (String × α))
    (k : String) (v : α) :
    sumBy f (alInsert m k v) + ((alGet m k).map f).getD 0 =
      sumBy f m + f v := by
  induction m with
  | nil => simp [alInsert, sumBy, alGet]
  | cons p rest ih =>
    by_cases h : p.1 = k
    · simp only [alInsert, if_pos h, alGet, sumBy, List.map_cons,
        List.sum_cons, Option.map_some', Option.getD_some]
      ring
    · simp only [alInsert, if_neg h, alGet, sumBy, List.map_cons,
        List.sum_cons]
      simp only [sumBy] at ih
      omega

theorem sumBy_nonneg {α : Type} (f : α → Int) (m : List (String × α))
    (h : ∀ p ∈ m, 0 ≤ f p.2) : 0 ≤ sumBy f m := by
  induction m with
  | nil => simp [sumBy]
  | cons p rest ih =>
    simp only [sumBy, List.map_cons, List.sum_cons]
    have h1 := h p (by simp)
    have h2 : 0 ≤ sumBy f rest := ih (fun q hq => h q (by simp [hq]))
    simp only [sumBy] at h2
    omega

theorem sumBy_solved_split (m : List (String × ProblemStat)) :
    sumBy penSolved m = sumBy penUnfrozen m + sumBy penFrozen m := by
  induction m with
  | nil => rfl
  | cons p rest ih =>
    simp only [sumBy, List.map_cons, List.sum_cons] at ih ⊢
    have hp : penSolved p.2 = penUnfrozen p.2 + penFrozen p.2 := by
      unfold penSolved penUnfrozen penFrozen
      cases hs : p.2.solved <;>
        cases hf : p.2.attempted_during_freeze <;> simp
    omega

theorem mem_alInsert {α : Type} {p : String × α} {m : List (String × α)}
    {k : String} {v : α} (h : p ∈ alInsert m k v) : p = (k, v) ∨ p ∈ m := by
  induction m with
  | nil => simpa [alInsert] using h
  | cons q rest ih =>
    by_cases hq : q.1 = k
    · simp only [alInsert, if_pos hq] at h
      rcases List.mem_cons.mp h with h1 | h1
      · exact Or.inl h1
      · exact Or.inr (List.mem_cons.mpr (Or.inr h1))
    · simp only [alInsert, if_neg hq] at h
      rcases List.mem_cons.mp h with h1 | h1
      · exact Or.inr (List.mem_cons.mpr (Or.inl h1))
      · rcases ih h1 with h2 | h2
        · exact Or.inl h2
        · exact Or.inr (List.mem_cons.mpr (Or.inr h2))

theorem mem_alKeys_alInsert {α : Type} {x : String}
    {m : List (String × α)} {k : String} {v : α}
    (h : x ∈ alKeys (alInsert m k v)) : x = k ∨ x ∈ alKeys m := by
  induction m with
  | nil => simpa [alInsert, alKeys] using h
  | cons q rest ih =>
    by_cases hq : q.1 = k
    · simp only [alInsert, if_pos hq, alKeys, List.map_cons] at h
      rcases List.mem_cons.mp h with h1 | h1
      · exact Or.inl h1
      · exact Or.inr (by simp [alKeys, h1])
    · simp only [alInsert, if_neg hq, alKeys, List.map_cons] at h
      rcases List.mem_cons.mp h with h1 | h1
      · exact Or.inr (by simp [alKeys, h1])
      · rcases ih h1 with h2 | h2
        · exact Or.inl h2
        · exact Or.inr (by simp [alKeys]; right; simpa [alKeys] using h2)

theorem alKeys_nodup_alInsert {α : Type} (m : List (String × α))
    (k : String) (v : α) (h : (alKeys m).Nodup) :
    (alKeys (alInsert m k v)).Nodup := by
  induction m with
  | nil => simp [alInsert, alKeys]
  | cons q rest ih =>
    simp only [alKeys, List.map_cons, List.nodup_cons] at h
    by_cases hq : q.1 = k
    · simp only [alInsert, if_pos hq, alKeys, List.map_cons,
        List.nodup_cons]
      exact ⟨by rw [← hq]; exact h.1, h.2⟩
    · simp only [alInsert, if_neg hq, alKeys, List.map_cons,
        List.nodup_cons]
      refine ⟨fun hc => ?_, ih h.2⟩
      rcases mem_alKeys_alInsert hc with h1 | h1
      · exact hq h1
      · exact h.1 (by simpa [alKeys] using h1)

theorem mem_of_alGet {α : Type} {m : List (String × α)} {k : String}
    {v : α} (h : alGet m k = some v) : (k, v) ∈ m := by
  induction m with
  | nil => simp [alGet] at h
  | cons q rest ih =>
    by_cases hq : q.1 = k
    · simp only [alGet, if_pos hq, Option.some.injEq] at h
      exact List.mem_cons.mpr (Or.inl (by rw [← hq, ← h]))
    · simp only [alGet, if_neg hq] at h
      exact List.mem_cons.mpr (Or.inr (ih h))

theorem alGet_of_mem_nodup {α : Type} {m : List (String × α)} {k : String}
    {v : α} (hn : (alKeys m).Nodup) (h : (k, v) ∈ m) :
    alGet m k = some v := by
  induction m with
  | nil => simp at h
  | cons q rest ih =>
    simp only [alKeys, List.map_cons, List.nodup_cons] at hn
    rcases List.mem_cons.mp h with h1 | h1
    · rw [← h1]
      simp [alGet]
    · have hq : q.1 ≠ k := by
        intro he
        apply hn.1
        have : (k, v).1 ∈ List.map Prod.fst rest :=
          List.mem_map_of_mem Prod.fst h1
        simpa [he] using this
      simp [alGet, hq, ih hn.2 h1]

theorem exists_key_of_mem_alValues {α : Type} {v : α}
    {m : List (String × α)} (h : v ∈ alValues m) : ∃ k, (k, v) ∈ m := by
  unfold alValues at h
  rcases List.mem_map.mp h with ⟨p, hp, he⟩
  exact ⟨p.1, by rw [← he]; exact hp⟩
theorem recompute_foldl_pen :
    ∀ (l : List (String × ProblemStat)) (t : TeamStatus),
      ((List.foldl (fun t p =>
        let stat := p.2
        if stat.solved then
          { t with
            total_points := t.total_points + 1
            total_penalty := t.total_penalty + stat.penalty
            last_ac_time :=
              match stat.first_ac_time with
              | some ac_time =>
                if t.last_ac_time.all (fun last => ac_time > last) then
                  some ac_time
                else t.last_ac_time
              | none => t.last_ac_time }
        else t) t l).total_penalty
          = t.total_penalty + sumBy penSolved l) ∧
      (List.foldl (fun t p =>
        let stat := p.2
        if stat.solved then
          { t with
            total_points := t.total_points + 1
            total_penalty := t.total_penalty + stat.penalty
            last_ac_time :=
              match stat.first_ac_time with
              | some ac_time =>
                if t.last_ac_time.all (fun last => ac_time > last) then
                  some ac_time
                else t.last_ac_time
              | none => t.last_ac_time }
        else t) t l).team_id = t.team_id := by
  intro l
  induction l with
  | nil => intro t; simp [sumBy]
  | cons p rest ih =>
    intro t
    rw [List.foldl_cons]
    refine ⟨?_, ?_⟩
    · rw [(ih _).1]
      by_cases hs : p.2.solved <;>
        simp [hs, sumBy, penSolved] <;> omega
    · rw [(ih _).2]
      by_cases hs : p.2.solved <;> simp [hs]

theorem recomputeStatusTotals_penalty (ts : TeamStatus) :
    (recomputeStatusTotals ts).total_penalty =
      sumBy penSolved ts.problem_stats := by
  unfold recomputeStatusTotals
  rw [(recompute_foldl_pen _ _).1]
  simp

theorem recomputeStatusTotals_team_id (ts : TeamStatus) :
    (recomputeStatusTotals ts).team_id = ts.team_id := by
  unfold recomputeStatusTotals
  rw [(recompute_foldl_pen _ _).2]

theorem add_submission_team_id (ts : TeamStatus) (pid : String) (t : Int)
    (jtid : Option String) (types : List (String × JudgementType))
    (st ft : Int) :
    (ts.add_submission pid t jtid types st ft).team_id = ts.team_id := by
  unfold TeamStatus.add_submission
  simp only []
  repeat' split
  all_goals rfl
theorem sumBy_insert_keep (stats : List (String × ProblemStat))
    (pid : String) (s0 snew : ProblemStat)
    (hget : alGet stats pid = some s0) (hold : penUnfrozen s0 = 0)
    (hnew : penUnfrozen snew = 0) :
    sumBy penUnfrozen (alInsert stats pid snew) =
      sumBy penUnfrozen stats := by
  have h := sumBy_alInsert penUnfrozen stats pid snew
  rw [hget] at h
  simp only [Option.map_some', Option.getD_some, hold, hnew] at h
  omega

theorem sumBy_insert_add (stats : List (String × ProblemStat))
    (pid : String) (s0 snew : ProblemStat)
    (hget : alGet stats pid = some s0) (hold : penUnfrozen s0 = 0) :
    sumBy penUnfrozen (alInsert stats pid snew) =
      sumBy penUnfrozen stats + penUnfrozen snew := by
  have h := sumBy_alInsert penUnfrozen stats pid snew
  rw [hget] at h
  simp only [Option.map_some', Option.getD_some, hold] at h
  omega

theorem statInv_alInsert (stats : List (String × ProblemStat))
    (pid : String) (snew : ProblemStat)
    (hall : ∀ p ∈ stats, statInv p.2) (hnew : statInv snew) :
    ∀ p ∈ alInsert stats pid snew, statInv p.2 := by
  intro p hp
  rcases mem_alInsert hp with h | h
  · rw [h]
    exact hnew
  · exact hall p h
theorem add_submission_totalsInv (ts : TeamStatus) (pid : String) (t : Int)
    (jtid : Option String) (types : List (String × JudgementType))
    (st ft : Int) (hstf : st ≤ ft) (hinv : totalsInv ts) :
    totalsInv (ts.add_submission pid t jtid types st ft) := by
  obtain ⟨hpen, hstats⟩ := hinv
  have hstat0 : statInv ((alGet ts.problem_stats pid).getD
      ProblemStat.initial) := by
    cases hget : alGet ts.problem_stats pid with
    | none => simp [statInv, ProblemStat.initial]
    | some old => simpa using hstats (pid, old) (mem_of_alGet hget)
  have hS : sumBy penUnfrozen (alInsert ts.problem_stats pid
      ((alGet ts.problem_stats pid).getD ProblemStat.initial)) =
      sumBy penUnfrozen ts.problem_stats := by
    cases hget : alGet ts.problem_stats pid with
    | none =>
      have h := sumBy_alInsert penUnfrozen ts.problem_stats pid
        ((alGet ts.problem_stats pid).getD ProblemStat.initial)
      rw [hget] at h
      simp only [Option.getD_none, Option.map_none'] at h ⊢
      have h0 : penUnfrozen ProblemStat.initial = 0 := by
        simp [penUnfrozen, ProblemStat.initial]
      omega
    | some old =>
      simp only [Option.getD_some]
      rw [alInsert_self_of_get _ _ _ hget]
  have hSmem : ∀ p ∈ alInsert ts.problem_stats pid
      ((alGet ts.problem_stats pid).getD ProblemStat.initial),
      statInv p.2 :=
    statInv_alInsert _ _ _ hstats hstat0
  have hgetS : alGet (alInsert ts.problem_stats pid
      ((alGet ts.problem_stats pid).getD ProblemStat.initial)) pid =
      some ((alGet ts.problem_stats pid).getD ProblemStat.initial) :=
    alGet_alInsert_self _ _ _
  unfold TeamStatus.add_submission
  simp only []
  split
  next hs0 =>
    exact ⟨hpen.trans hS.symm, hSmem⟩
  next hns0 =>
    have hf : ((alGet ts.problem_stats pid).getD
        ProblemStat.initial).solved = false := by
      cases hc : ((alGet ts.problem_stats pid).getD
          ProblemStat.initial).solved
      · rfl
      · exact absurd hc hns0
    have h0 : penUnfrozen ((alGet ts.problem_stats pid).getD
        ProblemStat.initial) = 0 := by
      simp [penUnfrozen, hf]
    split
    next hjt =>
      exact ⟨hpen.trans hS.symm, hSmem⟩
    next jt hjt =>
      by_cases hjs : jt.solved = true
      · rw [if_pos hjs]
        have hps : (jt.penalty || jt.solved) = true := by simp [hjs]
        rw [if_pos hps]
        by_cases hfr : ft < t
        · rw [if_pos (by simp [hfr])]
          refine ⟨?_, statInv_alInsert _ _ _ hSmem ⟨?_, fun h1 h2 => ?_⟩⟩
          · rw [sumBy_insert_keep _ pid _ _ hgetS h0 (by simp [penUnfrozen, hfr])]
            exact hpen.trans hS.symm
          · have := hstat0.1
            simp only []
            omega
          · have hm : (0:Int) ≤ numMinutes (t - st) :=
              Int.tdiv_nonneg (by omega) (by norm_num)
            have := hstat0.1
            simp only []
            omega
        · rw [if_neg (by simp [hfr])]
          refine ⟨?_, statInv_alInsert _ _ _ hSmem ⟨?_, fun h1 h2 => ?_⟩⟩
          · rw [sumBy_insert_add _ pid _ _ hgetS h0]
            have hnew : penUnfrozen
                { solved := true, attempted_during_freeze := decide (t > ft),
                  penalty := numMinutes (t - st) +
                    (((alGet ts.problem_stats pid).getD
                      ProblemStat.initial).submissions_before_solved + 1 - 1)
                      * 20,
                  submissions_before_solved :=
                    ((alGet ts.problem_stats pid).getD
                      ProblemStat.initial).submissions_before_solved + 1,
                  first_ac_time := some t } = numMinutes (t - st) +
                    (((alGet ts.problem_stats pid).getD
                      ProblemStat.initial).submissions_before_solved + 1 - 1)
                      * 20 := by
              simp [penUnfrozen, hfr]
            rw [hS, hnew, ← hpen]
          · have := hstat0.1
            simp only []
            omega
          · simp only [] at h2
            rw [decide_eq_true_eq] at h2
            exact absurd h2 hfr
      · rw [if_neg hjs]
        by_cases hps : (jt.penalty || jt.solved) = true
        · rw [if_pos hps]
          refine ⟨?_, statInv_alInsert _ _ _ hSmem ⟨?_, fun h1 h2 => ?_⟩⟩
          · rw [sumBy_insert_keep _ pid _ _ hgetS h0 ?hnew]
            · exact hpen.trans hS.symm
            case hnew =>
              simp [penUnfrozen, hf]
          · have := hstat0.1
            simp only []
            omega
          · simp only [] at h1
            simp [hf] at h1
        · rw [if_neg hps]
          refine ⟨?_, statInv_alInsert _ _ _ hSmem ⟨?_, fun h1 h2 => ?_⟩⟩
          · rw [sumBy_insert_keep _ pid _ _ hgetS h0 ?hnew2]
            · exact hpen.trans hS.symm
            case hnew2 =>
              simp [penUnfrozen, hf]
          · have := hstat0.1
            simp only []
            omega
          · simp only [] at h1
            simp [hf] at h1
theorem applyJudgementToStatus_mapInv (state : ContestState)
    (m : List (String × TeamStatus)) (j : Judgement) (st ft : Int)
    (hstf : st ≤ ft) (m' : List (String × TeamStatus))
    (h : applyJudgementToStatus state m j st ft = .ok m')
    (hm : mapInv m) : mapInv m' := by
  unfold applyJudgementToStatus at h
  split at h
  next hsub =>
    simp only [Except.ok.injEq] at h
    rw [← h]
    exact hm
  next sub hsub =>
    split at h
    next hteam => simp at h
    next tstat hteam =>
      split at h
      next htime => simp at h
      next stime htime =>
        simp only [Except.ok.injEq] at h
        rw [← h]
        refine ⟨alKeys_nodup_alInsert _ _ _ hm.1, ?_⟩
        intro p hp
        rcases mem_alInsert hp with h1 | h1
        · rw [h1]
          refine ⟨?_, ?_⟩
          · rw [add_submission_team_id]
            exact (hm.2 (sub.team_id, tstat) (mem_of_alGet hteam)).1
          · exact add_submission_totalsInv _ _ _ _ _ _ _ hstf
              (hm.2 (sub.team_id, tstat) (mem_of_alGet hteam)).2
        · exact hm.2 p h1

theorem foldlM_inv {β γ : Type} (P : γ → Prop)
    (f : γ → β → Except String γ)
    (hf : ∀ a b a', f a b = .ok a' → P a → P a') :
    ∀ (l : List β) (a a' : γ), l.foldlM f a = .ok a' → P a → P a' := by
  intro l
  induction l with
  | nil =>
    intro a a' h hp
    simp only [List.foldlM_nil, pure, Except.pure, Except.ok.injEq] at h
    rw [← h]
    exact hp
  | cons b rest ih =>
    intro a a' h hp
    rw [List.foldlM_cons] at h
    cases hb : f a b with
    | error e =>
      rw [hb] at h
      simp [bind, Except.bind] at h
    | ok a1 =>
      rw [hb] at h
      simp only [bind, Except.bind] at h
      exact ih a1 a' h (hf a b a1 hb hp)

theorem buildInitialTeamStatusMap_mapInv (state : ContestState)
    (m0 : List (String × TeamStatus))
    (h : buildInitialTeamStatusMap state = .ok m0) : mapInv m0 := by
  unfold buildInitialTeamStatusMap at h
  refine foldlM_inv mapInv _ ?_ _ _ _ h ⟨by simp [alKeys], by simp⟩
  intro m team m' hstep hm
  simp only [] at hstep
  split at hstep
  next horg => simp at hstep
  next aff horg =>
    simp only [Except.ok.injEq] at hstep
    rw [← hstep]
    refine ⟨alKeys_nodup_alInsert _ _ _ hm.1, ?_⟩
    intro p hp
    rcases mem_alInsert hp with h1 | h1
    · rw [h1]
      exact ⟨rfl, by simp [TeamStatus.new, totalsInv, sumBy]⟩
    · exact hm.2 p h1

theorem preFreeze_fold_map (state : ContestState) (st ft : Int) :
    ∀ (js : List Judgement) (m0 : List (String × TeamStatus))
      (ws0 : List String) (out : List (String × TeamStatus) × List String),
      js.foldlM (preFreezeStep state st ft) (m0, ws0) = .ok out →
      js.foldlM (fun m j => applyJudgementToStatus state m j st ft) m0 =
        .ok out.1 := by
  intro js
  induction js with
  | nil =>
    intro m0 ws0 out h
    simp only [List.foldlM_nil, pure, Except.pure, Except.ok.injEq] at h ⊢
    rw [← h]
  | cons j rest ih =>
    intro m0 ws0 out h
    rw [List.foldlM_cons] at h ⊢
    unfold preFreezeStep at h
    split at h
    next hsub =>
      simp only [bind, Except.bind] at h
      simp only [applyJudgementToStatus, hsub, bind, Except.bind]
      exact ih _ _ _ h
    next sub hsub =>
      split at h
      next hor => simp [bind, Except.bind] at h
      next stime hor =>
        cases happ : applyJudgementToStatus state m0 j st ft with
        | error e =>
          simp only [happ, bind, Except.bind] at h
          exact absurd h (by simp)
        | ok m1 =>
          simp only [happ, bind, Except.bind] at h
          simp only [happ, bind, Except.bind]
          exact ih _ _ _ h
theorem recompute_penalty_ge (v : TeamStatus) (hv : totalsInv v) :
    v.total_penalty ≤ (recomputeStatusTotals v).total_penalty := by
  rw [recomputeStatusTotals_penalty, sumBy_solved_split, hv.1]
  have h := sumBy_nonneg penFrozen v.problem_stats ?_
  · omega
  · intro p hp
    have hst := hv.2 p hp
    unfold penFrozen
    by_cases h1 : p.2.solved = true <;>
      by_cases h2 : p.2.attempted_during_freeze = true
    · simpa [h1, h2] using hst.2 h1 h2
    · simp [h1, h2]
    · simp [h1, h2]
    · simp [h1, h2]

theorem mem_values_key {m : List (String × TeamStatus)} (hm : mapInv m)
    {v : TeamStatus} (hv : v ∈ alValues m) : (v.team_id, v) ∈ m := by
  obtain ⟨k, hk⟩ := exists_key_of_mem_alValues hv
  have hkey := (hm.2 (k, v) hk).1
  rw [hkey]
  exact hk

theorem recompute_values_mem {m : List (String × TeamStatus)}
    {tf : TeamStatus} (h : tf ∈ alValues (recomputeTeamTotals m)) :
    ∃ k v, (k, v) ∈ m ∧ tf = recomputeStatusTotals v := by
  unfold alValues recomputeTeamTotals at h
  rw [List.map_map] at h
  rcases List.mem_map.mp h with ⟨p, hp, he⟩
  exact ⟨p.1, p.2, hp, he.symm⟩

theorem al_key_unique {m : List (String × TeamStatus)}
    (hn : (alKeys m).Nodup) {k : String} {v1 v2 : TeamStatus}
    (h1 : (k, v1) ∈ m) (h2 : (k, v2) ∈ m) : v1 = v2 := by
  have e1 := alGet_of_mem_nodup hn h1
  have e2 := alGet_of_mem_nodup hn h2
  exact Option.some.inj (e1.symm.trans e2)

theorem computeFinalizedLeaderboard_ok (state : ContestState)
    (fin : List TeamStatus) (h : computeFinalizedLeaderboard state = .ok fin) :
    ∃ contest cs cf m0 mfin,
      state.contest = some contest ∧ contest.start_time = some cs ∧
      contest.scoreboard_freeze_time = some cf ∧
      buildInitialTeamStatusMap state = .ok m0 ∧
      (buildJudgementOrder state).foldlM
        (fun m j => applyJudgementToStatus state m j cs cf) m0 = .ok mfin ∧
      fin = mapToSortedLeaderboard (recomputeTeamTotals mfin) := by
  unfold computeFinalizedLeaderboard at h
  simp only [bind, Except.bind] at h
  split at h
  · exact absurd h (by simp)
  next contest heqc =>
    split at h
    · exact absurd h (by simp)
    next cs heqs =>
      split at h
      · exact absurd h (by simp)
      next cf heqf =>
        split at h
        · exact absurd h (by simp)
        next m0 heqm =>
          split at h
          · exact absurd h (by simp)
          next mfin heqr =>
            simp only [Except.ok.injEq] at h
            exact ⟨contest, cs, cf, m0, mfin, heqc, heqs, heqf, heqm, heqr,
              h.symm⟩
/-- C4 (amended): in every successful run of the scoreboard stage whose
contest has `start_time ≤ scoreboard_freeze_time`, each pre-freeze
leaderboard entry's `total_penalty` is at most the finalized entry's
`total_penalty` for the same team. Without that proviso the claim fails
(`c4_claim_false_at_input`): a freeze before the start makes frozen solve
penalties negative. -/
theorem leaderboard_finalized_penalty_ge (state : ContestState)
    (config : PyriteConfig) (w : List String) (st' : ContestState)
    (h : validateAndTransform state config = .ok (w, st'))
    (hstf : ∀ c cs cf, st'.contest = some c → c.start_time = some cs →
      c.scoreboard_freeze_time = some cf → cs ≤ cf)
    (tp tf : TeamStatus) (hp : tp ∈ st'.leaderboard_pre_freeze)
    (hf : tf ∈ st'.leaderboard_finalized) (hid : tf.team_id = tp.team_id) :
    tp.total_penalty ≤ tf.total_penalty := by
  unfold validateAndTransform at h
  simp only [bind, Except.bind] at h
  split at h
  · exact absurd h (by simp)
  next s2 heq1 =>
    split at h
    · exact absurd h (by simp)
    next heq2 =>
      split at h
      · exact absurd h (by simp)
      next heq3 =>
        split at h
        · exact absurd h (by simp)
        next contest heq4 =>
          split at h
          · exact absurd h (by simp)
          next cs heq5 =>
            split at h
            · exact absurd h (by simp)
            next cf heq6 =>
              split at h
              · exact absurd h (by simp)
              next m0 heq7 =>
                split at h
                · exact absurd h (by simp)
                next res heq8 =>
                  split at h
                  · exact absurd h (by simp)
                  next fin heq9 =>
                    simp only [Except.ok.injEq, Prod.mk.injEq] at h
                    obtain ⟨hw, hst⟩ := h
                    have hpre : st'.leaderboard_pre_freeze =
                        mapToSortedLeaderboard res.1 := by rw [← hst]
                    have hfin : st'.leaderboard_finalized = fin := by
                      rw [← hst]
                    have hcst : st'.contest = s2.contest := by rw [← hst]
                    have hle : cs ≤ cf :=
                      hstf contest cs cf (by rw [hcst]; exact heq4) heq5 heq6
                    have hplain := preFreeze_fold_map s2 cs cf
                      (buildJudgementOrder s2) m0 [] res heq8
                    obtain ⟨c2, cs2, cf2, m02, mfin, hc2, hs2, hf2, hm2,
                      hr2, hfe⟩ := computeFinalizedLeaderboard_ok _ fin heq9
                    have hc2' : s2.contest = some c2 := hc2
                    have hcc : c2 = contest :=
                      Option.some.inj (hc2'.symm.trans heq4)
                    have hcs2 : cs2 = cs := by
                      rw [hcc] at hs2
                      exact Option.some.inj (hs2.symm.trans heq5)
                    have hcf2 : cf2 = cf := by
                      rw [hcc] at hf2
                      exact Option.some.inj (hf2.symm.trans heq6)
                    have hm2' : buildInitialTeamStatusMap s2 = .ok m02 := hm2
                    have hm02 : m02 = m0 :=
                      Except.ok.inj (hm2'.symm.trans heq7)
                    have hr2' : (buildJudgementOrder s2).foldlM
                        (fun m j => applyJudgementToStatus s2 m j cs cf)
                        m0 = .ok mfin := by
                      rw [← hcs2, ← hcf2, ← hm02]
                      exact hr2
                    have hmm : mfin = res.1 :=
                      Except.ok.inj (hr2'.symm.trans hplain)
                    have hminv : mapInv res.1 := by
                      refine foldlM_inv mapInv _ ?_ _ _ _ hplain
                        (buildInitialTeamStatusMap_mapInv s2 m0 heq7)
                      intro a b a' hab ha
                      exact applyJudgementToStatus_mapInv s2 a b cs cf hle
                        a' hab ha
                    have hpv : tp ∈ alValues res.1 := by
                      rw [hpre] at hp
                      exact (mapToSortedLeaderboard_perm res.1).mem_iff.mp hp
                    have hpm : (tp.team_id, tp) ∈ res.1 :=
                      mem_values_key hminv hpv
                    have hfv : tf ∈ alValues (recomputeTeamTotals res.1) := by
                      rw [hfin, hfe, hmm] at hf
                      exact (mapToSortedLeaderboard_perm _).mem_iff.mp hf
                    obtain ⟨k2, v2, hkv2, htf⟩ := recompute_values_mem hfv
                    have hv2id : v2.team_id = k2 := (hminv.2 (k2, v2) hkv2).1
                    have htid : tf.team_id = v2.team_id := by
                      rw [htf, recomputeStatusTotals_team_id]
                    have hk2 : k2 = tp.team_id := by
                      rw [← hv2id, ← htid, hid]
                    have hv2 : v2 = tp :=
                      al_key_unique hminv.1 (hk2 ▸ hkv2) hpm
                    rw [htf, hv2]
                    exact recompute_penalty_ge tp
                      ((hminv.2 (tp.team_id, tp) hpm).2)
/-- C4 counterexample contest: the freeze duration exceeds the contest
duration, so `scoreboard_freeze_time` (start + duration − freeze duration)
lies before `start_time`. -/
def c4Contest : Contest :=
  { start_time := some 3600, duration := 3600,
    scoreboard_freeze_duration := 7200, penalty_time := 20,
    scoreboard_freeze_time := some (-3600) }

/-- C4 counterexample state: one team solving one problem mid-contest;
every submission lands after the (negative) freeze time. -/
def c4State : ContestState :=
  { ContestState.new with
    contest := some c4Contest
    judgement_types := [("AC", fxAC)]
    groups := [("G", fxGroup)]
    teams := [("T", fxTeam "T")]
    problems := [("P", fxProblem "P" 1)]
    submissions := [("s1", fxSubmission "s1" "T" "P" (some 1800))]
    judgements := [("j1", fxJudgement "j1" "s1" (some 1800))] }

/-- The concrete pipeline output on `c4State`. -/
def c4Run : List String × ContestState :=
  ((validateAndTransform c4State fxConfig).toOption).getD
    ([], ContestState.new)

/-- C4 witness state: the same scenario under a well-formed contest
(start 0, freeze 14400), where the pipeline succeeds and the solve is
applied before the freeze. -/
def c4WitState : ContestState :=
  { c4State with contest := some fxContest }

/-- The concrete pipeline output on `c4WitState`. -/
def c4WitRun : List String × ContestState :=
  ((validateAndTransform c4WitState fxConfig).toOption).getD
    ([], ContestState.new)
/-- C4 (counterexample): on `c4State` — freeze time −3600 before start
3600 — the pipeline succeeds, and the single team's finalized total
penalty (−30, a frozen solve 30 minutes before the start) is strictly
below its pre-freeze total penalty (0): the claimed inequality
`finalized ≥ pre-freeze` fails. -/
theorem c4_claim_false_at_input :
    validateAndTransform c4State fxConfig = .ok c4Run ∧
    (c4Run.2.leaderboard_pre_freeze.map fun t =>
      (t.team_id, t.total_penalty)) = [("T", 0)] ∧
    (c4Run.2.leaderboard_finalized.map fun t =>
      (t.team_id, t.total_penalty)) = [("T", -30)] ∧
    ¬((-30 : Int) ≥ 0) :=
  ⟨rfl, rfl, rfl, by decide⟩

/-- C4 witness: the amended theorem applied to the concrete run on
`c4WitState`, whose contest has start 0 ≤ freeze 14400. -/
theorem leaderboard_finalized_penalty_ge_witness :
    ∃ tp tf : TeamStatus,
      tp ∈ c4WitRun.2.leaderboard_pre_freeze ∧
      tf ∈ c4WitRun.2.leaderboard_finalized ∧
      tf.team_id = tp.team_id ∧
      tp.total_penalty ≤ tf.total_penalty := by
  refine ⟨(c4WitRun.2.leaderboard_pre_freeze).getD 0 default,
    (c4WitRun.2.leaderboard_finalized).getD 0 default,
    by decide, by decide, by decide, ?_⟩
  refine leaderboard_finalized_penalty_ge c4WitState fxConfig c4WitRun.1
    c4WitRun.2 (by rfl) ?_ _ _ (by decide) (by decide) (by decide)
  intro c cs cf hc hs hfz
  rw [show c4WitRun.2.contest = some fxContest from rfl] at hc
  cases Option.some.inj hc
  have hcs : (0 : Int) = cs := Option.some.inj hs
  have hcf : (14400 : Int) = cf := Option.some.inj hfz
  omega
/-! ## C1: sortedness of the `BinaryHeap` drain

`map_to_sorted_leaderboard` relies on the heap invariant maintained by the
sift routines.  The lemmas below prove the classical max-heap facts for the
embedded `rebuild`/`pop` code, generically in the comparator, under
swap-consistency and transitivity hypotheses over a carrier list `S` of
admissible values (the junk arm of the `TeamStatus` comparator falls
outside these hypotheses, and the pipeline only ever compares values for
which they hold). -/

section HeapSort

variable {α : Type} [Inhabited α] [DecidableEq α] (cmp : α → α → Ordering)

/-- `x ≤ y` under the comparator, as a proposition. -/
def leC (x y : α) : Prop := cmp x y ≠ .gt

/-- The max-heap condition at node `i`: both children (when present) are
at most the node. -/
def goodAt (arr : List α) (i : Nat) : Prop :=
  ∀ c, (c = 2 * i + 1 ∨ c = 2 * i + 2) → c < arr.length →
    leC cmp (arr.getD c default) (arr.getD i default)

/-- The comparator reverses under argument swap on the carrier. -/
def CmpSwap (S : List α) : Prop :=
  ∀ a ∈ S, ∀ b ∈ S, (cmp a b = .gt ↔ cmp b a = .lt)

/-- `≤` is transitive on the carrier. -/
def CmpTrans (S : List α) : Prop :=
  ∀ a ∈ S, ∀ b ∈ S, ∀ c ∈ S, leC cmp a b → leC cmp b c → leC cmp a c

/-- `≤` is reflexive on the carrier. -/
def CmpRefl (S : List α) : Prop := ∀ a ∈ S, leC cmp a a

theorem mem_getD {l : List α} {i : Nat} (h : i < l.length) :
    l.getD i default ∈ l := by
  rw [List.getD_eq_getElem _ _ h]
  exact List.getElem_mem h

theorem getD_set_eq {l : List α} {i : Nat} (v : α) (h : i < l.length) :
    (l.set i v).getD i default = v := by
  rw [List.getD_eq_getElem _ _ (by simpa using h)]
  exact List.getElem_set_eq (by simpa using h)

theorem getD_set_ne (l : List α) {i j : Nat} (v : α) (h : i ≠ j) :
    (l.set i v).getD j default = l.getD j default := by
  by_cases hj : j < l.length
  · rw [List.getD_eq_getElem _ _ (by simpa using hj),
      List.getD_eq_getElem _ _ hj]
    exact List.getElem_set_ne h (by simpa using hj)
  · rw [List.getD_eq_default _ _ (by simpa using (Nat.le_of_not_lt hj)),
      List.getD_eq_default _ _ (Nat.le_of_not_lt hj)]

theorem mem_set_subset {l : List α} {i : Nat} {v x : α}
    (h : x ∈ l.set i v) : x = v ∨ x ∈ l := by
  rcases List.mem_or_eq_of_mem_set h with h1 | h1
  · exact Or.inr h1
  · exact Or.inl h1

theorem largerChild_spec (S : List α) (hswap : CmpSwap cmp S)
    (hrefl : CmpRefl cmp S) (arr : List α) (pos : Nat)
    (harr : ∀ x ∈ arr, x ∈ S) (h2 : 2 * pos + 2 < arr.length) :
    (largerChild cmp arr pos = 2 * pos + 1 ∨
      largerChild cmp arr pos = 2 * pos + 2) ∧
    leC cmp (arr.getD (2 * pos + 1) default)
      (arr.getD (largerChild cmp arr pos) default) ∧
    leC cmp (arr.getD (2 * pos + 2) default)
      (arr.getD (largerChild cmp arr pos) default) := by
  have hm1 : arr.getD (2 * pos + 1) default ∈ S :=
    harr _ (mem_getD (by omega))
  have hm2 : arr.getD (2 * pos + 2) default ∈ S :=
    harr _ (mem_getD h2)
  unfold largerChild
  by_cases hc : cmpLe cmp (arr.getD (2 * pos + 1) default)
      (arr.getD (2 * pos + 2) default) = true
  · rw [if_pos hc]
    refine ⟨Or.inr rfl, ?_, hrefl _ hm2⟩
    simpa [cmpLe, leC] using hc
  · rw [if_neg hc]
    refine ⟨Or.inl rfl, hrefl _ hm1, ?_⟩
    have hgt : cmp (arr.getD (2 * pos + 1) default)
        (arr.getD (2 * pos + 2) default) = .gt := by
      by_contra hne
      exact hc (by simpa [cmpLe] using hne)
    have hsw := (hswap _ hm1 _ hm2).mp hgt
    unfold leC
    intro hg
    rw [hsw] at hg
    exact absurd hg (by decide)

theorem siftDownRangeGo_good (S : List α) (hswap : CmpSwap cmp S)
    (htrans : CmpTrans cmp S) (hrefl : CmpRefl cmp S) (p0 : Nat)
    (element : α) (hel : element ∈ S) :
    ∀ (fuel : Nat) (arr : List α) (pos : Nat),
      (∀ x ∈ arr, x ∈ S) →
      pos < arr.length → p0 ≤ pos →
      arr.length ≤ fuel + pos →
      (∀ i, p0 ≤ i → i ≠ pos → goodAt cmp (arr.set pos element) i) →
      (pos ≠ p0 → ∀ c, (c = 2 * pos + 1 ∨ c = 2 * pos + 2) →
        c < arr.length →
        leC cmp (arr.getD c default) (arr.getD pos default)) →
      (pos ≠ p0 →
        arr.getD ((pos - 1) / 2) default = arr.getD pos default) →
      ∀ i, p0 ≤ i →
        goodAt cmp (siftDownRangeGo cmp fuel element arr pos arr.length)
          i := by
  intro fuel
  induction fuel with
  | zero =>
    intro arr pos harr hlen hp0 hfuel H1 H2 H3 i hi
    exact absurd hfuel (by omega)
  | succ fuel ih =>
    intro arr pos harr hlen hp0 hfuel H1 H2 H3 i hi
    rw [siftDownRangeGo]
    by_cases h1 : 2 * pos + 1 ≤ arr.length - 2
    · have hlc2 : 2 * pos + 2 < arr.length := by omega
      obtain ⟨hlcor, hle1, hle2⟩ :=
        largerChild_spec cmp S hswap hrefl arr pos harr hlc2
      have hclt := lt_largerChild cmp arr pos
      have hclen : largerChild cmp arr pos < arr.length := by
        rcases hlcor with h | h <;> omega
      have hlcmem : arr.getD (largerChild cmp arr pos) default ∈ S :=
        harr _ (mem_getD hclen)
      rw [if_pos h1]
      by_cases hge : cmpGe cmp element
          (arr.getD (largerChild cmp arr pos) default)
      · rw [if_pos hge]
        have hlcle : leC cmp (arr.getD (largerChild cmp arr pos) default)
            element := by
          have hnlt : cmp element
              (arr.getD (largerChild cmp arr pos) default) ≠ .lt := by
            simpa [cmpGe] using hge
          intro hg
          exact hnlt ((hswap _ hlcmem _ hel).mp hg)
        by_cases hip : i = pos
        · subst i
          intro c' hc' hclen'
          have hc'len : c' < arr.length := by simpa using hclen'
          have hc'le : leC cmp (arr.getD c' default)
              (arr.getD (largerChild cmp arr pos) default) := by
            rcases hc' with h | h <;> rw [h]
            · exact hle1
            · exact hle2
          have hc'ne : pos ≠ c' := by rcases hc' with h | h <;> omega
          rw [getD_set_ne _ _ hc'ne, getD_set_eq _ hlen]
          exact htrans _ (harr _ (mem_getD hc'len)) _ hlcmem _ hel
            hc'le hlcle
        · exact H1 i hi hip
      · rw [if_neg hge]
        have hltel : leC cmp element
            (arr.getD (largerChild cmp arr pos) default) := by
          have hl : cmp element
              (arr.getD (largerChild cmp arr pos) default) = .lt := by
            by_contra hne
            exact hge (by simpa [cmpGe] using hne)
          intro hg
          rw [hl] at hg
          exact absurd hg (by decide)
        have hq : (arr.set pos
            (arr.getD (largerChild cmp arr pos) default)).length =
            arr.length := by simp
        have hA : ∀ x, x ≠ pos → x ≠ largerChild cmp arr pos →
            ((arr.set pos (arr.getD (largerChild cmp arr pos)
              default)).set (largerChild cmp arr pos) element).getD x
              default = arr.getD x default := by
          intro x hx1 hx2
          rw [getD_set_ne _ _ (fun he => hx2 he.symm),
            getD_set_ne _ _ (fun he => hx1 he.symm)]
        have hApos : ((arr.set pos (arr.getD (largerChild cmp arr pos)
            default)).set (largerChild cmp arr pos) element).getD pos
            default = arr.getD (largerChild cmp arr pos) default := by
          rw [getD_set_ne _ _ (by omega), getD_set_eq _ hlen]
        have hAlc : ((arr.set pos (arr.getD (largerChild cmp arr pos)
            default)).set (largerChild cmp arr pos) element).getD
            (largerChild cmp arr pos) default = element :=
          getD_set_eq _ (by simpa using hclen)
        rw [show arr.length =
          (arr.set pos (arr.getD (largerChild cmp arr pos)
            default)).length from hq.symm]
        refine ih _ _ ?_ ?_ ?_ ?_ ?_ ?_ ?_ i hi
        · intro x hx
          rcases mem_set_subset hx with h | h
          · rw [h]; exact hlcmem
          · exact harr x h
        · simpa using hclen
        · omega
        · rw [hq]; omega
        · intro j hj hjne c' hc' hclen'
          have hc'len : c' < arr.length := by simpa using hclen'
          by_cases hjp : j = pos
          · subst j
            have hc'cases : c' = largerChild cmp arr pos ∨
                ((c' = 2 * pos + 1 ∨ c' = 2 * pos + 2) ∧
                  c' ≠ largerChild cmp arr pos) := by
              by_cases he : c' = largerChild cmp arr pos
              · exact Or.inl he
              · exact Or.inr ⟨hc', he⟩
            rcases hc'cases with he | ⟨hc'', hne'⟩
            · rw [he, hAlc, hApos]
              exact hltel
            · rw [hA c' (by rcases hc'' with h | h <;> omega) hne', hApos]
              rcases hc'' with h | h <;> rw [h]
              · exact hle1
              · exact hle2
          · by_cases hc'p : c' = pos
            · subst c'
              have hjpar : j = (pos - 1) / 2 := by
                rcases hc' with h | h <;> omega
              have hpnep0 : pos ≠ p0 := by
                rcases hc' with h | h <;> omega
              rw [hApos, hA j hjp (by omega)]
              have h2c := H2 hpnep0 (largerChild cmp arr pos) hlcor hclen
              have h3c := H3 hpnep0
              rw [hjpar, h3c]
              exact h2c
            · by_cases hc'lc : c' = largerChild cmp arr pos
              · exfalso
                subst c'
                rcases hlcor with h | h <;> rcases hc' with h' | h' <;>
                  omega
              · rw [hA c' hc'p hc'lc, hA j hjp hjne]
                have := H1 j hj hjp c' hc' (by simpa using hc'len)
                rwa [getD_set_ne _ _ (fun he => hc'p he.symm),
                  getD_set_ne _ _ (fun he => hjp he.symm)] at this
        · intro hnep0 c' hc' hclen'
          have hc'len : c' < arr.length := by simpa using hclen'
          have hc'gt : largerChild cmp arr pos < c' := by
            rcases hc' with h | h <;> omega
          rw [getD_set_ne _ _ (by omega), getD_set_ne _ _ (by omega)]
          have := H1 (largerChild cmp arr pos) (by omega) (by omega) c'
            hc' (by simpa using hc'len)
          rwa [getD_set_ne _ _ (by omega), getD_set_ne _ _ (by omega)]
            at this
        · intro hnep0
          have hpar : (largerChild cmp arr pos - 1) / 2 = pos := by
            rcases hlcor with h | h <;> omega
          rw [hpar, getD_set_eq _ hlen, getD_set_ne _ _ (by omega)]
    · rw [if_neg h1]
      by_cases h2 : 2 * pos + 1 = arr.length - 1 ∧
          cmpLt cmp element (arr.getD (2 * pos + 1) default)
      · rw [if_pos h2]
        obtain ⟨hone, hlt⟩ := h2
        have hchild : 2 * pos + 1 < arr.length := by omega
        have hR : ∀ x, x ≠ pos → x ≠ 2 * pos + 1 →
            ((arr.set pos (arr.getD (2 * pos + 1) default)).set
              (2 * pos + 1) element).getD x default =
              arr.getD x default := by
          intro x hx1 hx2
          rw [getD_set_ne _ _ (fun he => hx2 he.symm),
            getD_set_ne _ _ (fun he => hx1 he.symm)]
        have hRpos : ((arr.set pos (arr.getD (2 * pos + 1) default)).set
            (2 * pos + 1) element).getD pos default =
            arr.getD (2 * pos + 1) default := by
          rw [getD_set_ne _ _ (by omega), getD_set_eq _ hlen]
        have hRc : ((arr.set pos (arr.getD (2 * pos + 1) default)).set
            (2 * pos + 1) element).getD (2 * pos + 1) default = element :=
          getD_set_eq _ (by simpa using hchild)
        by_cases hip : i = pos
        · subst i
          intro c' hc' hclen'
          have hc'len : c' < arr.length := by simpa using hclen'
          have hc'1 : c' = 2 * pos + 1 := by
            rcases hc' with h | h <;> omega
          rw [hc'1, hRc, hRpos]
          have hl : cmp element (arr.getD (2 * pos + 1) default) =
              .lt := by
            simpa [cmpLt] using hlt
          intro hg
          rw [hl] at hg
          exact absurd hg (by decide)
        · by_cases hjc : i = 2 * pos + 1
          · subst i
            intro c' hc' hclen'
            have hc'len : c' < arr.length := by simpa using hclen'
            exfalso
            rcases hc' with h | h <;> omega
          · intro c' hc' hclen'
            have hc'len : c' < arr.length := by simpa using hclen'
            by_cases hc'p : c' = pos
            · subst c'
              have hjpar : i = (pos - 1) / 2 := by
                rcases hc' with h | h <;> omega
              have hpnep0 : pos ≠ p0 := by
                rcases hc' with h | h <;> omega
              rw [hRpos, hR i hip (by omega)]
              have h2c := H2 hpnep0 (2 * pos + 1) (Or.inl rfl) hchild
              have h3c := H3 hpnep0
              rw [hjpar, h3c]
              exact h2c
            · by_cases hc'c : c' = 2 * pos + 1
              · exfalso
                subst c'
                rcases hc' with h | h <;> omega
              · rw [hR c' hc'p hc'c, hR i hip hjc]
                have := H1 i hi hip c' hc' (by simpa using hc'len)
                rwa [getD_set_ne _ _ (fun he => hc'p he.symm),
                  getD_set_ne _ _ (fun he => hip he.symm)] at this
      · rw [if_neg h2]
        by_cases hip : i = pos
        · subst i
          intro c' hc' hclen'
          have hc'len : c' < arr.length := by simpa using hclen'
          have hc'1 : c' = 2 * pos + 1 ∧ 2 * pos + 1 = arr.length - 1 := by
            rcases hc' with h | h <;> omega
          have hnlt : ¬cmpLt cmp element
              (arr.getD (2 * pos + 1) default) = true := by
            intro hl
            exact h2 ⟨hc'1.2, hl⟩
          have hnelt : cmp element (arr.getD (2 * pos + 1) default) ≠
              .lt := by
            simpa [cmpLt] using hnlt
          rw [hc'1.1, getD_set_ne _ _ (by omega), getD_set_eq _ hlen]
          intro hg
          exact hnelt
            ((hswap _ (harr _ (mem_getD (by omega))) _ hel).mp hg)
        · exact H1 i hi hip

theorem siftDown_good (S : List α) (hswap : CmpSwap cmp S)
    (htrans : CmpTrans cmp S) (hrefl : CmpRefl cmp S) (arr : List α)
    (p : Nat) (harr : ∀ x ∈ arr, x ∈ S) (hlen : p < arr.length)
    (Hsub : ∀ i, p + 1 ≤ i → goodAt cmp arr i) :
    ∀ i, p ≤ i → goodAt cmp (siftDown cmp arr p) i := by
  unfold siftDown
  refine siftDownRangeGo_good cmp S hswap htrans hrefl p
    (arr.getD p default) (harr _ (mem_getD hlen)) arr.length arr p harr
    hlen (le_refl p) (by omega) ?_ (fun h => absurd rfl h)
    (fun h => absurd rfl h)
  intro i hi hne
  have hself : arr.set p (arr.getD p default) = arr := by
    rw [List.getD_eq_getElem _ _ hlen]
    exact list_set_self _ _ hlen
  rw [hself]
  exact Hsub i (by omega)

theorem rebuildGo_good (S : List α) (hswap : CmpSwap cmp S)
    (htrans : CmpTrans cmp S) (hrefl : CmpRefl cmp S) :
    ∀ (n : Nat) (arr : List α), (∀ x ∈ arr, x ∈ S) → n ≤ arr.length →
      (∀ i, n ≤ i → goodAt cmp arr i) →
      ∀ i, goodAt cmp (rebuildGo cmp arr n) i := by
  intro n
  induction n with
  | zero =>
    intro arr harr hn H i
    rw [rebuildGo]
    exact H i (by omega)
  | succ n ih =>
    intro arr harr hn H i
    rw [rebuildGo]
    refine ih (siftDown cmp arr n) ?_ ?_ ?_ i
    · intro x hx
      exact harr x ((siftDown_perm cmp arr n (by omega)).mem_iff.mp hx)
    · rw [siftDown_length]
      omega
    · intro j hj
      exact siftDown_good cmp S hswap htrans hrefl arr n harr (by omega)
        (fun k hk => H k hk) j hj

theorem rebuild_good (S : List α) (hswap : CmpSwap cmp S)
    (htrans : CmpTrans cmp S) (hrefl : CmpRefl cmp S) (arr : List α)
    (harr : ∀ x ∈ arr, x ∈ S) :
    ∀ i, goodAt cmp (rebuild cmp arr) i := by
  unfold rebuild
  refine rebuildGo_good cmp S hswap htrans hrefl (arr.length / 2) arr harr
    (by omega) ?_
  intro i hi c hc hclen
  exact absurd hclen (by omega)

theorem heap_root_max (S : List α) (htrans : CmpTrans cmp S)
    (hrefl : CmpRefl cmp S) (arr : List α) (harr : ∀ x ∈ arr, x ∈ S)
    (hheap : ∀ i, goodAt cmp arr i) :
    ∀ i, i < arr.length →
      leC cmp (arr.getD i default) (arr.getD 0 default) := by
  intro i
  induction i using Nat.strong_induction_on with
  | _ i ih =>
    intro hi
    match i with
    | 0 => exact hrefl _ (harr _ (mem_getD hi))
    | Nat.succ n =>
      have hedge := hheap ((n + 1 - 1) / 2) (n + 1) (by omega) hi
      have hparent : (n + 1 - 1) / 2 < arr.length := by omega
      exact htrans _ (harr _ (mem_getD hi)) _ (harr _ (mem_getD hparent))
        _ (harr _ (mem_getD (by omega : (0:Nat) < arr.length))) hedge
        (ih _ (by omega) hparent)

theorem siftDownToBottomGo_walk (S : List α) (hswap : CmpSwap cmp S)
    (hrefl : CmpRefl cmp S) :
    ∀ (fuel : Nat) (arr : List α) (pos : Nat),
      (∀ x ∈ arr, x ∈ S) → pos < arr.length → arr.length ≤ fuel + pos →
      (∀ i, i ≠ pos → ∀ c, (c = 2 * i + 1 ∨ c = 2 * i + 2) →
        c < arr.length → c ≠ pos →
        leC cmp (arr.getD c default) (arr.getD i default)) →
      (pos ≠ 0 → ∀ c, (c = 2 * pos + 1 ∨ c = 2 * pos + 2) →
        c < arr.length →
        leC cmp (arr.getD c default) (arr.getD pos default)) →
      (pos ≠ 0 → arr.getD ((pos - 1) / 2) default =
        arr.getD pos default) →
      (∀ x ∈ (siftDownToBottomGo cmp fuel arr pos arr.length).1, x ∈ S) ∧
      (siftDownToBottomGo cmp fuel arr pos arr.length).1.length =
        arr.length ∧
      (siftDownToBottomGo cmp fuel arr pos arr.length).2 < arr.length ∧
      arr.length ≤
        2 * (siftDownToBottomGo cmp fuel arr pos arr.length).2 + 1 ∧
      (∀ i, i ≠ (siftDownToBottomGo cmp fuel arr pos arr.length).2 →
        ∀ c, (c = 2 * i + 1 ∨ c = 2 * i + 2) → c < arr.length →
        c ≠ (siftDownToBottomGo cmp fuel arr pos arr.length).2 →
        leC cmp
          ((siftDownToBottomGo cmp fuel arr pos arr.length).1.getD c
            default)
          ((siftDownToBottomGo cmp fuel arr pos arr.length).1.getD i
            default)) := by
  intro fuel
  induction fuel with
  | zero =>
    intro arr pos harr hlen hfuel W1 W2 W3
    exact absurd hfuel (by omega)
  | succ fuel ih =>
    intro arr pos harr hlen hfuel W1 W2 W3
    rw [siftDownToBottomGo]
    by_cases h1 : 2 * pos + 1 ≤ arr.length - 2
    · have hlc2 : 2 * pos + 2 < arr.length := by omega
      obtain ⟨hlcor, hle1, hle2⟩ :=
        largerChild_spec cmp S hswap hrefl arr pos harr hlc2
      have hclt := lt_largerChild cmp arr pos
      have hclen : largerChild cmp arr pos < arr.length := by
        rcases hlcor with h | h <;> omega
      have hlcmem : arr.getD (largerChild cmp arr pos) default ∈ S :=
        harr _ (mem_getD hclen)
      rw [if_pos h1]
      have hq : (arr.set pos
          (arr.getD (largerChild cmp arr pos) default)).length =
          arr.length := by simp
      have harr' : ∀ x ∈ arr.set pos
          (arr.getD (largerChild cmp arr pos) default), x ∈ S := by
        intro x hx
        rcases mem_set_subset hx with h | h
        · rw [h]; exact hlcmem
        · exact harr x h
      have hvpos : (arr.set pos
          (arr.getD (largerChild cmp arr pos) default)).getD pos default =
          arr.getD (largerChild cmp arr pos) default :=
        getD_set_eq _ hlen
      have hvne : ∀ x, x ≠ pos →
          (arr.set pos (arr.getD (largerChild cmp arr pos)
            default)).getD x default = arr.getD x default := by
        intro x hx
        exact getD_set_ne _ _ (fun he => hx he.symm)
      have W1' : ∀ i, i ≠ largerChild cmp arr pos →
          ∀ c, (c = 2 * i + 1 ∨ c = 2 * i + 2) →
          c < (arr.set pos (arr.getD (largerChild cmp arr pos)
            default)).length →
          c ≠ largerChild cmp arr pos →
          leC cmp ((arr.set pos (arr.getD (largerChild cmp arr pos)
              default)).getD c default)
            ((arr.set pos (arr.getD (largerChild cmp arr pos)
              default)).getD i default) := by
        intro i hine c hc hclen' hcne
        have hc'len : c < arr.length := by simpa using hclen'
        by_cases hip : i = pos
        · subst i
          have hco : c = 2 * pos + 2 ∨ c = 2 * pos + 1 := by tauto
          rw [hvpos, hvne c (by rcases hc with h | h <;> omega)]
          rcases hc with h | h <;> rw [h]
          · exact hle1
          · exact hle2
        · by_cases hcp : c = pos
          · subst c
            have hpar : i = (pos - 1) / 2 := by
              rcases hc with h | h <;> omega
            have hpne : pos ≠ 0 := by
              rcases hc with h | h <;> omega
            rw [hvpos, hvne i hip, hpar, W3 hpne]
            exact W2 hpne _ hlcor hclen
          · rw [hvne c hcp, hvne i hip]
            exact W1 i hip c hc hc'len hcp
      have W2' : largerChild cmp arr pos ≠ 0 →
          ∀ c, (c = 2 * (largerChild cmp arr pos) + 1 ∨
            c = 2 * (largerChild cmp arr pos) + 2) →
          c < (arr.set pos (arr.getD (largerChild cmp arr pos)
            default)).length →
          leC cmp ((arr.set pos (arr.getD (largerChild cmp arr pos)
              default)).getD c default)
            ((arr.set pos (arr.getD (largerChild cmp arr pos)
              default)).getD (largerChild cmp arr pos) default) := by
        intro _ c hc hclen'
        have hc'len : c < arr.length := by simpa using hclen'
        rw [hvne c (by rcases hc with h | h <;> omega),
          hvne _ (by omega)]
        exact W1 (largerChild cmp arr pos) (by omega) c hc hc'len
          (by rcases hc with h | h <;> omega)
      have W3' : largerChild cmp arr pos ≠ 0 →
          (arr.set pos (arr.getD (largerChild cmp arr pos)
            default)).getD ((largerChild cmp arr pos - 1) / 2) default =
          (arr.set pos (arr.getD (largerChild cmp arr pos)
            default)).getD (largerChild cmp arr pos) default := by
        intro _
        have hpar : (largerChild cmp arr pos - 1) / 2 = pos := by
          rcases hlcor with h | h <;> omega
        rw [hpar, hvpos, hvne _ (by omega)]
      have := ih (arr.set pos (arr.getD (largerChild cmp arr pos)
          default)) (largerChild cmp arr pos) harr'
        (by rw [hq]; exact hclen) (by rw [hq]; omega)
        W1' W2' W3'
      rw [hq] at this
      exact this
    · rw [if_neg h1]
      by_cases h2 : 2 * pos + 1 = arr.length - 1
      · rw [if_pos h2]
        have hchild : 2 * pos + 1 < arr.length := by omega
        have hvpos : (arr.set pos (arr.getD (2 * pos + 1)
            default)).getD pos default =
            arr.getD (2 * pos + 1) default := getD_set_eq _ hlen
        have hvne : ∀ x, x ≠ pos →
            (arr.set pos (arr.getD (2 * pos + 1) default)).getD x
              default = arr.getD x default := by
          intro x hx
          exact getD_set_ne _ _ (fun he => hx he.symm)
        refine ⟨?_, by simp, by simpa using hchild, by omega, ?_⟩
        · intro x hx
          rcases mem_set_subset hx with h | h
          · rw [h]; exact harr _ (mem_getD hchild)
          · exact harr x h
        · intro i hine c hc hclen' hcne
          have hc'len : c < arr.length := by simpa using hclen'
          by_cases hip : i = pos
          · subst i
            exfalso
            rcases hc with h | h <;> omega
          · by_cases hcp : c = pos
            · subst c
              have hpar : i = (pos - 1) / 2 := by
                rcases hc with h | h <;> omega
              have hpne : pos ≠ 0 := by
                rcases hc with h | h <;> omega
              rw [hvpos, hvne i hip, hpar, W3 hpne]
              exact W2 hpne _ (Or.inl rfl) hchild
            · rw [hvne c hcp, hvne i hip]
              exact W1 i hip c hc hc'len hcp
      · rw [if_neg h2]
        exact ⟨harr, rfl, hlen, by omega, W1⟩

theorem siftUp_place_good (element : α) (arr : List α) (pos : Nat)
    (hlen : pos < arr.length)
    (hstop : pos = 0 ∨
      leC cmp element (arr.getD ((pos - 1) / 2) default))
    (U1 : ∀ i, i ≠ pos → ∀ c, (c = 2 * i + 1 ∨ c = 2 * i + 2) →
      c < arr.length → c ≠ pos →
      leC cmp (arr.getD c default) (arr.getD i default))
    (U2 : ∀ c, (c = 2 * pos + 1 ∨ c = 2 * pos + 2) → c < arr.length →
      leC cmp (arr.getD c default) element) :
    ∀ i, goodAt cmp (arr.set pos element) i := by
  intro i c hc hclen'
  have hc'len : c < arr.length := by simpa using hclen'
  by_cases hip : i = pos
  · subst i
    rw [getD_set_ne _ _ (by rcases hc with h | h <;> omega),
      getD_set_eq _ hlen]
    exact U2 c hc hc'len
  · by_cases hcp : c = pos
    · subst c
      have hpar : i = (pos - 1) / 2 := by
        rcases hc with h | h <;> omega
      have hpos1 : pos ≠ 0 := by
        rcases hc with h | h <;> omega
      rcases hstop with h0 | hlep
      · exact absurd h0 hpos1
      · rw [getD_set_eq _ hlen, getD_set_ne _ _ (fun he => hip he.symm),
          hpar]
        exact hlep
    · rw [getD_set_ne _ _ (fun he => hcp he.symm),
        getD_set_ne _ _ (fun he => hip he.symm)]
      exact U1 i hip c hc hc'len hcp

theorem siftUpGo_heap (S : List α) (hswap : CmpSwap cmp S)
    (htrans : CmpTrans cmp S) (hrefl : CmpRefl cmp S) (element : α)
    (hel : element ∈ S) :
    ∀ (fuel : Nat) (arr : List α) (pos : Nat),
      (∀ x ∈ arr, x ∈ S) → pos < arr.length → pos ≤ fuel →
      (∀ i, i ≠ pos → ∀ c, (c = 2 * i + 1 ∨ c = 2 * i + 2) →
        c < arr.length → c ≠ pos →
        leC cmp (arr.getD c default) (arr.getD i default)) →
      (∀ c, (c = 2 * pos + 1 ∨ c = 2 * pos + 2) → c < arr.length →
        leC cmp (arr.getD c default) element) →
      (pos ≠ 0 → ∀ c, (c = 2 * pos + 1 ∨ c = 2 * pos + 2) →
        c < arr.length →
        leC cmp (arr.getD c default)
          (arr.getD ((pos - 1) / 2) default)) →
      ∀ i, goodAt cmp (siftUpGo cmp fuel element arr pos 0) i := by
  intro fuel
  induction fuel with
  | zero =>
    intro arr pos harr hlen hfuel U1 U2 U4
    have hp0 : pos = 0 := by omega
    rw [siftUpGo]
    exact siftUp_place_good cmp element arr pos hlen (Or.inl hp0) U1 U2
  | succ fuel ih =>
    intro arr pos harr hlen hfuel U1 U2 U4
    rw [siftUpGo]
    by_cases hpos : 0 < pos
    · rw [if_pos hpos]
      simp only []
      by_cases hle : cmpLe cmp element (arr.getD ((pos - 1) / 2) default)
      · rw [if_pos hle]
        have hlep : leC cmp element (arr.getD ((pos - 1) / 2) default) :=
          by simpa [cmpLe, leC] using hle
        exact siftUp_place_good cmp element arr pos hlen (Or.inr hlep)
          U1 U2
      · rw [if_neg hle]
        have hparlt : (pos - 1) / 2 < pos := by omega
        have hparlen : (pos - 1) / 2 < arr.length := by omega
        have hpmem : arr.getD ((pos - 1) / 2) default ∈ S :=
          harr _ (mem_getD hparlen)
        have hvlt : leC cmp (arr.getD ((pos - 1) / 2) default) element := by
          have hgt : cmp element (arr.getD ((pos - 1) / 2) default) =
              .gt := by
            by_contra hne
            exact hle (by simpa [cmpLe, leC] using hne)
          have hl := (hswap _ hel _ hpmem).mp hgt
          intro hg
          rw [hl] at hg
          exact absurd hg (by decide)
        have hvpos : (arr.set pos (arr.getD ((pos - 1) / 2)
            default)).getD pos default =
            arr.getD ((pos - 1) / 2) default := getD_set_eq _ hlen
        have hvne : ∀ x, x ≠ pos →
            (arr.set pos (arr.getD ((pos - 1) / 2) default)).getD x
              default = arr.getD x default := by
          intro x hx
          exact getD_set_ne _ _ (fun he => hx he.symm)
        refine ih (arr.set pos (arr.getD ((pos - 1) / 2) default))
          ((pos - 1) / 2) ?_ (by simpa using hparlen) (by omega)
          ?_ ?_ ?_
        · intro x hx
          rcases mem_set_subset hx with h | h
          · rw [h]; exact hpmem
          · exact harr x h
        · intro i hine c hc hclen' hcne
          have hc'len : c < arr.length := by simpa using hclen'
          by_cases hip : i = pos
          · subst i
            rw [hvpos, hvne c (by rcases hc with h | h <;> omega)]
            exact U4 (by omega) c hc hc'len
          · by_cases hcp : c = pos
            · exfalso
              subst c
              rcases hc with h | h <;> omega
            · rw [hvne c hcp, hvne i hip]
              exact U1 i hip c hc hc'len hcp
        · intro c hc hclen'
          have hc'len : c < arr.length := by simpa using hclen'
          by_cases hcp : c = pos
          · subst c
            rw [hvpos]
            exact hvlt
          · rw [hvne c hcp]
            have h1 := U1 ((pos - 1) / 2) (by omega) c hc hc'len hcp
            exact htrans _ (harr _ (mem_getD hc'len)) _ hpmem _ hel h1 hvlt
        · intro hpne c hc hclen'
          have hc'len : c < arr.length := by simpa using hclen'
          have hglt : ((pos - 1) / 2 - 1) / 2 < pos := by omega
          have hgne : ((pos - 1) / 2 - 1) / 2 ≠ pos := by omega
          have hglen : ((pos - 1) / 2 - 1) / 2 < arr.length := by omega
          have hpg : leC cmp (arr.getD ((pos - 1) / 2) default)
              (arr.getD (((pos - 1) / 2 - 1) / 2) default) := by
            refine U1 (((pos - 1) / 2 - 1) / 2) hgne ((pos - 1) / 2)
              ?_ hparlen (by omega)
            omega
          rw [hvne _ hgne]
          by_cases hcp : c = pos
          · subst c
            rw [hvpos]
            exact hpg
          · rw [hvne c hcp]
            have h1 := U1 ((pos - 1) / 2) (by omega) c hc hc'len hcp
            exact htrans _ (harr _ (mem_getD hc'len)) _ hpmem _
              (harr _ (mem_getD hglen)) h1 hpg
    · rw [if_neg hpos]
      have hp0 : pos = 0 := by omega
      exact siftUp_place_good cmp element arr pos hlen (Or.inl hp0) U1 U2

theorem siftDownToBottom_heap (S : List α) (hswap : CmpSwap cmp S)
    (htrans : CmpTrans cmp S) (hrefl : CmpRefl cmp S) (arr : List α)
    (harr : ∀ x ∈ arr, x ∈ S) (hlen : 0 < arr.length)
    (HW : ∀ i, i ≠ 0 → ∀ c, (c = 2 * i + 1 ∨ c = 2 * i + 2) →
      c < arr.length → c ≠ 0 →
      leC cmp (arr.getD c default) (arr.getD i default)) :
    ∀ i, goodAt cmp (siftDownToBottom cmp arr 0) i := by
  unfold siftDownToBottom
  simp only []
  obtain ⟨m1, m2, m3, m4, m5⟩ := siftDownToBottomGo_walk cmp S hswap
    hrefl arr.length arr 0 harr hlen (by omega) HW
    (fun h => absurd rfl h) (fun h => absurd rfl h)
  refine siftUpGo_heap cmp S hswap htrans hrefl (arr.getD 0 default)
    (harr _ (mem_getD hlen)) _ _ _ m1 (by rw [m2]; exact m3)
    (le_refl _) ?_ ?_ ?_
  · intro i hine c hc hclen' hcne
    rw [m2] at hclen'
    exact m5 i hine c hc hclen' hcne
  · intro c hc hclen'
    rw [m2] at hclen'
    exact absurd hclen' (by omega)
  · intro hne c hc hclen'
    rw [m2] at hclen'
    exact absurd hclen' (by omega)

theorem dropLast_getD (l : List α) (j : Nat) (h : j + 1 < l.length) :
    l.dropLast.getD j default = l.getD j default := by
  have hj : j < l.dropLast.length := by
    rw [List.length_dropLast]
    omega
  rw [List.getD_eq_getElem _ _ hj, List.getD_eq_getElem _ _ (by omega)]
  exact List.getElem_dropLast l j hj

theorem heapPop_good (S : List α) (hswap : CmpSwap cmp S)
    (htrans : CmpTrans cmp S) (hrefl : CmpRefl cmp S) (arr : List α)
    (harr : ∀ x ∈ arr, x ∈ S) (hheap : ∀ i, goodAt cmp arr i)
    (x : α) (rest : List α) (hp : heapPop cmp arr = some (x, rest)) :
    (∀ i, goodAt cmp rest i) ∧ (∀ y ∈ rest, y ∈ S) ∧
    (∀ y ∈ arr, leC cmp y x) := by
  have hperm := heapPop_perm cmp arr rest x hp
  have hmem : ∀ y ∈ rest, y ∈ S := by
    intro y hy
    exact harr y (hperm.mem_iff.mpr (List.mem_cons_of_mem x hy))
  have hmax0 : ∀ y ∈ arr, leC cmp y (arr.getD 0 default) := by
    intro y hy
    rcases List.mem_iff_getElem.mp hy with ⟨i, hi, he⟩
    have := heap_root_max cmp S htrans hrefl arr harr hheap i hi
    rw [List.getD_eq_getElem _ _ hi, he] at this
    exact this
  match arr with
  | [] => simp [heapPop] at hp
  | a :: l =>
    simp only [heapPop] at hp
    by_cases he : (a :: l).dropLast.isEmpty
    · rw [if_pos he] at hp
      simp only [Option.some.injEq, Prod.mk.injEq] at hp
      obtain ⟨h1, h2⟩ := hp
      rw [List.isEmpty_iff] at he
      refine ⟨?_, hmem, ?_⟩
      · rw [← h2, he]
        intro i c hc hclen'
        simp at hclen'
      · have hl : l = [] := by
          have := congrArg List.length he
          simp at this
          exact this
        subst hl
        intro y hy
        have hx : x = a := by
          rw [← h1]
          rfl
        rw [hx]
        have hy' : y = a := by simpa using hy
        rw [hy']
        exact hrefl a (harr a (by simp))
    · rw [if_neg he] at hp
      simp only [Option.some.injEq, Prod.mk.injEq] at hp
      obtain ⟨h1, h2⟩ := hp
      have hdl : 0 < (a :: l).dropLast.length := by
        cases hd : (a :: l).dropLast with
        | nil => rw [hd] at he; simp at he
        | cons c r => simp
      have hlen2 : (a :: l).dropLast.length + 1 = (a :: l).length := by
        simp
      have hx0 : x = (a :: l).getD 0 default := by
        rw [← h1, dropLast_getD _ 0 (by omega)]
      refine ⟨?_, hmem, ?_⟩
      · rw [← h2]
        have hil : (a :: l).getLast! = (a :: l).getLast (by simp) := rfl
        have hitem : (a :: l).getLast! ∈ (a :: l) := by
          rw [hil]
          exact List.getLast_mem _
        refine siftDownToBottom_heap cmp S hswap htrans hrefl _ ?_
          (by simpa using hdl) ?_
        · intro z hz
          rcases mem_set_subset hz with h | h
          · rw [h]; exact harr _ hitem
          · exact harr z (List.mem_of_mem_dropLast h)
        · intro i hine c hc hclen' hcne
          have hcl : c < (a :: l).dropLast.length := by
            simpa using hclen'
          have hil' : i < (a :: l).dropLast.length := by
            rcases hc with h | h <;> omega
          rw [getD_set_ne _ _ (fun hh => hcne hh.symm),
            getD_set_ne _ _ (fun hh => hine hh.symm),
            dropLast_getD _ c (by omega), dropLast_getD _ i (by omega)]
          exact hheap i c hc (by omega)
      · intro y hy
        rw [hx0]
        exact hmax0 y hy

theorem heapDrainGo_sorted (S : List α) (hswap : CmpSwap cmp S)
    (htrans : CmpTrans cmp S) (hrefl : CmpRefl cmp S) :
    ∀ (fuel : Nat) (arr : List α), (∀ x ∈ arr, x ∈ S) →
      arr.length ≤ fuel → (∀ i, goodAt cmp arr i) →
      List.Pairwise (fun a b => leC cmp b a)
        (heapDrainGo cmp fuel arr) := by
  intro fuel
  induction fuel with
  | zero =>
    intro arr _ _ _
    rw [heapDrainGo]
    exact List.Pairwise.nil
  | succ fuel ih =>
    intro arr harr hflen hheap
    rw [heapDrainGo]
    match hp : heapPop cmp arr with
    | none => exact List.Pairwise.nil
    | some (x, rest) =>
      obtain ⟨hrheap, hrmem, hmax⟩ :=
        heapPop_good cmp S hswap htrans hrefl arr harr hheap x rest hp
      have hrlen := heapPop_length cmp arr rest x hp
      refine List.Pairwise.cons ?_ (ih rest hrmem (by omega) hrheap)
      intro y hy
      have hyr : y ∈ rest :=
        (heapDrainGo_perm cmp fuel rest (by omega)).mem_iff.mp hy
      exact hmax y ((heapPop_perm cmp arr rest x hp).mem_iff.mpr
        (List.mem_cons_of_mem x hyr))

/-- The sorted leaderboard is pairwise non-descending under the
comparator, provided the comparator is consistent on the map's values. -/
theorem mapToSortedLeaderboard_sorted (m : List (String × TeamStatus))
    (hswap : CmpSwap teamStatusCmp (alValues m))
    (htrans : CmpTrans teamStatusCmp (alValues m))
    (hrefl : CmpRefl teamStatusCmp (alValues m)) :
    List.Pairwise (fun a b => leC teamStatusCmp a b)
      (mapToSortedLeaderboard m) := by
  unfold mapToSortedLeaderboard
  rw [List.pairwise_reverse]
  unfold heapDrain
  refine heapDrainGo_sorted teamStatusCmp (alValues m) hswap htrans hrefl
    _ _ ?_ (by rw [rebuild_length]) ?_
  · intro x hx
    exact (rebuild_perm teamStatusCmp (alValues m)).mem_iff.mp hx
  · exact rebuild_good teamStatusCmp (alValues m) hswap htrans hrefl _
      (fun x hx => hx)

/-! ## Order properties of the `TeamStatus` comparator

The `unreachable!()` arm makes the raw comparator inconsistent in general;
on statuses satisfying `teamCmpOK` (zero points exactly when no accepted
time is recorded — an invariant of every status the pipeline builds) the
comparator is a lawful total preorder. -/

/-- The bridge that keeps the comparator out of its junk arm: a team has
`total_points = 0` exactly when it has no `last_ac_time`. -/
def teamCmpOK (ts : TeamStatus) : Prop :=
  ts.total_points = 0 ↔ ts.last_ac_time = none

/-- Final comparison key of two statuses whose earlier keys tie. -/
def lastLe (a b : TeamStatus) : Prop :=
  match a.last_ac_time, b.last_ac_time with
  | some x, some y => x ≤ y
  | none, none => a.team_id ≤ b.team_id
  | _, _ => True

theorem teamStatusCmp_le_iff (a b : TeamStatus) :
    (teamStatusCmp a b ≠ .gt) ↔
      (a.sortorder < b.sortorder ∨ (a.sortorder = b.sortorder ∧
        (b.total_points < a.total_points ∨
          (a.total_points = b.total_points ∧
            (a.total_penalty < b.total_penalty ∨
              (a.total_penalty = b.total_penalty ∧ lastLe a b)))))) := by
  unfold teamStatusCmp teamStatusCmpChecked lastLe
  by_cases h1 : a.sortorder = b.sortorder
  · rw [if_neg (not_not_intro h1)]
    by_cases h2 : a.total_points = b.total_points
    · rw [if_neg (not_not_intro h2)]
      by_cases h3 : a.total_penalty = b.total_penalty
      · rw [if_neg (not_not_intro h3)]
        cases hla : a.last_ac_time <;> cases hlb : b.last_ac_time
        · simp only [h1, h2, h3, lt_self_iff_false, false_or, true_and]
          rw [ne_eq, compare_gt_iff_gt, not_lt]
        · simp [h1, h2, h3]
        · simp [h1, h2, h3]
        · simp only [h1, h2, h3, lt_self_iff_false, false_or, true_and]
          rw [ne_eq, compare_gt_iff_gt, not_lt]
      · rw [if_pos h3]
        simp only [h1, h2, lt_self_iff_false, false_or, true_and, h3,
          false_and, or_false]
        rw [ne_eq, compare_gt_iff_gt, not_lt]
        constructor
        · intro h
          omega
        · intro h
          omega
    · rw [if_pos h2]
      simp only [h1, lt_self_iff_false, false_or, true_and, h2,
        false_and, or_false]
      rw [ne_eq, compare_gt_iff_gt, not_lt]
      constructor
      · intro h
        omega
      · intro h
        omega
  · rw [if_pos h1]
    simp only [h1, false_and, or_false]
    rw [ne_eq, compare_gt_iff_gt, not_lt]
    constructor
    · intro h
      omega
    · intro h
      omega

theorem teamStatusCmp_swap_ok (a b : TeamStatus) (ha : teamCmpOK a)
    (hb : teamCmpOK b) :
    (teamStatusCmp a b = .gt ↔ teamStatusCmp b a = .lt) := by
  unfold teamStatusCmp teamStatusCmpChecked
  by_cases h1 : a.sortorder = b.sortorder
  · rw [if_neg (not_not_intro h1), if_neg (not_not_intro h1.symm)]
    by_cases h2 : a.total_points = b.total_points
    · rw [if_neg (not_not_intro h2), if_neg (not_not_intro h2.symm)]
      by_cases h3 : a.total_penalty = b.total_penalty
      · rw [if_neg (not_not_intro h3), if_neg (not_not_intro h3.symm)]
        have hnb : a.last_ac_time = none ↔ b.last_ac_time = none := by
          unfold teamCmpOK at ha hb
          rw [← ha, ← hb, h2]
        cases hla : a.last_ac_time <;> cases hlb : b.last_ac_time
        · simp only []
          rw [compare_gt_iff_gt, compare_lt_iff_lt]
        · rw [hla, hlb] at hnb
          simp at hnb
        · rw [hla, hlb] at hnb
          simp at hnb
        · simp only []
          rw [compare_gt_iff_gt, compare_lt_iff_lt]
      · rw [if_pos h3, if_pos (fun he => h3 he.symm)]
        simp only []
        rw [compare_gt_iff_gt, compare_lt_iff_lt]
    · rw [if_pos h2, if_pos (fun he => h2 he.symm)]
      simp only []
      rw [compare_gt_iff_gt, compare_lt_iff_lt]
  · rw [if_pos h1, if_pos (fun he => h1 he.symm)]
    simp only []
    rw [compare_gt_iff_gt, compare_lt_iff_lt]

theorem teamStatusCmp_refl (a : TeamStatus) : teamStatusCmp a a ≠ .gt := by
  unfold teamStatusCmp teamStatusCmpChecked
  rw [if_neg (not_not_intro rfl), if_neg (not_not_intro rfl),
    if_neg (not_not_intro rfl)]
  cases hla : a.last_ac_time
  · simp only []
    rw [ne_eq, compare_gt_iff_gt, not_lt]
  · simp only []
    rw [ne_eq, compare_gt_iff_gt, not_lt]

theorem teamStatusCmp_trans_ok (a b c : TeamStatus) (ha : teamCmpOK a)
    (hb : teamCmpOK b) (hc : teamCmpOK c)
    (h1 : teamStatusCmp a b ≠ .gt) (h2 : teamStatusCmp b c ≠ .gt) :
    teamStatusCmp a c ≠ .gt := by
  rw [teamStatusCmp_le_iff] at h1 h2 ⊢
  rcases h1 with h1s | ⟨h1e, h1r⟩
  · rcases h2 with h2s | ⟨h2e, _⟩
    · left; omega
    · left; omega
  · rcases h2 with h2s | ⟨h2e, h2r⟩
    · left; omega
    · right
      refine ⟨by omega, ?_⟩
      rcases h1r with h1p | ⟨h1pe, h1r⟩
      · rcases h2r with h2p | ⟨h2pe, _⟩
        · left; omega
        · left; omega
      · rcases h2r with h2p | ⟨h2pe, h2r⟩
        · left; omega
        · right
          refine ⟨by omega, ?_⟩
          rcases h1r with h1n | ⟨h1ne, h1l⟩
          · rcases h2r with h2n | ⟨h2ne, _⟩
            · left; omega
            · left; omega
          · rcases h2r with h2n | ⟨h2ne, h2l⟩
            · left; omega
            · right
              refine ⟨by omega, ?_⟩
              have hnab : a.last_ac_time = none ↔ b.last_ac_time =
                  none := by
                unfold teamCmpOK at ha hb
                rw [← ha, ← hb, h1pe]
              have hnbc : b.last_ac_time = none ↔ c.last_ac_time =
                  none := by
                unfold teamCmpOK at hb hc
                rw [← hb, ← hc, h2pe]
              unfold lastLe at h1l h2l ⊢
              cases hla : a.last_ac_time <;> cases hlb : b.last_ac_time
                <;> cases hlc : c.last_ac_time
              · rw [hla, hlb] at h1l
                rw [hlb, hlc] at h2l
                simp only [] at h1l h2l ⊢
                exact le_trans h1l h2l
              · rw [hlb, hlc] at hnbc
                simp at hnbc
              · rw [hla, hlb] at hnab
                simp at hnab
              · rw [hla, hlb] at hnab
                simp at hnab
              · rw [hla, hlb] at hnab
                simp at hnab
              · rw [hla, hlb] at hnab
                simp at hnab
              · rw [hlb, hlc] at hnbc
                simp at hnbc
              · rw [hla, hlb] at h1l
                rw [hlb, hlc] at h2l
                simp only [] at h1l h2l ⊢
                exact le_trans h1l h2l

/-- Packaged consistency of the comparator over any list of statuses
satisfying `teamCmpOK`. -/
theorem teamStatusCmp_consistent (S : List TeamStatus)
    (hok : ∀ ts ∈ S, teamCmpOK ts) :
    CmpSwap teamStatusCmp S ∧ CmpTrans teamStatusCmp S ∧
      CmpRefl teamStatusCmp S := by
  refine ⟨?_, ?_, ?_⟩
  · intro x hx y hy
    exact teamStatusCmp_swap_ok x y (hok x hx) (hok y hy)
  · intro x hx y hy z hz h1 h2
    exact teamStatusCmp_trans_ok x y z (hok x hx) (hok y hy) (hok z hz)
      h1 h2
  · intro x _
    exact teamStatusCmp_refl x

end HeapSort

/-! ## C1: aggregates of a `TeamStatus` and the reveal-machine invariants -/

/-- Number of solved problems not pending a reveal. -/
def cntUnfrozen (stats : List (String × ProblemStat)) : Int :=
  sumBy (fun s => if s.solved && !s.attempted_during_freeze then 1 else 0)
    stats

/-- Number of solved problems. -/
def cntSolvedF (stats : List (String × ProblemStat)) : Int :=
  sumBy (fun s => if s.solved then 1 else 0) stats

/-- Accepted times of the solved, non-pending problems. -/
def acUnfrozen (stats : List (String × ProblemStat)) : List Int :=
  stats.filterMap (fun p =>
    if p.2.solved && !p.2.attempted_during_freeze then p.2.first_ac_time
    else none)

/-- Accepted times of all solved problems. -/
def acSolvedL (stats : List (String × ProblemStat)) : List Int :=
  stats.filterMap (fun p => if p.2.solved then p.2.first_ac_time else none)

/-- `o` is the maximum of `l` (`none` exactly for the empty list). -/
def isMaxOf (o : Option Int) (l : List Int) : Prop :=
  match o with
  | none => l = []
  | some m => m ∈ l ∧ ∀ x ∈ l, x ≤ m

/-- The running-maximum fold shared by `add_submission`,
`apply_solved_problem_score` and `recompute_team_totals`. -/
def acMax (l : List Int) : Option Int :=
  l.foldl (fun acc t =>
    if acc.all (fun last => t > last) then some t else acc) none

/-- Full data invariant of a `TeamStatus` built by the pipeline: the
stored totals are the aggregates of the non-pending solved stats, every
solved stat records its accepted time, and the stat keys are unique. -/
def teamWF (ts : TeamStatus) : Prop :=
  ts.total_points = cntUnfrozen ts.problem_stats ∧
  ts.total_penalty = sumBy penUnfrozen ts.problem_stats ∧
  isMaxOf ts.last_ac_time (acUnfrozen ts.problem_stats) ∧
  (∀ p ∈ ts.problem_stats, p.2.solved = true →
    ∃ t, p.2.first_ac_time = some t) ∧
  (alKeys ts.problem_stats).Nodup

/-- A team between the reveal of a solved problem and the score
application: re-flagging the revealed stat yields a well-formed team. -/
def teamDebt (ts : TeamStatus) (pid : String) : Prop :=
  ∃ stat, alGet ts.problem_stats pid = some stat ∧ stat.solved = true ∧
    stat.attempted_during_freeze = false ∧
    teamWF { ts with problem_stats :=
      (alInsert ts.problem_stats pid
        { stat with attempted_during_freeze := true }) }

/-- The status with its problem stats erased — everything the comparator
and the claim's triple read. -/
def projT (ts : TeamStatus) : TeamStatus :=
  { ts with problem_stats := [] }

/-- The eventual projection of a status: the totals it will carry once
every pending solve is revealed and applied. -/
def finView (ts : TeamStatus) : TeamStatus :=
  { ts with
    problem_stats := []
    total_points := cntSolvedF ts.problem_stats
    total_penalty := sumBy penSolved ts.problem_stats
    last_ac_time := acMax (acSolvedL ts.problem_stats) }

/-- Every position strictly after `idx` has no pending reveal. -/
def cleanFrom (board : List TeamStatus) (idx : Nat) : Prop :=
  ∀ j, idx < j → j < board.length →
    team_has_pending_freeze (board.getD j default) = false

/-- Total number of pending (frozen) stats on the board. -/
def flagCount (board : List TeamStatus) : Nat :=
  (board.map (fun ts =>
    (ts.problem_stats.filter
      (fun p => p.2.attempted_during_freeze)).length)).sum

/-- Rank used by the termination measure. -/
def phaseRank : SpacePhase → Nat
  | .PendingAward _ _ _ _ => 3
  | .ShowAward _ _ _ _ => 2
  | .PostAwardScroll _ _ => 1
  | .ApplyPostReveal _ _ _ => 1
  | .RevealStep => 0
  | .Finished => 0

/-- Index component of the termination measure. -/
def idxVal (i : Option Nat) (len : Nat) : Nat :=
  match i with
  | none => len + 1
  | some j => min j (len + 1)

/-- Strictly decreasing measure of the reveal machine. -/
def measureM (flow : PresentFlowState) (board : List TeamStatus)
    (awards : List (String × List String)) : Nat :=
  ((flagCount board * (awards.length + 1) + awards.length) * 4 +
    phaseRank flow.space_phase) * (board.length + 2) +
    idxVal flow.current_reveal_index board.length

/-- Run `advance_space_phase` until the phase is `Finished`, with `fuel`
bounding the number of steps. -/
def advanceUntilFinished : Nat → PresentFlowState → List TeamStatus →
    List String → List (String × List String) → Option (List TeamStatus)
  | fuel, flow, board, opids, awards =>
    match flow.space_phase with
    | .Finished => some board
    | _ =>
      match fuel with
      | 0 => none
      | fuel + 1 =>
        match advance_space_phase flow board opids awards with
        | none => none
        | some (flow', board', awards', _) =>
          advanceUntilFinished fuel flow' board' opids awards'

theorem isMaxOf_perm {o : Option Int} {l1 l2 : List Int}
    (hp : l1.Perm l2) (h : isMaxOf o l1) : isMaxOf o l2 := by
  cases o with
  | none =>
    unfold isMaxOf at h ⊢
    rw [h] at hp
    exact hp.symm.eq_nil
  | some m =>
    exact ⟨hp.mem_iff.mp h.1, fun x hx => h.2 x (hp.mem_iff.mpr hx)⟩
theorem isMaxOf_update (o : Option Int) (l : List Int) (t : Int)
    (h : isMaxOf o l) :
    isMaxOf (if o.all (fun last => t > last) then some t else o)
      (t :: l) := by
  cases o with
  | none =>
    unfold isMaxOf at h
    rw [h]
    simp [isMaxOf]
  | some m =>
    obtain ⟨hm, hb⟩ := h
    by_cases hc : (some m).all (fun last => t > last) = true
    · rw [if_pos hc]
      have hmt : m < t := by simpa using hc
      refine ⟨List.mem_cons_self t l, ?_⟩
      intro x hx
      rcases List.mem_cons.mp hx with h1 | h1
      · omega
      · have := hb x h1
        omega
    · rw [if_neg hc]
      have htm : t ≤ m := by
        have := hc
        simp at this
        omega
      refine ⟨List.mem_cons_of_mem t hm, ?_⟩
      intro x hx
      rcases List.mem_cons.mp hx with h1 | h1
      · omega
      · exact hb x h1

theorem isMaxOf_unique (o1 o2 : Option Int) (l : List Int)
    (h1 : isMaxOf o1 l) (h2 : isMaxOf o2 l) : o1 = o2 := by
  cases o1 with
  | none =>
    cases o2 with
    | none => rfl
    | some m =>
      unfold isMaxOf at h1 h2
      rw [h1] at h2
      simp at h2
  | some m =>
    cases o2 with
    | none =>
      unfold isMaxOf at h1 h2
      rw [h2] at h1
      simp at h1
    | some m' =>
      unfold isMaxOf at h1 h2
      have ha := h1.2 m' h2.1
      have hb := h2.2 m h1.1
      have : m = m' := le_antisymm hb ha
      rw [this]

theorem acMax_aux :
    ∀ (l : List Int) (acc : Option Int) (pre : List Int),
      isMaxOf acc pre →
      isMaxOf (l.foldl (fun acc t =>
        if acc.all (fun last => t > last) then some t else acc) acc)
        (pre ++ l) := by
  intro l
  induction l with
  | nil =>
    intro acc pre h
    simpa using h
  | cons t rest ih =>
    intro acc pre h
    rw [List.foldl_cons]
    have hstep := isMaxOf_update acc pre t h
    have hperm : (t :: pre).Perm (pre ++ [t]) :=
      (List.perm_append_singleton t pre).symm
    have := ih _ (pre ++ [t]) (isMaxOf_perm hperm hstep)
    rw [List.append_assoc] at this
    simpa using this

theorem acMax_isMaxOf (l : List Int) : isMaxOf (acMax l) l := by
  have := acMax_aux l none [] (by rfl)
  simpa [acMax] using this

theorem cntUnfrozen_nonneg (stats : List (String × ProblemStat)) :
    0 ≤ cntUnfrozen stats := by
  refine sumBy_nonneg _ stats ?_
  intro p _
  by_cases hc : p.2.solved && !p.2.attempted_during_freeze <;>
    simp [hc]

theorem cntUnfrozen_zero_iff (stats : List (String × ProblemStat))
    (hsome : ∀ p ∈ stats, p.2.solved = true →
      ∃ t, p.2.first_ac_time = some t) :
    (cntUnfrozen stats = 0 ↔ acUnfrozen stats = []) := by
  induction stats with
  | nil => simp [cntUnfrozen, acUnfrozen, sumBy]
  | cons p rest ih =>
    have hrest := ih (fun q hq => hsome q (List.mem_cons_of_mem p hq))
    have hn := cntUnfrozen_nonneg rest
    have hcnt : cntUnfrozen (p :: rest) =
        (if (p.2.solved && !p.2.attempted_during_freeze) = true then 1
          else 0) + cntUnfrozen rest := by
      unfold cntUnfrozen sumBy
      rw [List.map_cons, List.sum_cons]
    have hac : acUnfrozen (p :: rest) =
        match (if (p.2.solved && !p.2.attempted_during_freeze) = true
          then p.2.first_ac_time else none) with
        | none => acUnfrozen rest
        | some t => t :: acUnfrozen rest := by
      unfold acUnfrozen
      rw [List.filterMap_cons]
      cases (if (p.2.solved && !p.2.attempted_during_freeze) = true
        then p.2.first_ac_time else none) <;> rfl
    rw [hcnt, hac]
    by_cases hc : (p.2.solved && !p.2.attempted_during_freeze) = true
    · simp only [if_pos hc]
      have hsolved : p.2.solved = true := by
        have hh := hc
        simp at hh
        exact hh.1
      obtain ⟨t, ht⟩ := hsome p (List.mem_cons_self p rest) hsolved
      rw [ht]
      simp only []
      constructor
      · intro h
        exact absurd h (by omega)
      · intro h
        simp at h
    · simp only [if_neg hc]
      rw [zero_add]
      exact hrest

theorem teamCmpOK_of_teamWF (ts : TeamStatus) (h : teamWF ts) :
    teamCmpOK ts := by
  obtain ⟨hp, hpen, hmax, hsome, hnd⟩ := h
  unfold teamCmpOK
  rw [hp, cntUnfrozen_zero_iff _ hsome]
  cases hla : ts.last_ac_time with
  | none =>
    rw [hla] at hmax
    unfold isMaxOf at hmax
    simp [hmax]
  | some m =>
    rw [hla] at hmax
    constructor
    · intro he
      rw [he] at hmax
      simp [isMaxOf] at hmax
    · intro he
      exact absurd he (by simp)

theorem alInsert_decomp {α : Type} (stats : List (String × α))
    (k : String) (vold vnew : α) (hget : alGet stats k = some vold) :
    ∃ pre post, stats = pre ++ (k, vold) :: post ∧
      alInsert stats k vnew = pre ++ (k, vnew) :: post := by
  induction stats with
  | nil => simp [alGet] at hget
  | cons q rest ih =>
    by_cases hq : q.1 = k
    · simp only [alGet, if_pos hq, Option.some.injEq] at hget
      refine ⟨[], rest, ?_, ?_⟩
      · simp only [List.nil_append]
        rw [show (k, vold) = q from ?_]
        rw [← hq, ← hget]
      · simp only [alInsert, if_pos hq, List.nil_append]
    · simp only [alGet, if_neg hq] at hget
      obtain ⟨pre, post, h1, h2⟩ := ih hget
      refine ⟨q :: pre, post, ?_, ?_⟩
      · rw [List.cons_append, ← h1]
      · simp only [alInsert, if_neg hq, List.cons_append, h2]

theorem alInsert_append_of_none {α : Type} (stats : List (String × α))
    (k : String) (v : α) (hget : alGet stats k = none) :
    alInsert stats k v = stats ++ [(k, v)] := by
  induction stats with
  | nil => simp [alInsert]
  | cons q rest ih =>
    by_cases hq : q.1 = k
    · simp [alGet, hq] at hget
    · simp only [alGet, if_neg hq] at hget
      simp only [alInsert, if_neg hq, List.cons_append, ih hget]

theorem flagCount_perm {b1 b2 : List TeamStatus} (h : b1.Perm b2) :
    flagCount b1 = flagCount b2 := by
  unfold flagCount
  exact (h.map _).sum_eq
theorem sumBy_alInsert_getD (f : ProblemStat → Int)
    (stats : List (String × ProblemStat)) (pid : String)
    (hf0 : f ProblemStat.initial = 0) :
    sumBy f (alInsert stats pid
      ((alGet stats pid).getD ProblemStat.initial)) = sumBy f stats := by
  cases hget : alGet stats pid with
  | none =>
    have h := sumBy_alInsert f stats pid
      ((alGet stats pid).getD ProblemStat.initial)
    rw [hget] at h
    simp only [Option.getD_none, Option.map_none'] at h ⊢
    omega
  | some old =>
    simp only [Option.getD_some]
    rw [alInsert_self_of_get _ _ _ hget]

theorem acU_alInsert_getD (stats : List (String × ProblemStat))
    (pid : String) :
    acUnfrozen (alInsert stats pid
      ((alGet stats pid).getD ProblemStat.initial)) = acUnfrozen stats := by
  cases hget : alGet stats pid with
  | none =>
    simp only [Option.getD_none]
    rw [alInsert_append_of_none _ _ _ hget]
    unfold acUnfrozen
    rw [List.filterMap_append]
    simp [ProblemStat.initial]
  | some old =>
    simp only [Option.getD_some]
    rw [alInsert_self_of_get _ _ _ hget]

theorem filterMap_alInsert {β : Type}
    (g : String × ProblemStat → Option β)
    (stats : List (String × ProblemStat)) (pid : String)
    (vold vnew : ProblemStat) (hget : alGet stats pid = some vold) :
    ∃ l1 l2, stats.filterMap g = l1 ++ (g (pid, vold)).toList ++ l2 ∧
      (alInsert stats pid vnew).filterMap g =
        l1 ++ (g (pid, vnew)).toList ++ l2 := by
  obtain ⟨pre, post, h1, h2⟩ := alInsert_decomp stats pid vold vnew hget
  refine ⟨pre.filterMap g, post.filterMap g, ?_, ?_⟩
  · rw [h1, List.filterMap_append, List.filterMap_cons]
    cases g (pid, vold) <;> simp
  · rw [h2, List.filterMap_append, List.filterMap_cons]
    cases g (pid, vnew) <;> simp
theorem sumBy_insert_sub (f : ProblemStat → Int)
    (S : List (String × ProblemStat)) (pid : String)
    (s0 snew : ProblemStat) (hget : alGet S pid = some s0)
    (v0 v1 : Int) (h0 : f s0 = v0) (h1 : f snew = v1) :
    sumBy f (alInsert S pid snew) = sumBy f S + v1 - v0 := by
  have h := sumBy_alInsert f S pid snew
  rw [hget] at h
  simp only [Option.map_some', Option.getD_some] at h
  omega

theorem acU_insert_eq (S : List (String × ProblemStat)) (pid : String)
    (s0 snew : ProblemStat) (hget : alGet S pid = some s0)
    (h0 : (if s0.solved && !s0.attempted_during_freeze
      then s0.first_ac_time else none) = none)
    (h1 : (if snew.solved && !snew.attempted_during_freeze
      then snew.first_ac_time else none) = none) :
    acUnfrozen (alInsert S pid snew) = acUnfrozen S := by
  obtain ⟨l1, l2, ha, hb⟩ := filterMap_alInsert
    (fun p => if p.2.solved && !p.2.attempted_during_freeze
      then p.2.first_ac_time else none) S pid s0 snew hget
  simp only [] at ha hb
  rw [h0] at ha
  rw [h1] at hb
  unfold acUnfrozen
  rw [hb, ha]

theorem acU_insert_add (S : List (String × ProblemStat)) (pid : String)
    (s0 snew : ProblemStat) (tnew : Int)
    (hget : alGet S pid = some s0)
    (h0 : (if s0.solved && !s0.attempted_during_freeze
      then s0.first_ac_time else none) = none)
    (h1 : (if snew.solved && !snew.attempted_during_freeze
      then snew.first_ac_time else none) = some tnew) :
    (acUnfrozen (alInsert S pid snew)).Perm (tnew :: acUnfrozen S) := by
  obtain ⟨l1, l2, ha, hb⟩ := filterMap_alInsert
    (fun p => if p.2.solved && !p.2.attempted_during_freeze
      then p.2.first_ac_time else none) S pid s0 snew hget
  simp only [] at ha hb
  rw [h0] at ha
  rw [h1] at hb
  unfold acUnfrozen
  rw [hb, ha]
  simp only [Option.toList_some, Option.toList_none, List.append_nil]
  simpa using List.perm_middle
theorem sumBy_insert_same (f : ProblemStat → Int)
    (S : List (String × ProblemStat)) (pid : String)
    (s0 snew : ProblemStat) (hget : alGet S pid = some s0)
    (h : f snew = f s0) :
    sumBy f (alInsert S pid snew) = sumBy f S := by
  have h2 := sumBy_alInsert f S pid snew
  rw [hget] at h2
  simp only [Option.map_some', Option.getD_some] at h2
  omega

/-- Replacing an existing stat by one with the same visible aggregates
keeps the team well-formed. -/
theorem teamWF_of_insert_eq (ts : TeamStatus)
    (S : List (String × ProblemStat)) (pid : String) (E snew : ProblemStat)
    (hget : alGet S pid = some E)
    (hP : ts.total_points = cntUnfrozen S)
    (hPen : ts.total_penalty = sumBy penUnfrozen S)
    (hMax : isMaxOf ts.last_ac_time (acUnfrozen S))
    (hSome : ∀ p ∈ S, p.2.solved = true → ∃ t2, p.2.first_ac_time = some t2)
    (hndS : (alKeys S).Nodup)
    (hc : (if snew.solved && !snew.attempted_during_freeze then (1:Int)
      else 0) = (if E.solved && !E.attempted_during_freeze then (1:Int)
      else 0))
    (hp : penUnfrozen snew = penUnfrozen E)
    (ha0 : (if E.solved && !E.attempted_during_freeze then E.first_ac_time
      else none) = none)
    (ha1 : (if snew.solved && !snew.attempted_during_freeze
      then snew.first_ac_time else none) = none)
    (hsm : snew.solved = true → ∃ t2, snew.first_ac_time = some t2) :
    teamWF { ts with problem_stats := alInsert S pid snew } := by
  refine ⟨?_, ?_, ?_, ?_, ?_⟩
  · show ts.total_points = cntUnfrozen (alInsert S pid snew)
    have hcc : cntUnfrozen (alInsert S pid snew) = cntUnfrozen S := by
      unfold cntUnfrozen
      exact sumBy_insert_same _ S pid E snew hget hc
    rw [hcc]
    exact hP
  · show ts.total_penalty = sumBy penUnfrozen (alInsert S pid snew)
    rw [sumBy_insert_same penUnfrozen S pid E snew hget hp]
    exact hPen
  · show isMaxOf ts.last_ac_time (acUnfrozen (alInsert S pid snew))
    rw [acU_insert_eq S pid E snew hget ha0 ha1]
    exact hMax
  · intro p hpmem hsol
    rcases mem_alInsert hpmem with h | h
    · rw [h] at hsol ⊢
      exact hsm hsol
    · exact hSome p h hsol
  · exact alKeys_nodup_alInsert _ _ _ hndS

/-- Inserting a freshly solved, unfrozen stat bumps the aggregates the way
`add_submission` writes them. -/
theorem teamWF_of_insert_solved (ts : TeamStatus)
    (S : List (String × ProblemStat)) (pid : String) (E snew : ProblemStat)
    (t : Int)
    (hget : alGet S pid = some E)
    (hP : ts.total_points = cntUnfrozen S)
    (hPen : ts.total_penalty = sumBy penUnfrozen S)
    (hMax : isMaxOf ts.last_ac_time (acUnfrozen S))
    (hSome : ∀ p ∈ S, p.2.solved = true → ∃ t2, p.2.first_ac_time = some t2)
    (hndS : (alKeys S).Nodup)
    (hc0 : (if E.solved && !E.attempted_during_freeze then (1:Int) else 0)
      = 0)
    (hp0 : penUnfrozen E = 0)
    (ha0 : (if E.solved && !E.attempted_during_freeze then E.first_ac_time
      else none) = none)
    (hc1 : (if snew.solved && !snew.attempted_during_freeze then (1:Int)
      else 0) = 1)
    (hp1 : penUnfrozen snew = snew.penalty)
    (ha1 : (if snew.solved && !snew.attempted_during_freeze
      then snew.first_ac_time else none) = some t)
    (hsm : ∃ t2, snew.first_ac_time = some t2) :
    teamWF { ts with
      total_points := ts.total_points + 1
      total_penalty := ts.total_penalty + snew.penalty
      last_ac_time := if ts.last_ac_time.all (fun last => t > last)
        then some t else ts.last_ac_time
      problem_stats := alInsert S pid snew } := by
  refine ⟨?_, ?_, ?_, ?_, ?_⟩
  · show ts.total_points + 1 = cntUnfrozen (alInsert S pid snew)
    have hcc : cntUnfrozen (alInsert S pid snew) = cntUnfrozen S + 1 - 0 := by
      unfold cntUnfrozen
      exact sumBy_insert_sub _ S pid E snew hget 0 1 hc0 hc1
    rw [hcc, ← hP]
    omega
  · show ts.total_penalty + snew.penalty =
      sumBy penUnfrozen (alInsert S pid snew)
    have hcc : sumBy penUnfrozen (alInsert S pid snew) =
        sumBy penUnfrozen S + snew.penalty - 0 :=
      sumBy_insert_sub penUnfrozen S pid E snew hget 0 snew.penalty hp0 hp1
    rw [hcc, ← hPen]
    omega
  · show isMaxOf (if ts.last_ac_time.all (fun last => t > last) then some t
      else ts.last_ac_time) (acUnfrozen (alInsert S pid snew))
    have hperm := acU_insert_add S pid E snew t hget ha0 ha1
    exact isMaxOf_perm hperm.symm (isMaxOf_update _ _ t hMax)
  · intro p hpmem hsol
    rcases mem_alInsert hpmem with h | h
    · rw [h]
      exact hsm
    · exact hSome p h hsol
  · exact alKeys_nodup_alInsert _ _ _ hndS

/-- `add_submission` preserves the full team invariant. -/
theorem add_submission_teamWF (ts : TeamStatus) (pid : String) (t : Int)
    (jtid : Option String) (types : List (String × JudgementType))
    (st ft : Int) (hw : teamWF ts) :
    teamWF (ts.add_submission pid t jtid types st ft) := by
  obtain ⟨hwP, hwPen, hwMax, hwSome, hwNd⟩ := hw
  have hgetS : alGet (alInsert ts.problem_stats pid
      ((alGet ts.problem_stats pid).getD ProblemStat.initial)) pid =
      some ((alGet ts.problem_stats pid).getD ProblemStat.initial) :=
    alGet_alInsert_self _ _ _
  have hcntS : cntUnfrozen (alInsert ts.problem_stats pid
      ((alGet ts.problem_stats pid).getD ProblemStat.initial)) =
      cntUnfrozen ts.problem_stats := by
    unfold cntUnfrozen
    exact sumBy_alInsert_getD _ _ _ (by simp [ProblemStat.initial])
  have hpenS : sumBy penUnfrozen (alInsert ts.problem_stats pid
      ((alGet ts.problem_stats pid).getD ProblemStat.initial)) =
      sumBy penUnfrozen ts.problem_stats :=
    sumBy_alInsert_getD _ _ _ (by simp [penUnfrozen, ProblemStat.initial])
  have hacS : acUnfrozen (alInsert ts.problem_stats pid
      ((alGet ts.problem_stats pid).getD ProblemStat.initial)) =
      acUnfrozen ts.problem_stats :=
    acU_alInsert_getD _ _
  have hmaxS : isMaxOf ts.last_ac_time (acUnfrozen (alInsert ts.problem_stats
      pid ((alGet ts.problem_stats pid).getD ProblemStat.initial))) := by
    rw [hacS]
    exact hwMax
  have hEsome : ((alGet ts.problem_stats pid).getD
        ProblemStat.initial).solved = true →
      ∃ t2, ((alGet ts.problem_stats pid).getD
        ProblemStat.initial).first_ac_time = some t2 := by
    cases hget : alGet ts.problem_stats pid with
    | none => simp [ProblemStat.initial]
    | some old =>
      intro h
      exact hwSome (pid, old) (mem_of_alGet hget) h
  have hsomeS : ∀ p ∈ alInsert ts.problem_stats pid
      ((alGet ts.problem_stats pid).getD ProblemStat.initial),
      p.2.solved = true → ∃ t2, p.2.first_ac_time = some t2 := by
    intro p hp hsol
    rcases mem_alInsert hp with h | h
    · rw [h] at hsol ⊢
      exact hEsome hsol
    · exact hwSome p h hsol
  have hndS : (alKeys (alInsert ts.problem_stats pid
      ((alGet ts.problem_stats pid).getD ProblemStat.initial))).Nodup :=
    alKeys_nodup_alInsert _ _ _ hwNd
  have hP : (TeamStatus.mk ts.team_id ts.team_name ts.team_affiliation
      ts.sortorder ts.total_points ts.total_penalty ts.last_ac_time
      ts.problem_stats).total_points = ts.total_points := rfl
  unfold TeamStatus.add_submission
  simp only []
  split
  next hs0 =>
    exact ⟨hwP.trans hcntS.symm, hwPen.trans hpenS.symm, hmaxS, hsomeS, hndS⟩
  next hns0 =>
    have hf : ((alGet ts.problem_stats pid).getD
        ProblemStat.initial).solved = false := by
      cases hc : ((alGet ts.problem_stats pid).getD
          ProblemStat.initial).solved
      · rfl
      · exact absurd hc hns0
    split
    next hjt =>
      exact ⟨hwP.trans hcntS.symm, hwPen.trans hpenS.symm, hmaxS, hsomeS,
        hndS⟩
    next jt hjt =>
      by_cases hjs : jt.solved = true
      · rw [if_pos hjs]
        have hps : (jt.penalty || jt.solved) = true := by simp [hjs]
        rw [if_pos hps]
        by_cases hfr : ft < t
        · rw [if_pos (by simp [hfr])]
          exact teamWF_of_insert_eq ts _ pid _ _ hgetS
            (hwP.trans hcntS.symm) (hwPen.trans hpenS.symm) hmaxS hsomeS
            hndS (by simp [hf, hfr]) (by simp [penUnfrozen, hf, hfr])
            (by simp [hf]) (by simp [hfr]) (fun _ => ⟨t, rfl⟩)
        · rw [if_neg (by simp [hfr])]
          exact teamWF_of_insert_solved ts _ pid _ _ t hgetS
            (hwP.trans hcntS.symm) (hwPen.trans hpenS.symm) hmaxS hsomeS
            hndS (by simp [hf]) (by simp [penUnfrozen, hf]) (by simp [hf])
            (by simp [hfr]) (by simp [penUnfrozen, hfr]) (by simp [hfr])
            ⟨t, rfl⟩
      · rw [if_neg hjs]
        by_cases hps : (jt.penalty || jt.solved) = true
        · rw [if_pos hps]
          exact teamWF_of_insert_eq ts _ pid _ _ hgetS
            (hwP.trans hcntS.symm) (hwPen.trans hpenS.symm) hmaxS hsomeS
            hndS (by simp [hf]) (by simp [penUnfrozen, hf]) (by simp [hf])
            (by simp [hf]) (fun h => absurd h (by simp [hf]))
        · rw [if_neg hps]
          exact teamWF_of_insert_eq ts _ pid _ _ hgetS
            (hwP.trans hcntS.symm) (hwPen.trans hpenS.symm) hmaxS hsomeS
            hndS (by simp [hf]) (by simp [penUnfrozen, hf]) (by simp [hf])
            (by simp [hf]) (fun h => absurd h (by simp [hf]))
/-- The initial status of a team is well-formed. -/
theorem teamWF_new (a b c : String) (d : Int) :
    teamWF (TeamStatus.new a b c d) := by
  refine ⟨rfl, rfl, rfl, ?_, ?_⟩
  · intro p hp
    simp [TeamStatus.new] at hp
  · simp [TeamStatus.new, alKeys]

/-- Map-level well-formedness: unique keys, each status keyed by its own
id and fully well-formed. -/
def mapWF (m : List (String × TeamStatus)) : Prop :=
  (alKeys m).Nodup ∧ ∀ p ∈ m, p.2.team_id = p.1 ∧ teamWF p.2

theorem buildInitialTeamStatusMap_mapWF (state : ContestState)
    (m0 : List (String × TeamStatus))
    (h : buildInitialTeamStatusMap state = .ok m0) : mapWF m0 := by
  unfold buildInitialTeamStatusMap at h
  refine foldlM_inv mapWF _ ?_ _ _ _ h ⟨by simp [alKeys], by simp⟩
  intro m team m' hstep hm
  simp only [] at hstep
  split at hstep
  next horg => simp at hstep
  next aff horg =>
    simp only [Except.ok.injEq] at hstep
    rw [← hstep]
    refine ⟨alKeys_nodup_alInsert _ _ _ hm.1, ?_⟩
    intro p hp
    rcases mem_alInsert hp with h1 | h1
    · rw [h1]
      exact ⟨rfl, teamWF_new _ _ _ _⟩
    · exact hm.2 p h1

theorem applyJudgementToStatus_mapWF (state : ContestState)
    (m : List (String × TeamStatus)) (j : Judgement) (st ft : Int)
    (m' : List (String × TeamStatus))
    (h : applyJudgementToStatus state m j st ft = .ok m')
    (hm : mapWF m) : mapWF m' := by
  unfold applyJudgementToStatus at h
  split at h
  next hsub =>
    simp only [Except.ok.injEq] at h
    rw [← h]
    exact hm
  next sub hsub =>
    split at h
    next hteam => simp at h
    next tstat hteam =>
      split at h
      next htime => simp at h
      next stime htime =>
        simp only [Except.ok.injEq] at h
        rw [← h]
        refine ⟨alKeys_nodup_alInsert _ _ _ hm.1, ?_⟩
        intro p hp
        rcases mem_alInsert hp with h1 | h1
        · rw [h1]
          refine ⟨?_, ?_⟩
          · rw [add_submission_team_id]
            exact (hm.2 (sub.team_id, tstat) (mem_of_alGet hteam)).1
          · exact add_submission_teamWF _ _ _ _ _ _ _
              (hm.2 (sub.team_id, tstat) (mem_of_alGet hteam)).2
        · exact hm.2 p h1

theorem foldJudgements_mapWF (state : ContestState) (st ft : Int)
    (js : List Judgement) (m0 m1 : List (String × TeamStatus))
    (h : js.foldlM
      (fun m j => applyJudgementToStatus state m j st ft) m0 = .ok m1)
    (hm : mapWF m0) : mapWF m1 := by
  refine foldlM_inv mapWF _ ?_ js m0 m1 h hm
  intro a b a' hstep hp
  exact applyJudgementToStatus_mapWF state a b st ft a' hstep hp

/-- The remaining projections of the `recompute_team_totals` fold. -/
theorem recompute_foldl_more :
    ∀ (l : List (String × ProblemStat)) (t : TeamStatus),
      ((List.foldl (fun t p =>
        let stat := p.2
        if stat.solved then
          { t with
            total_points := t.total_points + 1
            total_penalty := t.total_penalty + stat.penalty
            last_ac_time :=
              match stat.first_ac_time with
              | some ac_time =>
                if t.last_ac_time.all (fun last => ac_time > last) then
                  some ac_time
                else t.last_ac_time
              | none => t.last_ac_time }
        else t) t l).total_points
          = t.total_points + cntSolvedF l) ∧
      ((List.foldl (fun t p =>
        let stat := p.2
        if stat.solved then
          { t with
            total_points := t.total_points + 1
            total_penalty := t.total_penalty + stat.penalty
            last_ac_time :=
              match stat.first_ac_time with
              | some ac_time =>
                if t.last_ac_time.all (fun last => ac_time > last) then
                  some ac_time
                else t.last_ac_time
              | none => t.last_ac_time }
        else t) t l).last_ac_time
          = (acSolvedL l).foldl (fun acc u =>
              if acc.all (fun last => u > last) then some u else acc)
              t.last_ac_time) ∧
      ((List.foldl (fun t p =>
        let stat := p.2
        if stat.solved then
          { t with
            total_points := t.total_points + 1
            total_penalty := t.total_penalty + stat.penalty
            last_ac_time :=
              match stat.first_ac_time with
              | some ac_time =>
                if t.last_ac_time.all (fun last => ac_time > last) then
                  some ac_time
                else t.last_ac_time
              | none => t.last_ac_time }
        else t) t l).sortorder = t.sortorder) ∧
      ((List.foldl (fun t p =>
        let stat := p.2
        if stat.solved then
          { t with
            total_points := t.total_points + 1
            total_penalty := t.total_penalty + stat.penalty
            last_ac_time :=
              match stat.first_ac_time with
              | some ac_time =>
                if t.last_ac_time.all (fun last => ac_time > last) then
                  some ac_time
                else t.last_ac_time
              | none => t.last_ac_time }
        else t) t l).team_name = t.team_name) ∧
      ((List.foldl (fun t p =>
        let stat := p.2
        if stat.solved then
          { t with
            total_points := t.total_points + 1
            total_penalty := t.total_penalty + stat.penalty
            last_ac_time :=
              match stat.first_ac_time with
              | some ac_time =>
                if t.last_ac_time.all (fun last => ac_time > last) then
                  some ac_time
                else t.last_ac_time
              | none => t.last_ac_time }
        else t) t l).team_affiliation = t.team_affiliation) ∧
      ((List.foldl (fun t p =>
        let stat := p.2
        if stat.solved then
          { t with
            total_points := t.total_points + 1
            total_penalty := t.total_penalty + stat.penalty
            last_ac_time :=
              match stat.first_ac_time with
              | some ac_time =>
                if t.last_ac_time.all (fun last => ac_time > last) then
                  some ac_time
                else t.last_ac_time
              | none => t.last_ac_time }
        else t) t l).problem_stats = t.problem_stats) := by
  intro l
  induction l with
  | nil => intro t; simp [cntSolvedF, acSolvedL, sumBy]
  | cons p rest ih =>
    intro t
    rw [List.foldl_cons]
    have hcnt : cntSolvedF (p :: rest) =
        (if p.2.solved = true then 1 else 0) + cntSolvedF rest := by
      unfold cntSolvedF sumBy
      rw [List.map_cons, List.sum_cons]
    have hac : acSolvedL (p :: rest) =
        match (if p.2.solved = true then p.2.first_ac_time else none) with
        | none => acSolvedL rest
        | some u => u :: acSolvedL rest := by
      unfold acSolvedL
      rw [List.filterMap_cons]
      cases (if p.2.solved = true then p.2.first_ac_time else none) <;> rfl
    refine ⟨?_, ?_, ?_, ?_, ?_, ?_⟩
    · rw [(ih _).1, hcnt]
      by_cases hs : p.2.solved <;> simp [hs] <;> omega
    · rw [(ih _).2.1, hac]
      by_cases hs : p.2.solved
      · cases hfa : p.2.first_ac_time with
        | none => simp [hs, hfa]
        | some u =>
          simp only [hs, if_pos, hfa, if_true, List.foldl_cons]
      · have hs2 : p.2.solved = false := by
          cases hzz : p.2.solved
          · rfl
          · exact absurd hzz hs
        simp [hs2]
    · rw [(ih _).2.2.1]
      by_cases hs : p.2.solved <;> simp [hs]
    · rw [(ih _).2.2.2.1]
      by_cases hs : p.2.solved <;> simp [hs]
    · rw [(ih _).2.2.2.2.1]
      by_cases hs : p.2.solved <;> simp [hs]
    · rw [(ih _).2.2.2.2.2]
      by_cases hs : p.2.solved <;> simp [hs]

theorem recomputeStatusTotals_points (ts : TeamStatus) :
    (recomputeStatusTotals ts).total_points =
      cntSolvedF ts.problem_stats := by
  unfold recomputeStatusTotals
  rw [(recompute_foldl_more _ _).1]
  simp

theorem recomputeStatusTotals_last (ts : TeamStatus) :
    (recomputeStatusTotals ts).last_ac_time =
      acMax (acSolvedL ts.problem_stats) := by
  unfold recomputeStatusTotals
  rw [(recompute_foldl_more _ _).2.1]
  rfl

theorem recomputeStatusTotals_sortorder (ts : TeamStatus) :
    (recomputeStatusTotals ts).sortorder = ts.sortorder := by
  unfold recomputeStatusTotals
  rw [(recompute_foldl_more _ _).2.2.1]

theorem recomputeStatusTotals_name (ts : TeamStatus) :
    (recomputeStatusTotals ts).team_name = ts.team_name := by
  unfold recomputeStatusTotals
  rw [(recompute_foldl_more _ _).2.2.2.1]

theorem recomputeStatusTotals_affiliation (ts : TeamStatus) :
    (recomputeStatusTotals ts).team_affiliation = ts.team_affiliation := by
  unfold recomputeStatusTotals
  rw [(recompute_foldl_more _ _).2.2.2.2.1]

theorem recomputeStatusTotals_stats (ts : TeamStatus) :
    (recomputeStatusTotals ts).problem_stats = ts.problem_stats := by
  unfold recomputeStatusTotals
  rw [(recompute_foldl_more _ _).2.2.2.2.2]

/-- The finalized recomputation realises exactly the eventual view of a
status: same identity fields, and totals re-aggregated over every solved
stat. -/
theorem projT_recompute (v : TeamStatus) :
    projT (recomputeStatusTotals v) = finView v := by
  refine TeamStatus.ext ?_ ?_ ?_ ?_ ?_ ?_ ?_ rfl
  · exact recomputeStatusTotals_team_id v
  · exact recomputeStatusTotals_name v
  · exact recomputeStatusTotals_affiliation v
  · exact recomputeStatusTotals_sortorder v
  · exact recomputeStatusTotals_points v
  · exact recomputeStatusTotals_penalty v
  · exact recomputeStatusTotals_last v

theorem cntSolvedF_nonneg (stats : List (String × ProblemStat)) :
    0 ≤ cntSolvedF stats := by
  refine sumBy_nonneg _ stats ?_
  intro p _
  by_cases hc : p.2.solved <;> simp [hc]

theorem cntSolvedF_zero_iff (stats : List (String × ProblemStat))
    (hsome : ∀ p ∈ stats, p.2.solved = true →
      ∃ t, p.2.first_ac_time = some t) :
    (cntSolvedF stats = 0 ↔ acSolvedL stats = []) := by
  induction stats with
  | nil => simp [cntSolvedF, acSolvedL, sumBy]
  | cons p rest ih =>
    have hrest := ih (fun q hq => hsome q (List.mem_cons_of_mem p hq))
    have hn := cntSolvedF_nonneg rest
    have hcnt : cntSolvedF (p :: rest) =
        (if p.2.solved = true then 1 else 0) + cntSolvedF rest := by
      unfold cntSolvedF sumBy
      rw [List.map_cons, List.sum_cons]
    have hac : acSolvedL (p :: rest) =
        match (if p.2.solved = true then p.2.first_ac_time else none) with
        | none => acSolvedL rest
        | some t => t :: acSolvedL rest := by
      unfold acSolvedL
      rw [List.filterMap_cons]
      cases (if p.2.solved = true then p.2.first_ac_time else none) <;> rfl
    rw [hcnt, hac]
    by_cases hc : p.2.solved = true
    · simp only [if_pos hc]
      obtain ⟨t, ht⟩ := hsome p (List.mem_cons_self p rest) hc
      rw [ht]
      simp only []
      constructor
      · intro h
        exact absurd h (by omega)
      · intro h
        simp at h
    · simp only [if_neg hc]
      rw [zero_add]
      exact hrest

theorem acMax_eq_none_iff (l : List Int) : acMax l = none ↔ l = [] := by
  constructor
  · intro h
    have := acMax_isMaxOf l
    rw [h] at this
    exact this
  · intro h
    rw [h]
    rfl

/-- The recomputed status stays within the comparator's lawful domain. -/
theorem teamCmpOK_recompute (v : TeamStatus) (hw : teamWF v) :
    teamCmpOK (recomputeStatusTotals v) := by
  unfold teamCmpOK
  rw [recomputeStatusTotals_points, recomputeStatusTotals_last,
    cntSolvedF_zero_iff _ hw.2.2.2.1, acMax_eq_none_iff]

theorem sumBy_congr {α : Type} (f g : α → Int) (m : List (String × α))
    (h : ∀ p ∈ m, f p.2 = g p.2) : sumBy f m = sumBy g m := by
  unfold sumBy
  induction m with
  | nil => rfl
  | cons p rest ih =>
    rw [List.map_cons, List.map_cons, List.sum_cons, List.sum_cons,
      h p (List.mem_cons_self p rest),
      ih (fun q hq => h q (List.mem_cons_of_mem p hq))]

theorem filterMap_congr_mem {α β : Type} (f g : α → Option β)
    (l : List α) (h : ∀ a ∈ l, f a = g a) :
    l.filterMap f = l.filterMap g := by
  induction l with
  | nil => rfl
  | cons a rest ih =>
    rw [List.filterMap_cons, List.filterMap_cons,
      h a (List.mem_cons_self a rest),
      ih (fun b hb => h b (List.mem_cons_of_mem a hb))]

theorem clean_stats {t : TeamStatus}
    (hc : team_has_pending_freeze t = false) :
    ∀ p ∈ t.problem_stats, p.2.attempted_during_freeze = false := by
  intro p hp
  unfold team_has_pending_freeze at hc
  rw [List.any_eq_false] at hc
  have := hc p hp
  simpa using this

/-- On a fully revealed well-formed team the stored totals agree with the
eventual view. -/
theorem projT_eq_finView_of_clean (t : TeamStatus) (hw : teamWF t)
    (hc : team_has_pending_freeze t = false) : projT t = finView t := by
  obtain ⟨hP, hPen, hMax, hSome, hNd⟩ := hw
  have hst := clean_stats hc
  have h1 : cntUnfrozen t.problem_stats = cntSolvedF t.problem_stats := by
    unfold cntUnfrozen cntSolvedF
    exact sumBy_congr _ _ _ (fun p hp => by simp [hst p hp])
  have h2 : sumBy penUnfrozen t.problem_stats =
      sumBy penSolved t.problem_stats :=
    sumBy_congr _ _ _ (fun p hp => by
      simp [penUnfrozen, penSolved, hst p hp])
  have h3 : acUnfrozen t.problem_stats = acSolvedL t.problem_stats := by
    unfold acUnfrozen acSolvedL
    exact filterMap_congr_mem _ _ _ (fun p hp => by simp [hst p hp])
  refine TeamStatus.ext rfl rfl rfl rfl ?_ ?_ ?_ rfl
  · show t.total_points = cntSolvedF t.problem_stats
    rw [hP, h1]
  · show t.total_penalty = sumBy penSolved t.problem_stats
    rw [hPen, h2]
  · show t.last_ac_time = acMax (acSolvedL t.problem_stats)
    rw [h3] at hMax
    exact isMaxOf_unique _ _ _ hMax (acMax_isMaxOf _)
/-! ## C1: reveal-machine step helpers -/

theorem alInsert_alInsert {α : Type} (m : List (String × α)) (k : String)
    (v w : α) : alInsert (alInsert m k v) k w = alInsert m k w := by
  induction m with
  | nil => simp [alInsert]
  | cons q rest ih =>
    by_cases hq : q.1 = k
    · simp [alInsert, hq]
    · simp only [alInsert, if_neg hq]
      rw [ih]

theorem stat_reflag (s : ProblemStat)
    (h : s.attempted_during_freeze = true) :
    ({ s with attempted_during_freeze := true } : ProblemStat) = s := by
  rw [← h]

theorem pairwise_set_cmp (board : List TeamStatus) (idx : Nat)
    (t' : TeamStatus)
    (hcmp : ∀ b, teamStatusCmp t' b =
        teamStatusCmp (board.getD idx default) b ∧
      teamStatusCmp b t' = teamStatusCmp b (board.getD idx default))
    (hs : board.Pairwise (fun a b => teamStatusCmp a b ≠ .gt)) :
    (board.set idx t').Pairwise (fun a b => teamStatusCmp a b ≠ .gt) := by
  rw [List.pairwise_iff_getElem] at hs ⊢
  intro i j hi hj hij
  have hi2 : i < board.length := by simpa using hi
  have hj2 : j < board.length := by simpa using hj
  by_cases hix : i = idx
  · have e1 : (board.set idx t')[i] = t' := by
      subst hix
      exact List.getElem_set_self _
    by_cases hjx : j = idx
    · omega
    · have e2 : (board.set idx t')[j] = board[j] :=
        List.getElem_set_ne (by omega) hj
      have hidx2 : idx < board.length := hix ▸ hi2
      have e3 : board.getD idx default = board[idx] :=
        List.getD_eq_getElem _ _ hidx2
      rw [e1, e2, (hcmp (board[j])).1, e3]
      exact hs idx j hidx2 hj2 (by omega)
  · have e1 : (board.set idx t')[i] = board[i] :=
      List.getElem_set_ne (by omega) hi
    by_cases hjx : j = idx
    · have e2 : (board.set idx t')[j] = t' := by
        subst hjx
        exact List.getElem_set_self _
      have hidx2 : idx < board.length := hjx ▸ hj2
      have e3 : board.getD idx default = board[idx] :=
        List.getD_eq_getElem _ _ hidx2
      rw [e1, e2, (hcmp (board[i])).2, e3]
      exact hs i idx hi2 hidx2 (by omega)
    · have e2 : (board.set idx t')[j] = board[j] :=
        List.getElem_set_ne (by omega) hj
      rw [e1, e2]
      exact hs i j hi2 hj2 hij

theorem mem_set_nodup (board : List TeamStatus) (idx : Nat)
    (t' : TeamStatus) (hlen : idx < board.length)
    (hid : t'.team_id = (board.getD idx default).team_id)
    (hnd : (board.map (fun t => t.team_id)).Nodup)
    (x : TeamStatus) (hx : x ∈ board.set idx t') :
    x = t' ∨ (x ∈ board ∧ x.team_id ≠ t'.team_id) := by
  obtain ⟨j, hj, hxe⟩ := List.mem_iff_getElem.mp hx
  rw [List.length_set] at hj
  by_cases hji : j = idx
  · left
    subst hji
    rw [← hxe]
    exact List.getElem_set_self _
  · right
    have hxe2 : board[j] = x := by
      rw [← hxe, List.getElem_set_ne (by omega)]
    refine ⟨by rw [← hxe2]; exact List.getElem_mem _, ?_⟩
    rw [hid, List.getD_eq_getElem _ _ hlen]
    intro hco
    apply hji
    have hjm : j < (board.map (fun t => t.team_id)).length := by
      simpa using hj
    have hlm : idx < (board.map (fun t => t.team_id)).length := by
      simpa using hlen
    have h1 : (board.map (fun t => t.team_id))[j] = x.team_id := by
      rw [List.getElem_map _, hxe2]
    have h2 : (board.map (fun t => t.team_id))[idx] =
        board[idx].team_id := List.getElem_map _
    exact hnd.getElem_inj_iff.mp (by rw [h1, h2, hco])

theorem updateFirstTeam_map_eq {β : Type} (G : TeamStatus → β)
    (tid : String) (f : TeamStatus → TeamStatus) :
    ∀ (board : List TeamStatus),
      (∀ t ∈ board, t.team_id = tid → G (f t) = G t) →
      (updateFirstTeam board tid f).map G = board.map G := by
  intro board
  induction board with
  | nil => intro _; rfl
  | cons t rest ih =>
    intro h
    unfold updateFirstTeam
    by_cases ht : t.team_id = tid
    · rw [if_pos ht, List.map_cons, List.map_cons,
        h t (List.mem_cons_self t rest) ht]
    · rw [if_neg ht, List.map_cons, List.map_cons,
        ih (fun u hu => h u (List.mem_cons_of_mem t hu))]

theorem updateFirstTeam_mem_nodup (tid : String)
    (f : TeamStatus → TeamStatus) :
    ∀ (board : List TeamStatus),
      (board.map (fun t => t.team_id)).Nodup →
      ∀ x ∈ updateFirstTeam board tid f,
        (∃ t ∈ board, t.team_id = tid ∧ x = f t) ∨
          (x ∈ board ∧ x.team_id ≠ tid) := by
  intro board
  induction board with
  | nil =>
    intro _ x hx
    simp [updateFirstTeam] at hx
  | cons t rest ih =>
    intro hnd x hx
    rw [List.map_cons, List.nodup_cons] at hnd
    unfold updateFirstTeam at hx
    by_cases ht : t.team_id = tid
    · rw [if_pos ht] at hx
      rcases List.mem_cons.mp hx with h | h
      · exact Or.inl ⟨t, List.mem_cons_self t rest, ht, h⟩
      · right
        refine ⟨List.mem_cons_of_mem t h, ?_⟩
        intro hcx
        apply hnd.1
        have : x.team_id ∈ rest.map (fun u => u.team_id) :=
          List.mem_map_of_mem _ h
        rw [hcx, ← ht] at this
        exact this
    · rw [if_neg ht] at hx
      rcases List.mem_cons.mp hx with h | h
      · right
        subst h
        exact ⟨List.mem_cons_self x rest, ht⟩
      · rcases ih hnd.2 x h with h2 | h2
        · obtain ⟨u, hu, hut, hxu⟩ := h2
          exact Or.inl ⟨u, List.mem_cons_of_mem t hu, hut, hxu⟩
        · exact Or.inr ⟨List.mem_cons_of_mem t h2.1, h2.2⟩

theorem apply_solved_team_id (t : TeamStatus) (pid : String) :
    (apply_solved_problem_score t pid).2.team_id = t.team_id := by
  unfold apply_solved_problem_score
  repeat' split
  all_goals rfl

/-- `finView` ignores the freeze flag and the submission counter: replacing
one stored stat by one with the same `solved`, `penalty` and
`first_ac_time` leaves the eventual view unchanged. -/
theorem finView_insert_congr (t : TeamStatus) (pid : String)
    (s0 s1 : ProblemStat) (hget : alGet t.problem_stats pid = some s0)
    (hs : s1.solved = s0.solved) (hp : s1.penalty = s0.penalty)
    (hf : s1.first_ac_time = s0.first_ac_time) :
    finView { t with problem_stats := alInsert t.problem_stats pid s1 } =
      finView t := by
  have hcnt : cntSolvedF (alInsert t.problem_stats pid s1) =
      cntSolvedF t.problem_stats := by
    unfold cntSolvedF
    exact sumBy_insert_same _ _ _ _ _ hget (by simp [hs])
  have hpen : sumBy penSolved (alInsert t.problem_stats pid s1) =
      sumBy penSolved t.problem_stats :=
    sumBy_insert_same _ _ _ _ _ hget (by simp [penSolved, hs, hp])
  have hacl : acSolvedL (alInsert t.problem_stats pid s1) =
      acSolvedL t.problem_stats := by
    obtain ⟨l1, l2, ha, hb⟩ := filterMap_alInsert
      (fun p => if p.2.solved then p.2.first_ac_time else none)
      t.problem_stats pid s0 s1 hget
    simp only [] at ha hb
    unfold acSolvedL
    rw [hb, hs, hf, ha]
  refine TeamStatus.ext rfl rfl rfl rfl ?_ ?_ ?_ rfl
  · exact hcnt
  · exact hpen
  · show acMax (acSolvedL (alInsert t.problem_stats pid s1)) =
      acMax (acSolvedL t.problem_stats)
    rw [hacl]

/-- Case analysis of one reveal: a freshly revealed solved stat leaves the
team in debt, any other outcome keeps it well-formed; the eventual view,
the team id and all comparator inputs never change. -/
theorem reveal_cases (team : TeamStatus) (pid : String)
    (hw : teamWF team) :
    ((reveal_problem_result team pid).1 = some true →
      teamDebt (reveal_problem_result team pid).2 pid) ∧
    ((reveal_problem_result team pid).1 ≠ some true →
      teamWF (reveal_problem_result team pid).2) ∧
    finView (reveal_problem_result team pid).2 = finView team ∧
    (reveal_problem_result team pid).2.team_id = team.team_id ∧
    (∀ b, teamStatusCmp (reveal_problem_result team pid).2 b =
        teamStatusCmp team b ∧
      teamStatusCmp b (reveal_problem_result team pid).2 =
        teamStatusCmp b team) := by
  unfold reveal_problem_result
  split
  next hget =>
    exact ⟨by simp, fun _ => hw, rfl, rfl, fun b => ⟨rfl, rfl⟩⟩
  next stat hget =>
    by_cases hfr : stat.attempted_during_freeze = true
    · rw [if_neg (by simp [hfr])]
      refine ⟨?_, ?_, ?_, rfl, fun b => ⟨rfl, rfl⟩⟩
      · intro hst
        have hsol : stat.solved = true := by simpa using hst
        unfold teamDebt
        refine ⟨{ stat with attempted_during_freeze := false },
          alGet_alInsert_self _ _ _, hsol, rfl, ?_⟩
        have he : ({ team with problem_stats :=
            (alInsert (alInsert team.problem_stats pid
              { stat with attempted_during_freeze := false }) pid
              { stat with attempted_during_freeze := true }) } :
              TeamStatus) = team := by
          refine TeamStatus.ext rfl rfl rfl rfl rfl rfl rfl ?_
          show alInsert (alInsert team.problem_stats pid
              { stat with attempted_during_freeze := false }) pid
              { stat with attempted_during_freeze := true } =
            team.problem_stats
          rw [alInsert_alInsert, stat_reflag stat hfr,
            alInsert_self_of_get _ _ _ hget]
        exact cast (congrArg teamWF he.symm) hw
      · intro hst
        have hsol : stat.solved = false := by
          cases hzz : stat.solved
          · rfl
          · exact absurd (by rw [hzz]) hst
        obtain ⟨hP, hPen, hMax, hSome, hNd⟩ := hw
        exact teamWF_of_insert_eq team team.problem_stats pid stat
          { stat with attempted_during_freeze := false } hget hP hPen hMax
          hSome hNd (by simp [hsol]) (by simp [penUnfrozen, hsol])
          (by simp [hsol]) (by simp [hsol])
          (fun h => absurd h (by simp [hsol]))
      · exact finView_insert_congr team pid stat
          { stat with attempted_during_freeze := false } hget rfl rfl rfl
    · rw [if_pos (by simp [hfr])]
      exact ⟨by simp, fun _ => hw, rfl, rfl, fun b => ⟨rfl, rfl⟩⟩

/-- Applying the score of a revealed solved problem turns the debt back
into full well-formedness without moving the eventual view. -/
theorem apply_restores (t : TeamStatus) (pid : String)
    (hd : teamDebt t pid) :
    teamWF (apply_solved_problem_score t pid).2 ∧
    finView (apply_solved_problem_score t pid).2 = finView t ∧
    (apply_solved_problem_score t pid).2.team_id = t.team_id := by
  obtain ⟨stat, hget, hsol, hfl, hwflag⟩ := hd
  have hP : t.total_points = cntUnfrozen (alInsert t.problem_stats pid
      { stat with attempted_during_freeze := true }) := hwflag.1
  have hPen : t.total_penalty = sumBy penUnfrozen
      (alInsert t.problem_stats pid
        { stat with attempted_during_freeze := true }) := hwflag.2.1
  have hMax : isMaxOf t.last_ac_time (acUnfrozen
      (alInsert t.problem_stats pid
        { stat with attempted_during_freeze := true })) := hwflag.2.2.1
  have hSome : ∀ p ∈ alInsert t.problem_stats pid
      { stat with attempted_during_freeze := true },
      p.2.solved = true → ∃ t2, p.2.first_ac_time = some t2 :=
    hwflag.2.2.2.1
  have hNd : (alKeys (alInsert t.problem_stats pid
      { stat with attempted_during_freeze := true })).Nodup :=
    hwflag.2.2.2.2
  obtain ⟨ac, hac⟩ := hSome (pid, { stat with
      attempted_during_freeze := true })
    (mem_of_alGet (alGet_alInsert_self _ _ _)) hsol
  have hac2 : stat.first_ac_time = some ac := hac
  unfold apply_solved_problem_score
  rw [hget]
  simp only []
  rw [if_neg (by simp [hsol]), hac2]
  have hstats : alInsert (alInsert t.problem_stats pid
      { stat with attempted_during_freeze := true }) pid stat =
      t.problem_stats := by
    rw [alInsert_alInsert, alInsert_self_of_get _ _ _ hget]
  have hmain := teamWF_of_insert_solved t
    (alInsert t.problem_stats pid
      { stat with attempted_during_freeze := true }) pid
    { stat with attempted_during_freeze := true } stat ac
    (alGet_alInsert_self _ _ _) hP hPen hMax hSome hNd
    (by simp) (by simp [penUnfrozen]) (by simp)
    (by simp [hsol, hfl]) (by simp [penUnfrozen, hsol, hfl])
    (by simp [hsol, hfl, hac2]) ⟨ac, hac2⟩
  have hrec : ({ t with
      total_points := t.total_points + 1
      total_penalty := t.total_penalty + stat.penalty
      last_ac_time := if t.last_ac_time.all (fun last => ac > last)
        then some ac else t.last_ac_time
      problem_stats := alInsert (alInsert t.problem_stats pid
        { stat with attempted_during_freeze := true }) pid stat } :
        TeamStatus) =
      { t with
        total_points := t.total_points + 1
        total_penalty := t.total_penalty + stat.penalty
        last_ac_time := if t.last_ac_time.all (fun last => ac > last)
          then some ac else t.last_ac_time } := by
    refine TeamStatus.ext rfl rfl rfl rfl rfl rfl rfl ?_
    exact hstats
  rw [hrec] at hmain
  exact ⟨hmain, rfl, rfl⟩

/-- `resort_leaderboard` sorts the board by the comparator and permutes
it. -/
theorem resort_sorted (board : List TeamStatus)
    (hok : ∀ t ∈ board, teamCmpOK t) :
    (resort_leaderboard board).Pairwise
      (fun a b => teamStatusCmp a b ≠ .gt) ∧
    (resort_leaderboard board).Perm board := by
  refine ⟨?_, stableSortBy_perm _ board⟩
  have hpw := pairwise_stableSortBy
    (fun a b => teamStatusCmp a b = .lt) board ?_ ?_
  · unfold resort_leaderboard
    refine List.Pairwise.imp_of_mem ?_ hpw
    intro a b ha hb hr
    have ha2 : a ∈ board := (stableSortBy_perm _ board).mem_iff.mp ha
    have hb2 : b ∈ board := (stableSortBy_perm _ board).mem_iff.mp hb
    have hr2 : ¬ teamStatusCmp b a = .lt := by simpa using hr
    intro hgt
    exact hr2 ((teamStatusCmp_swap_ok a b (hok a ha2) (hok b hb2)).mp hgt)
  · intro x hx y hy h1
    have h2 : teamStatusCmp x y = .lt := by simpa using h1
    have h3 : ¬ teamStatusCmp y x = .lt := by
      intro hc
      have := (teamStatusCmp_swap_ok y x (hok y hy) (hok x hx)).mpr h2
      rw [this] at hc
      exact absurd hc (by simp)
    simpa using h3
  · intro x hx y hy z hz h1 h2
    have h1p : ¬ teamStatusCmp x y = .lt := by simpa using h1
    have h2p : ¬ teamStatusCmp y z = .lt := by simpa using h2
    have hyx : teamStatusCmp y x ≠ .gt := fun hc =>
      h1p ((teamStatusCmp_swap_ok y x (hok y hy) (hok x hx)).mp hc)
    have hzy : teamStatusCmp z y ≠ .gt := fun hc =>
      h2p ((teamStatusCmp_swap_ok z y (hok z hz) (hok y hy)).mp hc)
    have hzx : teamStatusCmp z x ≠ .gt :=
      teamStatusCmp_trans_ok z y x (hok z hz) (hok y hy) (hok x hx)
        hzy hyx
    have h3 : ¬ teamStatusCmp x z = .lt := fun hc =>
      hzx ((teamStatusCmp_swap_ok z x (hok z hz) (hok x hx)).mpr hc)
    simpa using h3
theorem set_getD_self {α : Type} (d : α) :
    ∀ (l : List α) (i : Nat), i < l.length → l.set i (l.getD i d) = l := by
  intro l
  induction l with
  | nil =>
    intro i h
    simp at h
  | cons a rest ih =>
    intro i h
    cases i with
    | zero => simp [List.getD]
    | succ n =>
      simp only [List.set_cons_succ, List.getD_cons_succ]
      rw [ih n (by simpa using h)]

theorem map_set_same {β : Type} (G : TeamStatus → β)
    (board : List TeamStatus) (ci : Nat) (t' : TeamStatus)
    (h : ci < board.length)
    (hG : G t' = G (board.getD ci default)) :
    (board.set ci t').map G = board.map G := by
  rw [List.map_set, hG]
  have h2 : ci < (board.map G).length := by simpa using h
  have h3 : G (board.getD ci default) =
      (board.map G).getD ci (G default) := by
    rw [List.getD_eq_getElem _ _ h, List.getD_eq_getElem _ _ h2,
      List.getElem_map _]
  rw [h3]
  exact set_getD_self (G default) (board.map G) ci h2

/-- Per-phase well-formedness of the board: between the reveal of a solved
problem and its score application exactly the acting team is in debt. -/
def boardWF (board : List TeamStatus) : SpacePhase → Prop
  | .ApplyPostReveal (some tp) _ _ =>
    ∀ t ∈ board, (t.team_id = tp.1 → teamDebt t tp.2) ∧
      (t.team_id ≠ tp.1 → teamWF t)
  | _ => ∀ t ∈ board, teamWF t

/-- Invariant carried across every `advance_space_phase` step: distinct
team ids, a board sorted by the comparator, per-phase well-formedness, and
a fully revealed board once the machine is `Finished`. -/
def MInv (flow : PresentFlowState) (board : List TeamStatus) : Prop :=
  (board.map (fun t => t.team_id)).Nodup ∧
  board.Pairwise (fun a b => teamStatusCmp a b ≠ .gt) ∧
  boardWF board flow.space_phase ∧
  (flow.space_phase = .Finished →
    ∀ t ∈ board, team_has_pending_freeze t = false)
theorem clean_of_any_false (l : List TeamStatus)
    (h : l.any team_has_pending_freeze = false) :
    ∀ t ∈ l, team_has_pending_freeze t = false := by
  rw [List.any_eq_false] at h
  intro t ht
  have := h t ht
  simpa using this

/-- One `advance_space_phase` step preserves the machine invariant and the
multiset of eventual team views. -/
theorem advance_preserves (flow : PresentFlowState)
    (board : List TeamStatus) (opids : List String)
    (awards : List (String × List String)) (flow' : PresentFlowState)
    (board' : List TeamStatus)
    (awards' : List (String × List String)) (out : AdvanceOutcome)
    (h : advance_space_phase flow board opids awards =
      some (flow', board', awards', out))
    (hinv : MInv flow board) :
    MInv flow' board' ∧ (board'.map finView).Perm (board.map finView) := by
  obtain ⟨hnd, hsort, hwf, hfin⟩ := hinv
  have hlen : 0 < board.length := by
    cases hb : board with
    | nil =>
      rw [hb] at h
      simp [advance_space_phase] at h
    | cons x rest => simp [hb]
  have hne : board.isEmpty = false := by
    cases board with
    | nil => simp at hlen
    | cons a l => rfl
  unfold advance_space_phase at h
  rw [if_neg (by simp [hne])] at h
  simp only [Option.some.injEq] at h
  cases hph : flow.space_phase with
  | Finished =>
    rw [hph] at h hwf hfin
    simp only [] at h
    simp only [Prod.mk.injEq] at h
    obtain ⟨hf, hb, ha2, ho⟩ := h
    subst hf
    subst hb
    subst ha2
    subst ho
    refine ⟨⟨hnd, hsort, ?_, ?_⟩, List.Perm.refl _⟩
    · exact hwf
    · intro _
      exact hfin rfl
  | ShowAward tid cit ni si =>
    rw [hph] at h hwf
    simp only [] at h
    simp only [Prod.mk.injEq] at h
    obtain ⟨hf, hb, ha2, ho⟩ := h
    subst hf
    subst hb
    subst ha2
    subst ho
    refine ⟨⟨hnd, hsort, ?_, ?_⟩, List.Perm.refl _⟩
    · exact hwf
    · intro hc
      simp at hc
  | PendingAward tid cit ni si =>
    rw [hph] at h hwf
    simp only [] at h
    simp only [Prod.mk.injEq] at h
    obtain ⟨hf, hb, ha2, ho⟩ := h
    subst hf
    subst hb
    subst ha2
    subst ho
    refine ⟨⟨hnd, hsort, ?_, ?_⟩, List.Perm.refl _⟩
    · exact hwf
    · intro hc
      simp at hc
  | PostAwardScroll ni si =>
    rw [hph] at h hwf
    simp only [] at h
    split at h
    next hany =>
      simp only [Prod.mk.injEq] at h
      obtain ⟨hf, hb, ha2, ho⟩ := h
      subst hf
      subst hb
      subst ha2
      subst ho
      refine ⟨⟨hnd, hsort, ?_, ?_⟩, List.Perm.refl _⟩
      · exact hwf
      · intro hc
        simp at hc
    next hany =>
      simp only [Prod.mk.injEq] at h
      obtain ⟨hf, hb, ha2, ho⟩ := h
      subst hf
      subst hb
      subst ha2
      subst ho
      refine ⟨⟨hnd, hsort, ?_, ?_⟩, List.Perm.refl _⟩
      · exact hwf
      · intro _
        exact clean_of_any_false board (by simpa using hany)
  | ApplyPostReveal sr ni si =>
    rw [hph] at h hwf
    cases sr with
    | none =>
      simp only [] at h
      split at h
      next hany =>
        simp only [Prod.mk.injEq] at h
        obtain ⟨hf, hb, ha2, ho⟩ := h
        subst hf
        subst hb
        subst ha2
        subst ho
        refine ⟨⟨hnd, hsort, ?_, ?_⟩, List.Perm.refl _⟩
        · exact hwf
        · intro hc
          simp at hc
      next hany =>
        simp only [Prod.mk.injEq] at h
        obtain ⟨hf, hb, ha2, ho⟩ := h
        subst hf
        subst hb
        subst ha2
        subst ho
        refine ⟨⟨hnd, hsort, ?_, ?_⟩, List.Perm.refl _⟩
        · exact hwf
        · intro _
          exact clean_of_any_false board (by simpa using hany)
    | some tp =>
      obtain ⟨tid, pid⟩ := tp
      simp only [] at h
      have hwf2 : ∀ t ∈ board, (t.team_id = tid → teamDebt t pid) ∧
          (t.team_id ≠ tid → teamWF t) := hwf
      have hwb1 : ∀ x ∈ updateFirstTeam board tid
          (fun team => (apply_solved_problem_score team pid).2),
          teamWF x := by
        intro x hx
        rcases updateFirstTeam_mem_nodup tid _ board hnd x hx with
          ⟨t, htm, htid, hxe⟩ | ⟨hxm, hxne⟩
        · rw [hxe]
          exact (apply_restores t pid ((hwf2 t htm).1 htid)).1
        · exact (hwf2 x hxm).2 hxne
      have hid1 : (updateFirstTeam board tid
          (fun team => (apply_solved_problem_score team pid).2)).map
          (fun t => t.team_id) = board.map (fun t => t.team_id) :=
        updateFirstTeam_map_eq _ tid _ board
          (fun t _ _ => apply_solved_team_id t pid)
      have hfv1 : (updateFirstTeam board tid
          (fun team => (apply_solved_problem_score team pid).2)).map
          finView = board.map finView :=
        updateFirstTeam_map_eq finView tid _ board
          (fun t htm htid =>
            (apply_restores t pid ((hwf2 t htm).1 htid)).2.1)
      have hnd1 : ((updateFirstTeam board tid
          (fun team => (apply_solved_problem_score team pid).2)).map
          (fun t => t.team_id)).Nodup := by
        rw [hid1]
        exact hnd
      have hok1 : ∀ x ∈ updateFirstTeam board tid
          (fun team => (apply_solved_problem_score team pid).2),
          teamCmpOK x :=
        fun x hx => teamCmpOK_of_teamWF x (hwb1 x hx)
      obtain ⟨hsort2, hperm2⟩ := resort_sorted _ hok1
      have hwb2 : ∀ x ∈ resort_leaderboard (updateFirstTeam board tid
          (fun team => (apply_solved_problem_score team pid).2)),
          teamWF x :=
        fun x hx => hwb1 x (hperm2.mem_iff.mp hx)
      have hnd2 : ((resort_leaderboard (updateFirstTeam board tid
          (fun team => (apply_solved_problem_score team pid).2))).map
          (fun t => t.team_id)).Nodup :=
        ((hperm2.map (fun t => t.team_id)).nodup_iff).mpr hnd1
      have hfv2 : ((resort_leaderboard (updateFirstTeam board tid
          (fun team => (apply_solved_problem_score team pid).2))).map
          finView).Perm (board.map finView) := by
        have hp := hperm2.map finView
        rw [hfv1] at hp
        exact hp
      split at h
      next hany =>
        simp only [Prod.mk.injEq] at h
        obtain ⟨hf, hb, ha2, ho⟩ := h
        subst hf
        subst hb
        subst ha2
        subst ho
        refine ⟨⟨hnd2, hsort2, ?_, ?_⟩, hfv2⟩
        · exact hwb2
        · intro hc
          simp at hc
      next hany =>
        simp only [Prod.mk.injEq] at h
        obtain ⟨hf, hb, ha2, ho⟩ := h
        subst hf
        subst hb
        subst ha2
        subst ho
        refine ⟨⟨hnd2, hsort2, ?_, ?_⟩, hfv2⟩
        · exact hwb2
        · intro _
          exact clean_of_any_false _ (by simpa using hany)
  | RevealStep =>
    rw [hph] at h hwf
    have hwf2 : ∀ t ∈ board, teamWF t := hwf
    simp only [] at h
    split at h
    next hnop =>
      simp only [Prod.mk.injEq] at h
      obtain ⟨hf, hb, ha2, ho⟩ := h
      subst hf
      subst hb
      subst ha2
      subst ho
      refine ⟨⟨hnd, hsort, ?_, ?_⟩, List.Perm.refl _⟩
      · exact hwf
      · intro _
        exact clean_of_any_false board (by simpa using hnop)
    next hnop =>
      split at h
      next hidx =>
        simp only [Prod.mk.injEq] at h
        obtain ⟨hf, hb, ha2, ho⟩ := h
        subst hf
        subst hb
        subst ha2
        subst ho
        refine ⟨⟨hnd, hsort, ?_, ?_⟩, List.Perm.refl _⟩
        · exact hwf
        · intro hc
          simp at hc
      next hidx =>
        have hci : clamp_current_index flow.current_reveal_index
            board.length < board.length := by
          unfold clamp_current_index
          omega
        have hTmem : board.getD (clamp_current_index
            flow.current_reveal_index board.length) default ∈ board := by
          rw [List.getD_eq_getElem _ _ hci]
          exact List.getElem_mem _
        have hTwf : teamWF (board.getD (clamp_current_index
            flow.current_reveal_index board.length) default) :=
          hwf2 _ hTmem
        split at h
        next problem_id hfindeq =>
          obtain ⟨hdebt, hwfother, hfv, hid, hcmp⟩ :=
            reveal_cases (board.getD (clamp_current_index
              flow.current_reveal_index board.length) default) problem_id
              hTwf
          have hnd1 : ((board.set (clamp_current_index
              flow.current_reveal_index board.length)
              (reveal_problem_result (board.getD (clamp_current_index
                flow.current_reveal_index board.length) default)
                problem_id).2).map (fun t => t.team_id)).Nodup := by
            rw [map_set_same _ board _ _ hci hid]
            exact hnd
          have hsort1 := pairwise_set_cmp board (clamp_current_index
            flow.current_reveal_index board.length) _ hcmp hsort
          have hfv1 : ((board.set (clamp_current_index
              flow.current_reveal_index board.length)
              (reveal_problem_result (board.getD (clamp_current_index
                flow.current_reveal_index board.length) default)
                problem_id).2).map finView) = board.map finView :=
            map_set_same finView board _ _ hci hfv
          split at h
          next hrevT =>
            simp only [Prod.mk.injEq] at h
            obtain ⟨hf, hb, ha2, ho⟩ := h
            subst hf
            subst hb
            subst ha2
            subst ho
            refine ⟨⟨hnd1, hsort1, ?_, ?_⟩,
              by rw [hfv1]⟩
            · intro x hx
              rcases mem_set_nodup board _ _ hci hid hnd x hx with
                hxe | ⟨hxm, hxne⟩
              · subst hxe
                exact ⟨fun _ => hdebt hrevT, fun hne => absurd rfl hne⟩
              · exact ⟨fun he => absurd he hxne, fun _ => hwf2 x hxm⟩
            · intro hc
              simp at hc
          next hrevT =>
            split at h
            next hpend =>
              simp only [Prod.mk.injEq] at h
              obtain ⟨hf, hb, ha2, ho⟩ := h
              subst hf
              subst hb
              subst ha2
              subst ho
              refine ⟨⟨hnd1, hsort1, ?_, ?_⟩,
                by rw [hfv1]⟩
              · intro x hx
                rcases List.mem_or_eq_of_mem_set hx with hxm | hxe
                · exact hwf2 x hxm
                · rw [hxe]
                  exact hwfother hrevT
              · intro hc
                simp at hc
            next hpend =>
              split at h
              next tid2 cits hplan =>
                simp only [Prod.mk.injEq] at h
                obtain ⟨hf, hb, ha2, ho⟩ := h
                subst hf
                subst hb
                subst ha2
                subst ho
                refine ⟨⟨hnd1, hsort1, ?_, ?_⟩,
                  by rw [hfv1]⟩
                · intro x hx
                  rcases List.mem_or_eq_of_mem_set hx with hxm | hxe
                  · exact hwf2 x hxm
                  · rw [hxe]
                    exact hwfother hrevT
                · intro hc
                  simp at hc
              next hplan =>
                simp only [Prod.mk.injEq] at h
                obtain ⟨hf, hb, ha2, ho⟩ := h
                subst hf
                subst hb
                subst ha2
                subst ho
                refine ⟨⟨hnd1, hsort1, ?_, ?_⟩,
                  by rw [hfv1]⟩
                · intro x hx
                  rcases List.mem_or_eq_of_mem_set hx with hxm | hxe
                  · exact hwf2 x hxm
                  · rw [hxe]
                    exact hwfother hrevT
                · intro hc
                  simp at hc
        next hfindeq =>
          split at h
          next tid2 cits hplan =>
            simp only [Prod.mk.injEq] at h
            obtain ⟨hf, hb, ha2, ho⟩ := h
            subst hf
            subst hb
            subst ha2
            subst ho
            refine ⟨⟨hnd, hsort, ?_, ?_⟩, List.Perm.refl _⟩
            · exact hwf
            · intro hc
              simp at hc
          next hplan =>
            split at h
            next hany =>
              simp only [Prod.mk.injEq] at h
              obtain ⟨hf, hb, ha2, ho⟩ := h
              subst hf
              subst hb
              subst ha2
              subst ho
              refine ⟨⟨hnd, hsort, ?_, ?_⟩, List.Perm.refl _⟩
              · exact hwf
              · intro hc
                simp at hc
            next hany =>
              simp only [Prod.mk.injEq] at h
              obtain ⟨hf, hb, ha2, ho⟩ := h
              subst hf
              subst hb
              subst ha2
              subst ho
              refine ⟨⟨hnd, hsort, ?_, ?_⟩, List.Perm.refl _⟩
              · exact hwf
              · intro _
                exact clean_of_any_false board (by simpa using hany)
theorem advanceUntilFinished_eq (fuel : Nat) (flow : PresentFlowState)
    (board : List TeamStatus) (opids : List String)
    (awards : List (String × List String)) :
    advanceUntilFinished fuel flow board opids awards =
      match flow.space_phase with
      | .Finished => some board
      | _ =>
        match fuel with
        | 0 => none
        | fuel + 1 =>
          match advance_space_phase flow board opids awards with
          | none => none
          | some (flow2, board2, awards2, _) =>
            advanceUntilFinished fuel flow2 board2 opids awards2 := by
  obtain ⟨cri, ri, ph⟩ := flow
  cases ph <;> cases fuel <;> rfl

/-- Running the machine to `Finished` preserves the multiset of eventual
views and ends with a sorted, fully revealed, well-formed board. -/
theorem advanceUntilFinished_spec :
    ∀ (fuel : Nat) (flow : PresentFlowState) (board : List TeamStatus)
      (opids : List String) (awards : List (String × List String))
      (final : List TeamStatus),
      advanceUntilFinished fuel flow board opids awards = some final →
      MInv flow board →
      (final.map finView).Perm (board.map finView) ∧
      final.Pairwise (fun a b => teamStatusCmp a b ≠ .gt) ∧
      (∀ t ∈ final, teamWF t ∧ team_has_pending_freeze t = false) ∧
      (final.map (fun t => t.team_id)).Nodup := by
  intro fuel
  induction fuel with
  | zero =>
    intro flow board opids awards final h hinv
    rw [advanceUntilFinished_eq] at h
    split at h
    next hph =>
      simp only [Option.some.injEq] at h
      subst h
      obtain ⟨hnd, hsort, hwf, hfin⟩ := hinv
      rw [hph] at hwf
      have hclean := hfin hph
      refine ⟨List.Perm.refl _, hsort, ?_, hnd⟩
      intro t ht
      exact ⟨hwf t ht, hclean t ht⟩
    next hph =>
      simp at h
  | succ n ih =>
    intro flow board opids awards final h hinv
    rw [advanceUntilFinished_eq] at h
    split at h
    next hph =>
      simp only [Option.some.injEq] at h
      subst h
      obtain ⟨hnd, hsort, hwf, hfin⟩ := hinv
      rw [hph] at hwf
      have hclean := hfin hph
      refine ⟨List.Perm.refl _, hsort, ?_, hnd⟩
      intro t ht
      exact ⟨hwf t ht, hclean t ht⟩
    next hph =>
      cases hadv : advance_space_phase flow board opids awards with
      | none =>
        rw [hadv] at h
        simp at h
      | some tup =>
        obtain ⟨f2, b2, a2, o2⟩ := tup
        rw [hadv] at h
        simp only [] at h
        obtain ⟨hinv2, hperm2⟩ :=
          advance_preserves flow board opids awards f2 b2 a2 o2 hadv hinv
        obtain ⟨hp, hs, hwc, hn⟩ := ih f2 b2 opids a2 final h hinv2
        exact ⟨hp.trans hperm2, hs, hwc, hn⟩
/-- The claim's rank-order projection of a leaderboard row. -/
def rankTriple (ts : TeamStatus) : String × Int × Int :=
  (ts.team_id, ts.total_points, ts.total_penalty)

theorem values_map_id_eq_keys (m : List (String × TeamStatus))
    (hm : ∀ p ∈ m, p.2.team_id = p.1) :
    (alValues m).map (fun t => t.team_id) = alKeys m := by
  unfold alValues alKeys
  rw [List.map_map]
  exact List.map_congr_left (fun p hp => hm p hp)

theorem values_recompute_map (m : List (String × TeamStatus)) :
    (alValues (recomputeTeamTotals m)).map projT =
      (alValues m).map finView := by
  unfold alValues recomputeTeamTotals
  simp only [List.map_map]
  exact List.map_congr_left
    (fun (p : String × TeamStatus) _ => projT_recompute p.2)

/-- C1 (amended): for every successful scoreboard run, if no two distinct
rows of the finalized leaderboard compare equal under the `TeamStatus`
ordering (a full tie on sortorder, points, penalty and last accepted
time), then running `advance_space_phase` from the default flow state on
`leaderboard_pre_freeze` until `Finished` yields a board whose sequence of
`(team_id, total_points, total_penalty)` equals that of
`leaderboard_finalized`.  Without the tie proviso the claim fails
(`c1_claim_false_at_input`): the reveal path orders fully tied teams by
the stable resort while the finalized board orders them by the binary
heap's drain order. -/
theorem reveal_machine_refines_finalized (state : ContestState)
    (config : PyriteConfig) (w : List String) (st' : ContestState)
    (opids : List String) (awards : List (String × List String))
    (fuel : Nat) (final : List TeamStatus)
    (h : validateAndTransform state config = .ok (w, st'))
    (hadv : advanceUntilFinished fuel PresentFlowState.initial
      st'.leaderboard_pre_freeze opids awards = some final)
    (hties : ∀ x ∈ st'.leaderboard_finalized,
      ∀ y ∈ st'.leaderboard_finalized, teamStatusCmp x y = .eq → x = y) :
    final.map rankTriple = st'.leaderboard_finalized.map rankTriple := by
  unfold validateAndTransform at h
  simp only [bind, Except.bind] at h
  split at h
  · exact absurd h (by simp)
  next s2 heq1 =>
    split at h
    · exact absurd h (by simp)
    next heq2 =>
      split at h
      · exact absurd h (by simp)
      next heq3 =>
        split at h
        · exact absurd h (by simp)
        next contest heq4 =>
          split at h
          · exact absurd h (by simp)
          next cs heq5 =>
            split at h
            · exact absurd h (by simp)
            next cf heq6 =>
              split at h
              · exact absurd h (by simp)
              next m0 heq7 =>
                split at h
                · exact absurd h (by simp)
                next res heq8 =>
                  split at h
                  · exact absurd h (by simp)
                  next fin heq9 =>
                    simp only [Except.ok.injEq, Prod.mk.injEq] at h
                    obtain ⟨hw, hst⟩ := h
                    have hpre : st'.leaderboard_pre_freeze =
                        mapToSortedLeaderboard res.1 := by rw [← hst]
                    have hfin : st'.leaderboard_finalized = fin := by
                      rw [← hst]
                    have hplain := preFreeze_fold_map s2 cs cf
                      (buildJudgementOrder s2) m0 [] res heq8
                    obtain ⟨c2, cs2, cf2, m02, mfin, hc2, hs2, hf2, hm2,
                      hr2, hfe⟩ := computeFinalizedLeaderboard_ok _ fin heq9
                    have hc2' : s2.contest = some c2 := hc2
                    have hcc : c2 = contest :=
                      Option.some.inj (hc2'.symm.trans heq4)
                    have hcs2 : cs2 = cs := by
                      rw [hcc] at hs2
                      exact Option.some.inj (hs2.symm.trans heq5)
                    have hcf2 : cf2 = cf := by
                      rw [hcc] at hf2
                      exact Option.some.inj (hf2.symm.trans heq6)
                    have hm2' : buildInitialTeamStatusMap s2 = .ok m02 := hm2
                    have hm02 : m02 = m0 :=
                      Except.ok.inj (hm2'.symm.trans heq7)
                    have hr2' : (buildJudgementOrder s2).foldlM
                        (fun m j => applyJudgementToStatus s2 m j cs cf)
                        m0 = .ok mfin := by
                      rw [← hcs2, ← hcf2, ← hm02]
                      exact hr2
                    have hmm : mfin = res.1 :=
                      Except.ok.inj (hr2'.symm.trans hplain)
                    have hfin2 : st'.leaderboard_finalized =
                        mapToSortedLeaderboard
                          (recomputeTeamTotals res.1) := by
                      rw [hfin, hfe, hmm]
                    have hmwf : mapWF res.1 :=
                      foldJudgements_mapWF s2 cs cf _ m0 res.1 hplain
                        (buildInitialTeamStatusMap_mapWF s2 m0 heq7)
                    have hvalwf : ∀ v ∈ alValues res.1, teamWF v := by
                      intro v hv
                      obtain ⟨k, hk⟩ := exists_key_of_mem_alValues hv
                      exact (hmwf.2 (k, v) hk).2
                    have hperm0 := mapToSortedLeaderboard_perm res.1
                    have hb0wf : ∀ t ∈ mapToSortedLeaderboard res.1,
                        teamWF t :=
                      fun t ht => hvalwf t (hperm0.mem_iff.mp ht)
                    obtain ⟨hsw, htr, hrf⟩ := teamStatusCmp_consistent
                      (alValues res.1)
                      (fun ts hts => teamCmpOK_of_teamWF ts (hvalwf ts hts))
                    have hb0sorted := mapToSortedLeaderboard_sorted res.1
                      hsw htr hrf
                    have hvnd : ((alValues res.1).map
                        (fun t => t.team_id)).Nodup := by
                      rw [values_map_id_eq_keys res.1
                        (fun p hp => (hmwf.2 p hp).1)]
                      exact hmwf.1
                    have hb0nd : ((mapToSortedLeaderboard res.1).map
                        (fun t => t.team_id)).Nodup :=
                      ((hperm0.map (fun t => t.team_id)).nodup_iff).mpr hvnd
                    have hminv0 : MInv PresentFlowState.initial
                        (mapToSortedLeaderboard res.1) := by
                      refine ⟨hb0nd, hb0sorted, hb0wf, ?_⟩
                      intro hc
                      simp [PresentFlowState.initial] at hc
                    rw [hpre] at hadv
                    obtain ⟨hpermF, hsortF, hwcF, hndF⟩ :=
                      advanceUntilFinished_spec fuel _ _ opids awards final
                        hadv hminv0
                    have hokRec : ∀ v ∈ alValues
                        (recomputeTeamTotals res.1), teamCmpOK v := by
                      intro v hv
                      obtain ⟨k, v0, hkv, he⟩ := recompute_values_mem hv
                      rw [he]
                      exact teamCmpOK_recompute v0 ((hmwf.2 (k, v0) hkv).2)
                    obtain ⟨hsw2, htr2, hrf2⟩ := teamStatusCmp_consistent
                      (alValues (recomputeTeamTotals res.1)) hokRec
                    have hL2sorted := mapToSortedLeaderboard_sorted
                      (recomputeTeamTotals res.1) hsw2 htr2 hrf2
                    have hpermL2 := mapToSortedLeaderboard_perm
                      (recomputeTeamTotals res.1)
                    have hfinalproj : final.map projT =
                        final.map finView :=
                      List.map_congr_left (fun t ht =>
                        projT_eq_finView_of_clean t (hwcF t ht).1
                          (hwcF t ht).2)
                    have p1 : (final.map finView).Perm
                        ((alValues res.1).map finView) :=
                      hpermF.trans (hperm0.map finView)
                    have p2 : ((mapToSortedLeaderboard
                        (recomputeTeamTotals res.1)).map projT).Perm
                        ((alValues res.1).map finView) := by
                      have hp := hpermL2.map projT
                      rw [values_recompute_map] at hp
                      exact hp
                    have hbigperm : (final.map projT).Perm
                        ((mapToSortedLeaderboard
                          (recomputeTeamTotals res.1)).map projT) := by
                      rw [hfinalproj]
                      exact p1.trans p2.symm
                    have hsortFp : (final.map projT).Pairwise
                        (fun a b => teamStatusCmp a b ≠ .gt) := by
                      rw [List.pairwise_map]
                      exact hsortF
                    have hsortL2p : ((mapToSortedLeaderboard
                        (recomputeTeamTotals res.1)).map projT).Pairwise
                        (fun a b => teamStatusCmp a b ≠ .gt) := by
                      rw [List.pairwise_map]
                      exact hL2sorted
                    have hanti : ∀ x ∈ final.map projT,
                        ∀ y ∈ final.map projT,
                        teamStatusCmp x y ≠ .gt →
                        teamStatusCmp y x ≠ .gt → x = y := by
                      intro x hx y hy hxy hyx
                      obtain ⟨x0, hx0, hxe⟩ := List.mem_map.mp
                        (hbigperm.mem_iff.mp hx)
                      obtain ⟨y0, hy0, hye⟩ := List.mem_map.mp
                        (hbigperm.mem_iff.mp hy)
                      subst hxe
                      subst hye
                      have hokx : teamCmpOK x0 :=
                        hokRec x0 (hpermL2.mem_iff.mp hx0)
                      have hoky : teamCmpOK y0 :=
                        hokRec y0 (hpermL2.mem_iff.mp hy0)
                      have hxy0 : teamStatusCmp x0 y0 ≠ .gt := hxy
                      have hyx0 : teamStatusCmp y0 x0 ≠ .gt := hyx
                      have heqc : teamStatusCmp x0 y0 = .eq := by
                        cases hc : teamStatusCmp x0 y0 with
                        | lt =>
                          exact absurd
                            ((teamStatusCmp_swap_ok y0 x0 hoky hokx).mpr hc)
                            hyx0
                        | eq => rfl
                        | gt => exact absurd hc hxy0
                      have hx0f : x0 ∈ st'.leaderboard_finalized := by
                        rw [hfin2]
                        exact hx0
                      have hy0f : y0 ∈ st'.leaderboard_finalized := by
                        rw [hfin2]
                        exact hy0
                      rw [hties x0 hx0f y0 hy0f heqc]
                    have heqlists : final.map projT =
                        (mapToSortedLeaderboard
                          (recomputeTeamTotals res.1)).map projT :=
                      eq_of_perm_of_pairwise_local hbigperm hsortFp
                        hsortL2p hanti
                    have htri : ∀ (l : List TeamStatus),
                        l.map rankTriple = (l.map projT).map rankTriple := by
                      intro l
                      rw [List.map_map]
                      rfl
                    rw [hfin2, htri final, htri (mapToSortedLeaderboard
                      (recomputeTeamTotals res.1)), heqlists]

/-- C1 counterexample state: two teams, inserted in the order B, A, each
solving the same problem at the same time during the freeze — a full tie
on every ranking key. -/
def c1TieState : ContestState :=
  { ContestState.new with
    contest := some fxContest
    judgement_types := [("AC", fxAC)]
    groups := [("G", fxGroup)]
    teams := [("B", fxTeam "B"), ("A", fxTeam "A")]
    problems := [("P", fxProblem "P" 1)]
    submissions := [("s1", fxSubmission "s1" "B" "P" (some 15000)),
                    ("s2", fxSubmission "s2" "A" "P" (some 15000))]
    judgements := [("j1", fxJudgement "j1" "s1" (some 15000)),
                   ("j2", fxJudgement "j2" "s2" (some 15000))] }

/-- The concrete pipeline output on `c1TieState`. -/
def c1TieRun : List String × ContestState :=
  ((validateAndTransform c1TieState fxConfig).toOption).getD
    ([], ContestState.new)

/-- The reveal machine's final board on `c1TieState`. -/
def c1TieFinal : List TeamStatus :=
  (advanceUntilFinished 10 PresentFlowState.initial
    c1TieRun.2.leaderboard_pre_freeze [] []).getD []

/-- C1 (counterexample): on `c1TieState` the scoreboard stage succeeds and
the reveal machine reaches `Finished`, but its board reads `B, A` (the
stable resort keeps the revealed order of the fully tied teams) while
`leaderboard_finalized` reads `A, B` (the heap drain), so the claimed
order-equality of the `(team_id, total_points, total_penalty)` sequences
fails. -/
theorem c1_claim_false_at_input :
    validateAndTransform c1TieState fxConfig =
      .ok (c1TieRun.1, c1TieRun.2) ∧
    advanceUntilFinished 10 PresentFlowState.initial
      c1TieRun.2.leaderboard_pre_freeze [] [] = some c1TieFinal ∧
    c1TieFinal.map rankTriple ≠
      c1TieRun.2.leaderboard_finalized.map rankTriple :=
  ⟨by rfl, by rfl, by decide⟩

/-- The concrete pipeline output on the tie-free witness state. -/
def c1WitRun : List String × ContestState :=
  ((validateAndTransform c4WitState fxConfig).toOption).getD
    ([], ContestState.new)

/-- The reveal machine's final board on the witness state. -/
def c1WitFinal : List TeamStatus :=
  (advanceUntilFinished 2 PresentFlowState.initial
    c1WitRun.2.leaderboard_pre_freeze [] []).getD []

/-- C1 (witness): on a one-team contest with an unfrozen solve the
amended refinement applies concretely — the machine's final board carries
the finalized `(team_id, total_points, total_penalty)` sequence. -/
theorem reveal_machine_refines_finalized_witness :
    c1WitFinal.map rankTriple =
      c1WitRun.2.leaderboard_finalized.map rankTriple :=
  reveal_machine_refines_finalized c4WitState fxConfig c1WitRun.1
    c1WitRun.2 [] [] 2 c1WitFinal (by rfl) (by rfl) (by decide)

end Pyrite
